import Mathlib

/-!
# UART DMA receive reconciler and transmit accumulator (`UART_STM32G4xx.c`)

A shallow embedding of the DMA receive callbacks
(`uart_dmarx_idle_callback`, `uart_dmarx_halfdone_callback`,
`uart_dmarx_done_callback`, `uart_dmarx_read`) and of the DMA transmit buffer
(`uart_dmatx_write`, `uart_dmatx_send`).

Conventions.
* `uint32_t` values are natural numbers; every operation that can leave the
  range is written with an explicit `% 4294967296`.  The target is a 32-bit
  Cortex-M4, so `size_t` is 32 bits wide as well.
* A pointer to bytes is the view of memory from that pointer on: `p i` is the
  byte at `p + i`.
* The static per-port objects (`lpuart1_rx_fifo`, ...) are the components of
  `State`, indexed by `Port`; a pointer to one of them is its `Port`.
* Calls into the HAL and into the ring buffer library are recorded as a list
  of `Action`s in call order.
-/

namespace UartCsp

/-! ## Data model -/

/-- The six serial ports the file is generated for. -/
inductive Port
  | LPUART1 | USART1 | USART2 | USART3 | UART4 | UART5
  deriving DecidableEq, Repr

/-- Compile-time constants that come from `CSP_Config.h` and from the device
and HAL headers: peripheral base addresses (`LPUART1_BASE`, ...), the per-port
feature switches (`LPUART1_RX_DMA`, `LPUART1_TX_DMA`, ...), the value of
`DMA_CIRCULAR` and the values of the `HAL_UART_STATE_...` constants that
`uart_dmatx_resize_buf` tests `gState` against.  Further the
`HAL_UART_ERROR_...` codes of `HAL_UART_ErrorCallback`, `HAL_UART_STATE_RESET`,
the per-port switches for the pins (`LPUART1_TX`, `LPUART1_RX`, `LPUART1_CTS`,
`LPUART1_RTS`) and for the UART interrupt (`LPUART1_IT_ENABLE`), and
`USE_HAL_UART_REGISTER_CALLBACKS`. -/
structure CSP_Config where
  BASE : Port → Nat
  RX_DMA : Port → Bool
  TX_DMA : Port → Bool
  DMA_CIRCULAR : Nat
  HAL_UART_STATE_READY : Nat
  HAL_UART_STATE_BUSY : Nat
  HAL_UART_STATE_BUSY_TX : Nat
  HAL_UART_STATE_RESET : Nat
  HAL_UART_ERROR_NONE : Nat
  HAL_UART_ERROR_PE : Nat
  HAL_UART_ERROR_NE : Nat
  HAL_UART_ERROR_FE : Nat
  HAL_UART_ERROR_ORE : Nat
  HAL_UART_ERROR_DMA : Nat
  PIN_TX : Port → Bool
  PIN_RX : Port → Bool
  PIN_CTS : Port → Bool
  PIN_RTS : Port → Bool
  IT_ENABLE : Port → Bool
  USE_HAL_UART_REGISTER_CALLBACKS : Bool

/-- The fields of the HAL DMA handle that the file reads: the channel's
remaining-count register (what `__HAL_DMA_GET_COUNTER` returns) and
`Init.Mode`. -/
structure DMA_HandleTypeDef where
  CNDTR : Nat
  Mode : Nat

/-- The fields of the HAL UART handle that the file reads.  `RxXferSize` and
`RxXferCount` are `uint16_t`; `hdmarx` and `hdmatx` are pointers that may be
`NULL`. -/
structure UART_HandleTypeDef where
  Instance : Nat
  pRxBuffPtr : Nat → Nat
  RxXferSize : Nat
  RxXferCount : Nat
  gState : Nat
  hdmarx : Option DMA_HandleTypeDef
  hdmatx : Option DMA_HandleTypeDef

/-- Status codes returned by HAL calls. -/
inductive HAL_StatusTypeDef
  | HAL_OK | HAL_ERROR | HAL_BUSY | HAL_TIMEOUT
  deriving DecidableEq, Repr

/-- What the hardware and the allocator answer while a function runs: the
value of the transfer-complete flag at the n-th poll, the status of the n-th
`HAL_UART_Receive_DMA` call, the status of `HAL_UART_Transmit_DMA`, and the
block `CSP_REALLOC` returns (`none` for `NULL`).  Further the status of the
n-th `HAL_UART_Receive_IT` call, the values returned by `HAL_UART_GetError` and
`HAL_UART_GetState`, and the statuses of `HAL_DMA_DeInit` for the receive and
the transmit channel and of `HAL_UART_DeInit`. -/
structure HAL where
  UART_FLAG_TC : Nat → Bool
  Receive_DMA : Nat → HAL_StatusTypeDef
  Transmit_DMA : HAL_StatusTypeDef
  CSP_REALLOC : Option (Nat → Nat)
  Receive_IT : Nat → HAL_StatusTypeDef
  GetError : Nat
  GetState : Nat
  DMA_DeInit_rx : HAL_StatusTypeDef
  DMA_DeInit_tx : HAL_StatusTypeDef
  UART_DeInit : HAL_StatusTypeDef

/-- Modelled from the spec: the byte ring buffer of `ring_fifo/ring_fifo.h`,
which is not part of the sources at hand.  The spec describes it as a
fixed-capacity circular byte store with a tracked fill level; `data` holds the
stored bytes, oldest first. -/
structure ring_fifo_t where
  capacity : Nat
  data : List Nat

/-- Modelled from the spec: `ring_fifo_write` is a best-effort, non-blocking
write.  It appends the first bytes of the source that still fit in the free
space and returns how many it took. -/
def ring_fifo_write (fifo : ring_fifo_t) (src : Nat → Nat) (len : Nat) : ring_fifo_t × Nat :=
  let n := min len (fifo.capacity - fifo.data.length)
  ({ fifo with data := fifo.data ++ (List.range n).map src }, n)

/-- Modelled from the spec: `ring_fifo_read` drains up to `max_length` of the
oldest bytes, in arrival order, and returns them (0 bytes when empty). -/
def ring_fifo_read (fifo : ring_fifo_t) (max_length : Nat) : ring_fifo_t × List Nat :=
  ({ fifo with data := fifo.data.drop max_length }, fifo.data.take max_length)

/-- Send buffer of a port (`uart_tx_buf_t`).  `send_buf` is the memory from the
address of the allocated block onwards: the block is the positions below
`buf_size`, and a position at or above `buf_size` is memory past the block. -/
structure uart_tx_buf_t where
  send_buf : Nat → Nat
  head_ptr : Nat
  buf_size : Nat

/-- Receive state of a port (`uart_rx_fifo_t`). -/
structure uart_rx_fifo_t where
  rx_fifo : ring_fifo_t
  head_ptr : Nat
  buf_size : Nat
  fifo_size : Nat

/-- The static per-port objects of the file. -/
structure State where
  rx : Port → uart_rx_fifo_t
  tx : Port → uart_tx_buf_t

/-- Store to one port's receive object. -/
def State.setRx (s : State) (p : Port) (v : uart_rx_fifo_t) : State :=
  { s with rx := Function.update s.rx p v }

/-- Store to one port's transmit object. -/
def State.setTx (s : State) (p : Port) (v : uart_tx_buf_t) : State :=
  { s with tx := Function.update s.tx p v }

/-- Calls that leave the file, in the order they are made.
`ring_fifo_write p offset len` stands for
`ring_fifo_write(rx_fifo of p, huart->pRxBuffPtr + offset, len)`;
`HAL_UART_Transmit_DMA p src size` for a transfer whose source is the send
buffer of `p` (contents `src` at the time of the call) with the 16-bit size
argument `size`.  `HAL_UART_Receive_IT back size` stands for
`HAL_UART_Receive_IT(huart, huart->pRxBuffPtr - back, size)`;
`printf_Transmit_DMA src size` and `printf_Transmit src size timeout` for the
calls `HAL_UART_Transmit_DMA(huart, uart_buffer, size)` and
`HAL_UART_Transmit(huart, uart_buffer, size, timeout)` of `uart_printf`, with
`src` the contents of `uart_buffer`. -/
inductive Action
  | ring_fifo_write (p : Port) (offset : Nat) (len : Nat)
  | HAL_UART_Receive_DMA (size : Nat)
  | HAL_UNLOCK
  | HAL_UART_Transmit_DMA (p : Port) (src : Nat → Nat) (size : Nat)
  | HAL_UART_CLEAR_PEFLAG
  | HAL_UART_CLEAR_NEFLAG
  | HAL_UART_CLEAR_FEFLAG
  | HAL_UART_CLEAR_OREFLAG
  | HAL_UART_Receive_IT (back : Int) (size : Nat)
  | printf_Transmit_DMA (src : Nat → Nat) (size : Nat)
  | printf_Transmit (src : Nat → Nat) (size : Nat) (timeout : Nat)

/-- Ways a call can fail to produce a result: a `NULL` pointer is
dereferenced, `%` is taken by zero, or a busy-wait loop is still spinning when
the fuel is used up. -/
inductive Fault
  | null_deref | div_by_zero | out_of_fuel
  deriving DecidableEq, Repr

/-- Subtraction of two `uint32_t` values. -/
def sub32 (a b : Nat) : Nat := (a + 4294967296 - b) % 4294967296

/-- The bytes `memcpy(dst + pos, src, n)` leaves in `dst`. -/
def memcpy (dst : Nat → Nat) (pos : Nat) (src : Nat → Nat) (n : Nat) : Nat → Nat :=
  fun i => if pos ≤ i ∧ i < pos + n then src (i - pos) else dst i

/-! ## Port registry -/

/-- The `switch` of `uart_rx_identify`: the first enabled port whose base
address is the handle's `Instance`. -/
def uart_rx_identify (cfg : CSP_Config) (huart : UART_HandleTypeDef) : Option Port :=
  if cfg.RX_DMA .LPUART1 && huart.Instance == cfg.BASE .LPUART1 then some .LPUART1
  else if cfg.RX_DMA .USART1 && huart.Instance == cfg.BASE .USART1 then some .USART1
  else if cfg.RX_DMA .USART2 && huart.Instance == cfg.BASE .USART2 then some .USART2
  else if cfg.RX_DMA .USART3 && huart.Instance == cfg.BASE .USART3 then some .USART3
  else if cfg.RX_DMA .UART4 && huart.Instance == cfg.BASE .UART4 then some .UART4
  else if cfg.RX_DMA .UART5 && huart.Instance == cfg.BASE .UART5 then some .UART5
  else none

/-- The `switch` of `uart_tx_identify`. -/
def uart_tx_identify (cfg : CSP_Config) (huart : UART_HandleTypeDef) : Option Port :=
  if cfg.TX_DMA .LPUART1 && huart.Instance == cfg.BASE .LPUART1 then some .LPUART1
  else if cfg.TX_DMA .USART1 && huart.Instance == cfg.BASE .USART1 then some .USART1
  else if cfg.TX_DMA .USART2 && huart.Instance == cfg.BASE .USART2 then some .USART2
  else if cfg.TX_DMA .USART3 && huart.Instance == cfg.BASE .USART3 then some .USART3
  else if cfg.TX_DMA .UART4 && huart.Instance == cfg.BASE .UART4 then some .UART4
  else if cfg.TX_DMA .UART5 && huart.Instance == cfg.BASE .UART5 then some .UART5
  else none

/-! ## DMA receive callbacks -/

/-- The function `uart_dmarx_idle_callback`. -/
def uart_dmarx_idle_callback (cfg : CSP_Config) (huart : UART_HandleTypeDef) (s : State) :
    Except Fault (State × List Action) :=
  match uart_rx_identify cfg huart with
  | none => .ok (s, [])
  | some p =>
    match huart.hdmarx with
    | none => .error .null_deref
    | some hdmarx =>
      if huart.RxXferSize = 0 then .error .div_by_zero
      else
        let uart_rx_fifo := s.rx p
        let tail_ptr := sub32 huart.RxXferSize hdmarx.CNDTR
        let offset := uart_rx_fifo.head_ptr % huart.RxXferSize
        let copy := sub32 tail_ptr offset
        let head_ptr := (uart_rx_fifo.head_ptr + copy) % 4294967296
        let fifo := (ring_fifo_write uart_rx_fifo.rx_fifo
          (fun i => huart.pRxBuffPtr (offset + i)) copy).1
        .ok (s.setRx p { uart_rx_fifo with head_ptr := head_ptr, rx_fifo := fifo },
          [.ring_fifo_write p offset copy])

/-- The function `uart_dmarx_halfdone_callback`. -/
def uart_dmarx_halfdone_callback (cfg : CSP_Config) (huart : UART_HandleTypeDef) (s : State) :
    Except Fault (State × List Action) :=
  match uart_rx_identify cfg huart with
  | none => .ok (s, [])
  | some p =>
    if huart.RxXferSize = 0 then .error .div_by_zero
    else
      let uart_rx_fifo := s.rx p
      let tail_ptr := (huart.RxXferSize >>> 1) + (huart.RxXferSize &&& 1)
      let offset := uart_rx_fifo.head_ptr % huart.RxXferSize
      let copy := sub32 tail_ptr offset
      let head_ptr := (uart_rx_fifo.head_ptr + copy) % 4294967296
      let fifo := (ring_fifo_write uart_rx_fifo.rx_fifo
        (fun i => huart.pRxBuffPtr (offset + i)) copy).1
      .ok (s.setRx p { uart_rx_fifo with head_ptr := head_ptr, rx_fifo := fifo },
        [.ring_fifo_write p offset copy])

/-- The re-arm loop at the end of `uart_dmarx_done_callback`:
`while (HAL_UART_Receive_DMA(...) != HAL_OK) { __HAL_UNLOCK(huart); }`,
started at the `n`-th call of `HAL_UART_Receive_DMA`. -/
def rearm_loop (hal : HAL) (size : Nat) : Nat → Nat → Option (List Action)
  | 0, _ => none
  | fuel + 1, n =>
    if hal.Receive_DMA n = .HAL_OK then some [.HAL_UART_Receive_DMA size]
    else (rearm_loop hal size fuel (n + 1)).map
      (fun rest => .HAL_UART_Receive_DMA size :: .HAL_UNLOCK :: rest)

/-- The function `uart_dmarx_done_callback`. -/
def uart_dmarx_done_callback (cfg : CSP_Config) (hal : HAL) (fuel : Nat)
    (huart : UART_HandleTypeDef) (s : State) : Except Fault (State × List Action) :=
  match uart_rx_identify cfg huart with
  | none => .ok (s, [])
  | some p =>
    if huart.RxXferSize = 0 then .error .div_by_zero
    else
      let uart_rx_fifo := s.rx p
      let tail_ptr := huart.RxXferSize
      let offset := uart_rx_fifo.head_ptr % huart.RxXferSize
      let copy := sub32 tail_ptr offset
      let head_ptr := (uart_rx_fifo.head_ptr + copy) % 4294967296
      let fifo := (ring_fifo_write uart_rx_fifo.rx_fifo
        (fun i => huart.pRxBuffPtr (offset + i)) copy).1
      let s1 := s.setRx p { uart_rx_fifo with head_ptr := head_ptr, rx_fifo := fifo }
      match huart.hdmarx with
      | none => .error .null_deref
      | some hdmarx =>
        if hdmarx.Mode ≠ cfg.DMA_CIRCULAR then
          match rearm_loop hal huart.RxXferSize fuel 0 with
          | none => .error .out_of_fuel
          | some calls => .ok (s1, .ring_fifo_write p offset copy :: calls)
        else .ok (s1, [.ring_fifo_write p offset copy])

/-- The function `uart_dmarx_read`.  `buf` says whether the destination
pointer is non-`NULL`; the result is the new state, the returned length and the
bytes stored at `buf[0..]`. -/
def uart_dmarx_read (cfg : CSP_Config) (huart : UART_HandleTypeDef) (buf : Bool)
    (buf_size : Nat) (s : State) : State × Nat × List Nat :=
  if buf = false ∨ buf_size = 0 then (s, 0, [])
  else
    match uart_rx_identify cfg huart with
    | none => (s, 0, [])
    | some p =>
      let uart_rx_fifo := s.rx p
      let r := ring_fifo_read uart_rx_fifo.rx_fifo buf_size
      (s.setRx p { uart_rx_fifo with rx_fifo := r.1 }, r.2.length, r.2)

/-- The function `uart_dmarx_resize_fifo`: new state and returned status. -/
def uart_dmarx_resize_fifo (cfg : CSP_Config) (huart : UART_HandleTypeDef)
    (buf_size fifo_size : Nat) (s : State) : State × Nat :=
  if buf_size = 0 ∨ fifo_size = 0 then (s, 3)
  else
    match uart_rx_identify cfg huart with
    | none => (s, 1)
    | some p =>
      match huart.hdmatx with
      | some _ => (s, 2)
      | none =>
        let uart_rx_fifo := s.rx p
        (s.setRx p { uart_rx_fifo with buf_size := buf_size, fifo_size := fifo_size }, 0)

/-- The function `uart_dmarx_get_buf_size`. -/
def uart_dmarx_get_buf_size (cfg : CSP_Config) (huart : UART_HandleTypeDef) (s : State) : Nat :=
  match uart_rx_identify cfg huart with
  | none => 0
  | some p => (s.rx p).buf_size

/-- The function `uart_dmarx_get_fifo_size`. -/
def uart_dmarx_get_fifo_size (cfg : CSP_Config) (huart : UART_HandleTypeDef) (s : State) : Nat :=
  match uart_rx_identify cfg huart with
  | none => 0
  | some p => (s.rx p).fifo_size

/-! ## DMA transmit buffer -/

/-- The function `uart_dmatx_write`.  `data` is `none` for a `NULL` pointer. -/
def uart_dmatx_write (cfg : CSP_Config) (huart : UART_HandleTypeDef)
    (data : Option (Nat → Nat)) (len : Nat) (s : State) : State × Nat :=
  match data with
  | none => (s, 0)
  | some d =>
    if len = 0 then (s, 0)
    else
      match uart_tx_identify cfg huart with
      | none => (s, 0)
      | some p =>
        let send_tx_buf := s.tx p
        let buf_remain := sub32 send_tx_buf.buf_size send_tx_buf.head_ptr
        if buf_remain < len then
          (s.setTx p { send_tx_buf with
              send_buf := memcpy send_tx_buf.send_buf send_tx_buf.head_ptr d buf_remain,
              head_ptr := (send_tx_buf.head_ptr + buf_remain) % 4294967296 },
            buf_remain)
        else
          (s.setTx p { send_tx_buf with
              send_buf := memcpy send_tx_buf.send_buf send_tx_buf.head_ptr d len,
              head_ptr := (send_tx_buf.head_ptr + len) % 4294967296 },
            len)

/-- The loop `while (__HAL_UART_GET_FLAG(huart, UART_FLAG_TC) == RESET);`
started at the `n`-th poll; the result is the number of the poll that read
`SET`. -/
def wait_TC (hal : HAL) : Nat → Nat → Option Nat
  | 0, _ => none
  | fuel + 1, n => if hal.UART_FLAG_TC n then some n else wait_TC hal fuel (n + 1)

/-- The function `uart_dmatx_send`: new state, returned length and the calls
made. -/
def uart_dmatx_send (cfg : CSP_Config) (hal : HAL) (fuel : Nat) (huart : UART_HandleTypeDef)
    (s : State) : Except Fault (State × Nat × List Action) :=
  match uart_tx_identify cfg huart with
  | none => .ok (s, 0, [])
  | some p =>
    match huart.hdmatx with
    | none => .ok (s, 0, [])
    | some _ =>
      let send_tx_buf := s.tx p
      let len := send_tx_buf.head_ptr
      if len = 0 then .ok (s, 0, [])
      else
        match wait_TC hal fuel 0 with
        | none => .error .out_of_fuel
        | some _ =>
          .ok (s.setTx p { send_tx_buf with head_ptr := 0 }, len,
            [.HAL_UART_Transmit_DMA p send_tx_buf.send_buf (len % 65536)])

/-- The value tested by `uart_dmatx_resize_buf` to see whether the UART is
busy: `(huart->gState) & (HAL_UART_STATE_BUSY_TX | HAL_UART_STATE_BUSY) &
~HAL_UART_STATE_READY`, on 32-bit values. -/
def gState_busy_bits (cfg : CSP_Config) (huart : UART_HandleTypeDef) : Nat :=
  (huart.gState &&& (cfg.HAL_UART_STATE_BUSY_TX ||| cfg.HAL_UART_STATE_BUSY))
    &&& (4294967295 ^^^ cfg.HAL_UART_STATE_READY)

/-- The function `uart_dmatx_resize_buf`: new state and returned status. -/
def uart_dmatx_resize_buf (cfg : CSP_Config) (hal : HAL) (huart : UART_HandleTypeDef)
    (size : Nat) (s : State) : State × Nat :=
  if size = 0 then (s, 4)
  else
    match uart_tx_identify cfg huart with
    | none => (s, 1)
    | some p =>
      if gState_busy_bits cfg huart ≠ 0 then (s, 3)
      else
        let send_tx_buf := s.tx p
        match huart.hdmatx with
        | none => (s.setTx p { send_tx_buf with buf_size := size }, 0)
        | some _ =>
          match hal.CSP_REALLOC with
          | none => (s, 2)
          | some new_ptr =>
            (s.setTx p { send_tx_buf with send_buf := new_ptr, buf_size := size }, 0)

/-- The function `uart_damtx_get_buf_szie`. -/
def uart_damtx_get_buf_szie (cfg : CSP_Config) (huart : UART_HandleTypeDef) (s : State) : Nat :=
  match uart_tx_identify cfg huart with
  | none => 0
  | some p => (s.tx p).buf_size

/-! ## The shared reconciliation step and runs of callbacks -/

/-- The assignments the three receive callbacks have in common, for a given
value of `tail_ptr`: new state and the `ring_fifo_write` call. -/
def reconcile (huart : UART_HandleTypeDef) (tail_ptr : Nat) (p : Port) (s : State) :
    State × List Action :=
  let uart_rx_fifo := s.rx p
  let offset := uart_rx_fifo.head_ptr % huart.RxXferSize
  let copy := sub32 tail_ptr offset
  let head_ptr := (uart_rx_fifo.head_ptr + copy) % 4294967296
  let fifo := (ring_fifo_write uart_rx_fifo.rx_fifo
    (fun i => huart.pRxBuffPtr (offset + i)) copy).1
  (s.setRx p { uart_rx_fifo with head_ptr := head_ptr, rx_fifo := fifo },
    [.ring_fifo_write p offset copy])

/-- The re-arm loop of the done callback comes to an end: the receive DMA is
circular (no loop), or one of the first `fuel` calls of
`HAL_UART_Receive_DMA` returns `HAL_OK`. -/
def rearm_ends (cfg : CSP_Config) (hal : HAL) (fuel : Nat) (d : DMA_HandleTypeDef) : Prop :=
  d.Mode = cfg.DMA_CIRCULAR ∨ ∃ k, k < fuel ∧ hal.Receive_DMA k = .HAL_OK

/-- An action is a `ring_fifo_write` call. -/
def Action.isWrite : Action → Bool
  | .ring_fifo_write _ _ _ => true
  | _ => false

/-- One invocation of a receive callback, with the handle as the callback
finds it. -/
inductive RxCall
  | idle (huart : UART_HandleTypeDef)
  | halfdone (huart : UART_HandleTypeDef)
  | done (huart : UART_HandleTypeDef)

/-- The handle a callback is invoked with. -/
def RxCall.huart : RxCall → UART_HandleTypeDef
  | .idle h => h
  | .halfdone h => h
  | .done h => h

/-- Whether the call is the full-transfer callback, which ends a pass over the
hardware buffer. -/
def RxCall.isDone : RxCall → Bool
  | .done _ => true
  | _ => false

/-- Run one callback. -/
def RxCall.run (cfg : CSP_Config) (hal : HAL) (fuel : Nat) :
    RxCall → State → Except Fault (State × List Action)
  | .idle h, s => uart_dmarx_idle_callback cfg h s
  | .halfdone h, s => uart_dmarx_halfdone_callback cfg h s
  | .done h, s => uart_dmarx_done_callback cfg hal fuel h s

/-- Run callbacks one after the other and collect the calls they make. -/
def run_callbacks (cfg : CSP_Config) (hal : HAL) (fuel : Nat) :
    List RxCall → State → Except Fault (State × List Action)
  | [], s => .ok (s, [])
  | c :: cs, s =>
    match c.run cfg hal fuel s with
    | .error e => .error e
    | .ok (s1, a1) =>
      match run_callbacks cfg hal fuel cs s1 with
      | .error e => .error e
      | .ok (s2, a2) => .ok (s2, a1 ++ a2)

/-- The hardware-buffer positions a call hands to the ring buffer of port `p`:
`offset, offset + 1, ..., offset + len - 1` for a `ring_fifo_write`. -/
def Action.positions (p : Port) : Action → List Nat
  | .ring_fifo_write q offset len => if q = p then List.range' offset len else []
  | _ => []

/-- The positions handed to the ring buffer of port `p` by a list of calls,
concatenated in call order. -/
def written_positions (p : Port) (calls : List Action) : List Nat :=
  (calls.map (Action.positions p)).flatten

/-- The hardware write position a call reports: `ceil(L/2)` for the half
callback, `L` minus the DMA remaining counter for the idle callback, `L` for
the full callback. -/
def RxCall.tail : RxCall → Nat
  | .idle h => h.RxXferSize - (match h.hdmarx with | some d => d.CNDTR | none => 0)
  | .halfdone h => (h.RxXferSize + 1) / 2
  | .done h => h.RxXferSize

/-- A call on the recognised port `p` with buffer length `L`: the handle has
`RxXferSize = L`, is identified as `p`, has a receive DMA handle whose counter
is at most `L`, and, for the done callback, the re-arm loop ends. -/
def RxCall.wf (cfg : CSP_Config) (hal : HAL) (fuel : Nat) (p : Port) (L : Nat)
    (c : RxCall) : Prop :=
  c.huart.RxXferSize = L ∧ uart_rx_identify cfg c.huart = some p
    ∧ ∃ d, c.huart.hdmarx = some d ∧ d.CNDTR ≤ L
      ∧ (c.isDone = true → rearm_ends cfg hal fuel d)

/-- Calls whose reported tails fit a monotonically advancing hardware write
position, starting from position `pos` in the current pass: within a pass the
tails do not decrease and are at most `L`; the done callback ends the pass. -/
def consistent (cfg : CSP_Config) (hal : HAL) (fuel : Nat) (p : Port) (L : Nat) :
    Nat → List RxCall → Prop
  | _, [] => True
  | pos, c :: cs =>
    c.wf cfg hal fuel p L ∧ pos ≤ c.tail ∧ c.tail ≤ L
      ∧ consistent cfg hal fuel p L (if c.isDone then 0 else c.tail) cs

/-- The write position reported last in the pass that is open at the end. -/
def final_pos : Nat → List RxCall → Nat
  | pos, [] => pos
  | _, c :: cs => final_pos (if c.isDone then 0 else c.tail) cs

/-- The positions the hardware wrote, in order: `0 .. L - 1` for every
finished pass, then `0 .. t - 1` for the open pass with last reported tail
`t`. -/
def hw_positions (L : Nat) (cs : List RxCall) : List Nat :=
  (List.replicate (cs.countP RxCall.isDone) (List.range L)).flatten
    ++ List.range (final_pos 0 cs)

/-- A payload as the pointer argument of `uart_dmatx_write`: the bytes of the
list, then zeros. -/
def payload (d : List Nat) : Nat → Nat := fun i => d.getD i 0

/-- One `uart_dmatx_write(huart, d, len(d))` call after the other, for the
payloads of the list in order. -/
def uart_dmatx_write_all (cfg : CSP_Config) (huart : UART_HandleTypeDef) :
    List (List Nat) → State → State
  | [], s => s
  | d :: ds, s =>
    uart_dmatx_write_all cfg huart ds (uart_dmatx_write cfg huart (some (payload d)) d.length s).1

/-! ## Error callback -/

/-- The loop `while (HAL_UART_Receive_IT(...)) { __HAL_UNLOCK(huart); }` of
`HAL_UART_ErrorCallback`, started at the `n`-th call of
`HAL_UART_Receive_IT`. -/
def rearm_IT_loop (hal : HAL) (back : Int) (size : Nat) : Nat → Nat → Option (List Action)
  | 0, _ => none
  | fuel + 1, n =>
    if hal.Receive_IT n = .HAL_OK then some [.HAL_UART_Receive_IT back size]
    else (rearm_IT_loop hal back size fuel (n + 1)).map
      (fun rest => .HAL_UART_Receive_IT back size :: .HAL_UNLOCK :: rest)

/-- The `switch (error_code)` of `HAL_UART_ErrorCallback`: the flag cleared
for an error code, by exact match of the code against the case labels. -/
def error_switch (cfg : CSP_Config) (error_code : Nat) : List Action :=
  if error_code = cfg.HAL_UART_ERROR_PE then [.HAL_UART_CLEAR_PEFLAG]
  else if error_code = cfg.HAL_UART_ERROR_NE then [.HAL_UART_CLEAR_NEFLAG]
  else if error_code = cfg.HAL_UART_ERROR_FE then [.HAL_UART_CLEAR_FEFLAG]
  else if error_code = cfg.HAL_UART_ERROR_ORE then [.HAL_UART_CLEAR_OREFLAG]
  else if error_code = cfg.HAL_UART_ERROR_DMA then []
  else []

/-- The function `HAL_UART_ErrorCallback`.  It reads and writes none of the
per-port objects, so the state it returns is the state it was given. -/
def HAL_UART_ErrorCallback (cfg : CSP_Config) (hal : HAL) (fuel : Nat)
    (huart : UART_HandleTypeDef) (s : State) : Except Fault (State × List Action) :=
  let error_code := hal.GetError
  if cfg.HAL_UART_ERROR_NONE = error_code then .ok (s, [])
  else
    let cleared := error_switch cfg error_code
    match huart.hdmarx with
    | some _ =>
      match rearm_loop hal huart.RxXferSize fuel 0 with
      | none => .error .out_of_fuel
      | some calls => .ok (s, cleared ++ calls)
    | none =>
      match rearm_IT_loop hal ((huart.RxXferSize : Int) - (huart.RxXferCount : Int))
          huart.RxXferSize fuel 0 with
      | none => .error .out_of_fuel
      | some calls => .ok (s, cleared ++ calls)

/-- The reconciliation step of the callbacks with the ring buffer library left
open: `w` stands for an arbitrary `ring_fifo_write` (new ring and returned
count).  `reconcile` is the instance `w = ring_fifo_write`. -/
def reconcile_with (w : ring_fifo_t → (Nat → Nat) → Nat → ring_fifo_t × Nat)
    (huart : UART_HandleTypeDef) (tail_ptr : Nat) (p : Port) (s : State) :
    State × List Action :=
  let uart_rx_fifo := s.rx p
  let offset := uart_rx_fifo.head_ptr % huart.RxXferSize
  let copy := sub32 tail_ptr offset
  let head_ptr := (uart_rx_fifo.head_ptr + copy) % 4294967296
  let fifo := (w uart_rx_fifo.rx_fifo (fun i => huart.pRxBuffPtr (offset + i)) copy).1
  (s.setRx p { uart_rx_fifo with head_ptr := head_ptr, rx_fifo := fifo },
    [.ring_fifo_write p offset copy])

/-! ## Port deinitialisation -/

/-- Pins of a port. -/
inductive Pin
  | TX | RX | CTS | RTS
  deriving DecidableEq, Repr

/-- Interrupt lines of a port: the UART itself and its two DMA channels. -/
inductive Irq
  | UART | RX_DMA | TX_DMA
  deriving DecidableEq, Repr

/-- The two DMA handles of a port. -/
inductive DmaHandle
  | dmarx | dmatx
  deriving DecidableEq, Repr

/-- The three buffers of a port that are freed. -/
inductive Buffer
  | recv_buf | rx_fifo_buf | send_buf
  deriving DecidableEq, Repr

/-- The two callbacks that are unregistered. -/
inductive CallbackId
  | RX_HALFCOMPLETE | RX_COMPLETE
  deriving DecidableEq, Repr

/-- What a deinit function does, in order. -/
inductive DeinitAction
  | RCC_CLK_DISABLE
  | HAL_GPIO_DeInit (pin : Pin)
  | HAL_NVIC_DisableIRQ (irq : Irq)
  | HAL_DMA_Abort (h : DmaHandle)
  | CSP_FREE (b : Buffer)
  | ring_fifo_destroy
  | HAL_DMA_DeInit (h : DmaHandle)
  | HAL_UART_UnRegisterCallback (id : CallbackId)
  | clear_hdmarx
  | clear_hdmatx
  | HAL_UART_DeInit
  deriving DecidableEq, Repr

/-- The statements of a deinit function up to the receive DMA block: clock,
pins and the UART interrupt. -/
def deinit_head (cfg : CSP_Config) (p : Port) : List DeinitAction :=
  [.RCC_CLK_DISABLE]
    ++ (if cfg.PIN_TX p then [.HAL_GPIO_DeInit .TX] else [])
    ++ (if cfg.PIN_RX p then [.HAL_GPIO_DeInit .RX] else [])
    ++ (if cfg.PIN_CTS p then [.HAL_GPIO_DeInit .CTS] else [])
    ++ (if cfg.PIN_RTS p then [.HAL_GPIO_DeInit .RTS] else [])
    ++ (if cfg.IT_ENABLE p then [.HAL_NVIC_DisableIRQ .UART] else [])

/-- The statements of the receive DMA block up to and including
`HAL_DMA_DeInit`. -/
def deinit_rx_first : List DeinitAction :=
  [.HAL_DMA_Abort .dmarx, .CSP_FREE .recv_buf, .CSP_FREE .rx_fifo_buf, .ring_fifo_destroy,
    .HAL_DMA_DeInit .dmarx]

/-- The statements of the receive DMA block after a successful
`HAL_DMA_DeInit`. -/
def deinit_rx_rest (cfg : CSP_Config) : List DeinitAction :=
  [.HAL_NVIC_DisableIRQ .RX_DMA]
    ++ (if cfg.USE_HAL_UART_REGISTER_CALLBACKS then
          [.HAL_UART_UnRegisterCallback .RX_HALFCOMPLETE,
            .HAL_UART_UnRegisterCallback .RX_COMPLETE]
        else [])
    ++ [.clear_hdmarx]

/-- The statements of the transmit DMA block up to and including
`HAL_DMA_DeInit`. -/
def deinit_tx_first : List DeinitAction :=
  [.HAL_DMA_Abort .dmatx, .CSP_FREE .send_buf, .HAL_DMA_DeInit .dmatx]

/-- The statements of the transmit DMA block after a successful
`HAL_DMA_DeInit`. -/
def deinit_tx_rest : List DeinitAction :=
  [.HAL_NVIC_DisableIRQ .TX_DMA, .clear_hdmatx]

/-- The deinit function of port `p` (`lpuart1_deinit`, ..., `uart5_deinit`;
the six are the same text up to the port name): the actions in order and the
returned status (`UART_DEINIT_OK` 0, `UART_DEINIT_FAIL` 1,
`UART_DEINIT_DMA_FAIL` 2, `UART_NO_INIT` 3). -/
def uart_deinit (cfg : CSP_Config) (hal : HAL) (p : Port) : List DeinitAction × Nat :=
  if hal.GetState = cfg.HAL_UART_STATE_RESET then ([], 3)
  else
    let a0 := deinit_head cfg p
    let a1 := if cfg.RX_DMA p then a0 ++ deinit_rx_first else a0
    if cfg.RX_DMA p = true ∧ hal.DMA_DeInit_rx ≠ .HAL_OK then (a1, 2)
    else
      let a2 := if cfg.RX_DMA p then a1 ++ deinit_rx_rest cfg else a1
      let a3 := if cfg.TX_DMA p then a2 ++ deinit_tx_first else a2
      if cfg.TX_DMA p = true ∧ hal.DMA_DeInit_tx ≠ .HAL_OK then (a3, 2)
      else
        let a4 := if cfg.TX_DMA p then a3 ++ deinit_tx_rest else a3
        if hal.UART_DeInit ≠ .HAL_OK then (a4 ++ [.HAL_UART_DeInit], 1)
        else (a4 ++ [.HAL_UART_DeInit], 0)

/-! ## Formatted print -/

/-- The C library function `vsnprintf(buf, size, ...)` for a format whose full
output is `formatted`: it stores at most `size - 1` characters of the output
followed by a terminating 0, and returns the length of the full output. -/
def vsnprintf (buf : Nat → Nat) (size : Nat) (formatted : List Nat) : (Nat → Nat) × Nat :=
  if size = 0 then (buf, formatted.length)
  else
    (fun i =>
      if i < min formatted.length (size - 1) then formatted.getD i 0
      else if i = min formatted.length (size - 1) then 0
      else buf i,
     formatted.length)

/-- The function `uart_printf`, for a format and arguments whose full output is
`formatted`; `uart_buffer` is the static 256-byte buffer.  The result is the
new contents of `uart_buffer`, the returned length and the calls made. -/
def uart_printf (cfg : CSP_Config) (hal : HAL) (fuel : Nat) (huart : UART_HandleTypeDef)
    (uart_buffer : Nat → Nat) (formatted : List Nat) :
    Except Fault ((Nat → Nat) × Nat × List Action) :=
  if huart.gState &&& cfg.HAL_UART_STATE_READY = 0 then .ok (uart_buffer, 0, [])
  else
    match wait_TC hal fuel 0 with
    | none => .error .out_of_fuel
    | some _ =>
      let r := vsnprintf uart_buffer 256 formatted
      let len := r.2
      match huart.hdmatx with
      | some _ => .ok (r.1, len, [.printf_Transmit_DMA r.1 (len % 65536)])
      | none => .ok (r.1, len, [.printf_Transmit r.1 (len % 65536) 1000])

/-! ## Concrete configurations used to instantiate the theorems -/

/-- A configuration with every port enabled for receive and transmit DMA. -/
def exCfg : CSP_Config :=
  { BASE := fun p => match p with
      | .LPUART1 => 0x40008000 | .USART1 => 0x40013800 | .USART2 => 0x40004400
      | .USART3 => 0x40004800 | .UART4 => 0x40004C00 | .UART5 => 0x40005000
    RX_DMA := fun _ => true
    TX_DMA := fun _ => true
    DMA_CIRCULAR := 32
    HAL_UART_STATE_READY := 0x20
    HAL_UART_STATE_BUSY := 0x24
    HAL_UART_STATE_BUSY_TX := 0x21
    HAL_UART_STATE_RESET := 0
    HAL_UART_ERROR_NONE := 0
    HAL_UART_ERROR_PE := 1
    HAL_UART_ERROR_NE := 2
    HAL_UART_ERROR_FE := 4
    HAL_UART_ERROR_ORE := 8
    HAL_UART_ERROR_DMA := 16
    PIN_TX := fun _ => true
    PIN_RX := fun _ => true
    PIN_CTS := fun _ => false
    PIN_RTS := fun _ => false
    IT_ENABLE := fun _ => true
    USE_HAL_UART_REGISTER_CALLBACKS := false }

/-- The configuration `exCfg` with transmit DMA disabled on every port. -/
def exCfgRxOnly : CSP_Config := { exCfg with TX_DMA := fun _ => false }

/-- A configuration with no port enabled for DMA. -/
def exCfgNoDma : CSP_Config := { exCfg with RX_DMA := fun _ => false, TX_DMA := fun _ => false }

/-- A handle of LPUART1 with receive length `L`, DMA counter `c`, circular
receive DMA and a hardware buffer whose byte at position `i` is `i % 256`. -/
def exHuart (L c : Nat) : UART_HandleTypeDef :=
  { Instance := 0x40008000
    pRxBuffPtr := fun i => i % 256
    RxXferSize := L
    RxXferCount := c
    gState := 32
    hdmarx := some { CNDTR := c, Mode := 32 }
    hdmatx := some { CNDTR := 0, Mode := 0 } }

/-- The handle `exHuart L c` with a receive DMA that is not circular
(`Mode = 0`, one-shot). -/
def exHuartNormal (L c : Nat) : UART_HandleTypeDef :=
  { exHuart L c with hdmarx := some { CNDTR := c, Mode := 0 } }

/-- The handle `exHuart L c` of a port without transmit DMA: `hdmatx` is
`NULL`. -/
def exHuartRxOnly (L c : Nat) : UART_HandleTypeDef :=
  { exHuart L c with hdmatx := none }

/-- The handle `exHuart L c` with no receive DMA: `hdmarx` is `NULL`. -/
def exHuartNoRxDma (L c : Nat) : UART_HandleTypeDef :=
  { exHuart L c with hdmarx := none }

/-- A state in which every receive cursor is `head`, every ring buffer is empty
with capacity `cap`, and every send buffer is empty with capacity 64. -/
def exState (head cap : Nat) : State :=
  { rx := fun _ => { rx_fifo := { capacity := cap, data := [] }, head_ptr := head,
                     buf_size := 64, fifo_size := cap }
    tx := fun _ => { send_buf := fun _ => 0, head_ptr := 0, buf_size := 64 } }

/-- Hardware that answers every poll and every call at once. -/
def exHal : HAL :=
  { UART_FLAG_TC := fun _ => true, Receive_DMA := fun _ => .HAL_OK, Transmit_DMA := .HAL_OK,
    CSP_REALLOC := some (fun _ => 0), Receive_IT := fun _ => .HAL_OK, GetError := 0,
    GetState := 0x20, DMA_DeInit_rx := .HAL_OK, DMA_DeInit_tx := .HAL_OK,
    UART_DeInit := .HAL_OK }

/-- Hardware as `exHal`, except that `HAL_UART_Transmit_DMA` reports an error
and `CSP_REALLOC` returns `NULL`. -/
def exHalFail : HAL :=
  { exHal with Transmit_DMA := .HAL_ERROR, CSP_REALLOC := none }

/-- Hardware as `exHal` whose `HAL_UART_GetError` returns `code`. -/
def exHalErr (code : Nat) : HAL := { exHal with GetError := code }

/-- The state `exState 0 64` after `n` bytes `7` have been accumulated in the
send buffer of LPUART1, whose capacity is `cap`. -/
def exTxState (n cap : Nat) : State :=
  (exState 0 64).setTx .LPUART1 { send_buf := fun _ => 7, head_ptr := n, buf_size := cap }

end UartCsp

/-! # Theorems -/

namespace UartCsp

/-! ## Arithmetic of the callbacks -/

theorem sub32_of_le {a b : Nat} (h : b ≤ a) (ha : a < 4294967296) : sub32 a b = a - b := by
  unfold sub32; omega

theorem sub32_of_lt {a b : Nat} (h : a < b) (hb : b ≤ 4294967296) :
    sub32 a b = 4294967296 - (b - a) := by
  unfold sub32; omega

theorem half_tail_eq (L : Nat) : (L >>> 1) + (L &&& 1) = (L + 1) / 2 := by
  rw [Nat.shiftRight_eq_div_pow, Nat.and_one_is_mod]; omega

theorem setRx_rx_same (s : State) (p : Port) (v : uart_rx_fifo_t) : (s.setRx p v).rx p = v := by
  simp [State.setRx]

theorem setRx_rx_other (s : State) (p q : Port) (v : uart_rx_fifo_t) (h : q ≠ p) :
    (s.setRx p v).rx q = s.rx q := by
  simp [State.setRx, Function.update_noteq h]

theorem setTx_tx_same (s : State) (p : Port) (v : uart_tx_buf_t) : (s.setTx p v).tx p = v := by
  simp [State.setTx]

/-! ## The callbacks as one reconciliation step -/

theorem halfdone_eq_reconcile (cfg : CSP_Config) (huart : UART_HandleTypeDef) (s : State)
    (p : Port) (hp : uart_rx_identify cfg huart = some p) (hL : huart.RxXferSize ≠ 0) :
    uart_dmarx_halfdone_callback cfg huart s
      = .ok (reconcile huart ((huart.RxXferSize + 1) / 2) p s) := by
  simp only [uart_dmarx_halfdone_callback, hp, if_neg hL, reconcile, half_tail_eq]

theorem idle_eq_reconcile (cfg : CSP_Config) (huart : UART_HandleTypeDef) (s : State)
    (p : Port) (d : DMA_HandleTypeDef) (hp : uart_rx_identify cfg huart = some p)
    (hd : huart.hdmarx = some d) (hL : huart.RxXferSize ≠ 0) :
    uart_dmarx_idle_callback cfg huart s
      = .ok (reconcile huart (sub32 huart.RxXferSize d.CNDTR) p s) := by
  simp only [uart_dmarx_idle_callback, hp, hd, if_neg hL, reconcile]

theorem rearm_loop_ends (hal : HAL) (size : Nat) (fuel : Nat) :
    ∀ n k, n ≤ k → k < n + fuel → hal.Receive_DMA k = .HAL_OK →
      ∃ calls, rearm_loop hal size fuel n = some calls ∧ ∀ a ∈ calls, a.isWrite = false := by
  induction fuel with
  | zero => intro n k h1 h2; omega
  | succ f ih =>
    intro n k h1 h2 hk
    by_cases hn : hal.Receive_DMA n = .HAL_OK
    · exact ⟨[.HAL_UART_Receive_DMA size], by simp [rearm_loop, hn], by simp [Action.isWrite]⟩
    · have hne : n ≠ k := fun e => hn (e ▸ hk)
      obtain ⟨calls, hc, hw⟩ := ih (n + 1) k (by omega) (by omega) hk
      refine ⟨.HAL_UART_Receive_DMA size :: .HAL_UNLOCK :: calls,
        by simp [rearm_loop, hn, hc], ?_⟩
      intro a ha
      simp only [List.mem_cons] at ha
      rcases ha with rfl | rfl | ha
      · rfl
      · rfl
      · exact hw a ha

theorem done_eq_reconcile (cfg : CSP_Config) (hal : HAL) (fuel : Nat)
    (huart : UART_HandleTypeDef) (s : State) (p : Port) (d : DMA_HandleTypeDef)
    (hp : uart_rx_identify cfg huart = some p) (hd : huart.hdmarx = some d)
    (hL : huart.RxXferSize ≠ 0) (hr : rearm_ends cfg hal fuel d) :
    ∃ calls, uart_dmarx_done_callback cfg hal fuel huart s
        = .ok ((reconcile huart huart.RxXferSize p s).1,
            (reconcile huart huart.RxXferSize p s).2 ++ calls)
      ∧ ∀ a ∈ calls, a.isWrite = false := by
  by_cases hm : d.Mode = cfg.DMA_CIRCULAR
  · exact ⟨[], by simp [uart_dmarx_done_callback, hp, hd, hL, reconcile, hm], by simp⟩
  · rcases hr with hr | ⟨k, hk, hok⟩
    · exact absurd hr hm
    · obtain ⟨calls, hc, hw⟩ := rearm_loop_ends hal huart.RxXferSize fuel 0 k (by omega)
        (by omega) hok
      exact ⟨calls, by simp [uart_dmarx_done_callback, hp, hd, hL, reconcile, hm, hc], hw⟩

theorem reconcile_of_le (huart : UART_HandleTypeDef) (tail : Nat) (p : Port) (s : State)
    (ht : tail < 4294967296) (hle : (s.rx p).head_ptr % huart.RxXferSize ≤ tail) :
    reconcile huart tail p s
      = (s.setRx p { s.rx p with
            head_ptr := ((s.rx p).head_ptr
              + (tail - (s.rx p).head_ptr % huart.RxXferSize)) % 4294967296,
            rx_fifo := (ring_fifo_write (s.rx p).rx_fifo
              (fun i => huart.pRxBuffPtr ((s.rx p).head_ptr % huart.RxXferSize + i))
              (tail - (s.rx p).head_ptr % huart.RxXferSize)).1 },
          [.ring_fifo_write p ((s.rx p).head_ptr % huart.RxXferSize)
            (tail - (s.rx p).head_ptr % huart.RxXferSize)]) := by
  simp only [reconcile, sub32_of_le hle ht]

theorem exCfg_identify (L c : Nat) : uart_rx_identify exCfg (exHuart L c) = some .LPUART1 := by
  simp [uart_rx_identify, exCfg, exHuart]

/-! ## Single callbacks -/

/-- C4: on a recognised port with `1 ≤ L = RxXferSize`, the tail computed by
`uart_dmarx_halfdone_callback`, `(L >> 1) + (L & 1)`, is `ceil(L/2)` (the number
`h = (L + 1) / 2` with `L ≤ 2h ≤ L + 1`); when `offset = head_ptr mod L ≤ h` the
callback makes exactly one `ring_fifo_write` call, for the range `[offset, h)`
(source `pRxBuffPtr + offset`, length `h - offset`), and advances `head_ptr` by
that length (`head_ptr += copy` on a `uint32_t`, so exactly `head_ptr + length`
whenever that is below `2^32`); when `offset = h` the length is 0 and `head_ptr`
is unchanged. -/
theorem halfdone_copies_offset_to_half (cfg : CSP_Config) (huart : UART_HandleTypeDef)
    (s : State) (p : Port)
    (hp : uart_rx_identify cfg huart = some p)
    (hL : 1 ≤ huart.RxXferSize) (hL16 : huart.RxXferSize < 65536)
    (hh : (s.rx p).head_ptr < 4294967296)
    (hoff : (s.rx p).head_ptr % huart.RxXferSize ≤ (huart.RxXferSize + 1) / 2) :
    (huart.RxXferSize >>> 1) + (huart.RxXferSize &&& 1) = (huart.RxXferSize + 1) / 2
    ∧ huart.RxXferSize ≤ 2 * ((huart.RxXferSize + 1) / 2)
    ∧ 2 * ((huart.RxXferSize + 1) / 2) ≤ huart.RxXferSize + 1
    ∧ ∃ s1, uart_dmarx_halfdone_callback cfg huart s
          = .ok (s1, [.ring_fifo_write p ((s.rx p).head_ptr % huart.RxXferSize)
              ((huart.RxXferSize + 1) / 2 - (s.rx p).head_ptr % huart.RxXferSize)])
      ∧ (s1.rx p).head_ptr = ((s.rx p).head_ptr
          + ((huart.RxXferSize + 1) / 2 - (s.rx p).head_ptr % huart.RxXferSize)) % 4294967296
      ∧ ((s.rx p).head_ptr
          + ((huart.RxXferSize + 1) / 2 - (s.rx p).head_ptr % huart.RxXferSize) < 4294967296 →
          (s1.rx p).head_ptr = (s.rx p).head_ptr
            + ((huart.RxXferSize + 1) / 2 - (s.rx p).head_ptr % huart.RxXferSize))
      ∧ (s1.rx p).rx_fifo = (ring_fifo_write (s.rx p).rx_fifo
          (fun i => huart.pRxBuffPtr ((s.rx p).head_ptr % huart.RxXferSize + i))
          ((huart.RxXferSize + 1) / 2 - (s.rx p).head_ptr % huart.RxXferSize)).1
      ∧ ((s.rx p).head_ptr % huart.RxXferSize = (huart.RxXferSize + 1) / 2 →
          (huart.RxXferSize + 1) / 2 - (s.rx p).head_ptr % huart.RxXferSize = 0
          ∧ (s1.rx p).head_ptr = (s.rx p).head_ptr) := by
  refine ⟨half_tail_eq _, by omega, by omega, ?_⟩
  rw [halfdone_eq_reconcile cfg huart s p hp (by omega),
    reconcile_of_le huart _ p s (by omega) hoff]
  refine ⟨_, rfl, ?_, ?_, ?_, ?_⟩
  · rw [setRx_rx_same]
  · intro h; rw [setRx_rx_same]; exact Nat.mod_eq_of_lt h
  · rw [setRx_rx_same]
  · intro h; rw [setRx_rx_same]
    refine ⟨by omega, ?_⟩
    show ((s.rx p).head_ptr + _) % 4294967296 = _
    rw [h, Nat.sub_self, Nat.add_zero, Nat.mod_eq_of_lt hh]

/-- Instance of C4: `L = 64`, `head_ptr = 0`: the half callback hands over
`[0, 32)` and leaves `head_ptr = 32`. -/
theorem halfdone_copies_offset_to_half_witness :
    ∃ s1, uart_dmarx_halfdone_callback exCfg (exHuart 64 32) (exState 0 64)
        = .ok (s1, [.ring_fifo_write .LPUART1 0 32])
      ∧ (s1.rx .LPUART1).head_ptr = 32 := by
  obtain ⟨-, -, -, s1, h1, h2, -⟩ := halfdone_copies_offset_to_half exCfg (exHuart 64 32)
    (exState 0 64) .LPUART1 (exCfg_identify 64 32) (by decide) (by decide) (by decide)
    (by decide)
  exact ⟨s1, h1, h2⟩

/-- C5: on a recognised port with `1 ≤ L = RxXferSize` and any `head_ptr`,
`uart_dmarx_done_callback` makes exactly one `ring_fifo_write` call, for the
range `[offset, L)` with `offset = head_ptr mod L`; its length `L - offset` lies
between 1 and `L`, and `head_ptr` is advanced by that length (`head_ptr += copy`
on a `uint32_t`, so exactly `head_ptr + length` whenever that is below `2^32`).
For `L ≥ 3` and `head_ptr mod L = L - 3` the call is for 3 bytes from offset
`L - 3`.  The callback returns once its re-arm loop ends (at once for circular
DMA). -/
theorem done_copies_offset_to_end (cfg : CSP_Config) (hal : HAL) (fuel : Nat)
    (huart : UART_HandleTypeDef) (s : State) (p : Port) (d : DMA_HandleTypeDef)
    (hp : uart_rx_identify cfg huart = some p) (hd : huart.hdmarx = some d)
    (hr : rearm_ends cfg hal fuel d)
    (hL : 1 ≤ huart.RxXferSize) (hL16 : huart.RxXferSize < 65536) :
    1 ≤ huart.RxXferSize - (s.rx p).head_ptr % huart.RxXferSize
    ∧ huart.RxXferSize - (s.rx p).head_ptr % huart.RxXferSize ≤ huart.RxXferSize
    ∧ ∃ s1 calls, uart_dmarx_done_callback cfg hal fuel huart s
          = .ok (s1, .ring_fifo_write p ((s.rx p).head_ptr % huart.RxXferSize)
              (huart.RxXferSize - (s.rx p).head_ptr % huart.RxXferSize) :: calls)
      ∧ (∀ a ∈ calls, a.isWrite = false)
      ∧ (s1.rx p).head_ptr = ((s.rx p).head_ptr
          + (huart.RxXferSize - (s.rx p).head_ptr % huart.RxXferSize)) % 4294967296
      ∧ ((s.rx p).head_ptr
          + (huart.RxXferSize - (s.rx p).head_ptr % huart.RxXferSize) < 4294967296 →
          (s1.rx p).head_ptr = (s.rx p).head_ptr
            + (huart.RxXferSize - (s.rx p).head_ptr % huart.RxXferSize))
      ∧ (s1.rx p).rx_fifo = (ring_fifo_write (s.rx p).rx_fifo
          (fun i => huart.pRxBuffPtr ((s.rx p).head_ptr % huart.RxXferSize + i))
          (huart.RxXferSize - (s.rx p).head_ptr % huart.RxXferSize)).1
      ∧ (3 ≤ huart.RxXferSize →
          (s.rx p).head_ptr % huart.RxXferSize = huart.RxXferSize - 3 →
          uart_dmarx_done_callback cfg hal fuel huart s
            = .ok (s1, .ring_fifo_write p (huart.RxXferSize - 3) 3 :: calls)) := by
  have hlt : (s.rx p).head_ptr % huart.RxXferSize < huart.RxXferSize :=
    Nat.mod_lt _ (by omega)
  refine ⟨by omega, by omega, ?_⟩
  obtain ⟨calls, hc, hw⟩ := done_eq_reconcile cfg hal fuel huart s p d hp hd (by omega) hr
  rw [reconcile_of_le huart _ p s (by omega) (by omega)] at hc
  refine ⟨_, calls, hc, hw, ?_, ?_, ?_, ?_⟩
  · rw [setRx_rx_same]
  · intro h; rw [setRx_rx_same]; exact Nat.mod_eq_of_lt h
  · rw [setRx_rx_same]
  · intro h3 he
    rw [hc, he]
    have : huart.RxXferSize - (huart.RxXferSize - 3) = 3 := by omega
    simp only [this, List.singleton_append]

/-- Instance of C5: `L = 64`, `head_ptr = 61`: the done callback hands over 3
bytes from offset 61 and leaves `head_ptr = 64`. -/
theorem done_copies_offset_to_end_witness :
    ∃ s1 calls, uart_dmarx_done_callback exCfg exHal 0 (exHuart 64 64) (exState 61 64)
        = .ok (s1, .ring_fifo_write .LPUART1 61 3 :: calls)
      ∧ (s1.rx .LPUART1).head_ptr = 64 := by
  obtain ⟨-, -, s1, calls, -, -, h2, -, -, h5⟩ := done_copies_offset_to_end exCfg exHal 0
    (exHuart 64 64) (exState 61 64) .LPUART1 ⟨64, 32⟩ (exCfg_identify 64 64) rfl
    (Or.inl rfl) (by decide) (by decide)
  exact ⟨s1, calls, h5 (by decide) (by decide), h2⟩

/-- C6: on a recognised port with `1 ≤ L = RxXferSize` and DMA remaining
counter `c ≤ L`, the tail of `uart_dmarx_idle_callback` is `L - c`; when
`offset = head_ptr mod L ≤ L - c` the callback makes exactly one
`ring_fifo_write` call, for the range `[offset, L - c)` (length
`(L - c) - offset`), and advances `head_ptr` by that length (`head_ptr += copy`
on a `uint32_t`, so exactly `head_ptr + length` whenever that is below `2^32`).
Nothing restricts `L - c` to the half or full boundary. -/
theorem idle_copies_offset_to_tail (cfg : CSP_Config) (huart : UART_HandleTypeDef)
    (s : State) (p : Port) (d : DMA_HandleTypeDef)
    (hp : uart_rx_identify cfg huart = some p) (hd : huart.hdmarx = some d)
    (hL : 1 ≤ huart.RxXferSize) (hL16 : huart.RxXferSize < 65536)
    (hc : d.CNDTR ≤ huart.RxXferSize)
    (hoff : (s.rx p).head_ptr % huart.RxXferSize ≤ huart.RxXferSize - d.CNDTR) :
    sub32 huart.RxXferSize d.CNDTR = huart.RxXferSize - d.CNDTR
    ∧ ∃ s1, uart_dmarx_idle_callback cfg huart s
          = .ok (s1, [.ring_fifo_write p ((s.rx p).head_ptr % huart.RxXferSize)
              (huart.RxXferSize - d.CNDTR - (s.rx p).head_ptr % huart.RxXferSize)])
      ∧ (s1.rx p).head_ptr = ((s.rx p).head_ptr
          + (huart.RxXferSize - d.CNDTR - (s.rx p).head_ptr % huart.RxXferSize)) % 4294967296
      ∧ ((s.rx p).head_ptr
          + (huart.RxXferSize - d.CNDTR - (s.rx p).head_ptr % huart.RxXferSize) < 4294967296 →
          (s1.rx p).head_ptr = (s.rx p).head_ptr
            + (huart.RxXferSize - d.CNDTR - (s.rx p).head_ptr % huart.RxXferSize))
      ∧ (s1.rx p).rx_fifo = (ring_fifo_write (s.rx p).rx_fifo
          (fun i => huart.pRxBuffPtr ((s.rx p).head_ptr % huart.RxXferSize + i))
          (huart.RxXferSize - d.CNDTR - (s.rx p).head_ptr % huart.RxXferSize)).1 := by
  have ht : sub32 huart.RxXferSize d.CNDTR = huart.RxXferSize - d.CNDTR :=
    sub32_of_le hc (by omega)
  refine ⟨ht, ?_⟩
  rw [idle_eq_reconcile cfg huart s p d hp hd (by omega), ht,
    reconcile_of_le huart _ p s (by omega) hoff]
  refine ⟨_, rfl, ?_, ?_, ?_⟩
  · rw [setRx_rx_same]
  · intro h; rw [setRx_rx_same]; exact Nat.mod_eq_of_lt h
  · rw [setRx_rx_same]

/-- Instance of C6: `L = 64`, counter 17 (tail 47), `head_ptr = 32`: the idle
callback hands over `[32, 47)`, 15 bytes, and leaves `head_ptr = 47`. -/
theorem idle_copies_offset_to_tail_witness :
    ∃ s1, uart_dmarx_idle_callback exCfg (exHuart 64 17) (exState 32 64)
        = .ok (s1, [.ring_fifo_write .LPUART1 32 15])
      ∧ (s1.rx .LPUART1).head_ptr = 47 := by
  obtain ⟨-, s1, h1, h2, -⟩ := idle_copies_offset_to_tail exCfg (exHuart 64 17)
    (exState 32 64) .LPUART1 ⟨17, 32⟩ (exCfg_identify 64 17) rfl (by decide) (by decide)
    (by decide) (by decide)
  exact ⟨s1, h1, h2⟩

/-! ## The cursor invariant -/

theorem add_sub_mod_eq (head tail L : Nat) (hoff : head % L ≤ tail) :
    (head + (tail - head % L)) % L = tail % L := by
  have hdm := Nat.div_add_mod head L
  have h : head + (tail - head % L) = tail + L * (head / L) := by omega
  rw [h, Nat.add_mul_mod_self_left]

theorem reconcile_cursor (huart : UART_HandleTypeDef) (tail : Nat) (p : Port) (s : State)
    (ht : tail < 4294967296) (hoff : (s.rx p).head_ptr % huart.RxXferSize ≤ tail)
    (hnw : (s.rx p).head_ptr + (tail - (s.rx p).head_ptr % huart.RxXferSize) < 4294967296) :
    (((reconcile huart tail p s).1).rx p).head_ptr % huart.RxXferSize
        = tail % huart.RxXferSize
      ∧ (s.rx p).head_ptr ≤ (((reconcile huart tail p s).1).rx p).head_ptr := by
  rw [reconcile_of_le huart tail p s ht hoff, setRx_rx_same]
  show ((s.rx p).head_ptr + _) % 4294967296 % _ = _ ∧ _ ≤ ((s.rx p).head_ptr + _) % 4294967296
  rw [Nat.mod_eq_of_lt hnw]
  exact ⟨add_sub_mod_eq _ _ _ hoff, Nat.le_add_right _ _⟩

/-- C8: cursor invariant of the receive reconciler.  On a recognised port with
`1 ≤ L = RxXferSize`, for each of the three callbacks, with `tail` the tail of
that callback (`ceil(L/2)` for half, `L - c` for idle with counter `c ≤ L`, `L`
for done): if `offset = head_ptr mod L ≤ tail ≤ L` and
`head_ptr + (tail - offset) < 2^32`, then the callback returns a state in which
`head_ptr mod L = tail mod L` and `head_ptr` is not smaller than before. -/
theorem callbacks_keep_cursor_invariant (cfg : CSP_Config) (hal : HAL) (fuel : Nat)
    (huart : UART_HandleTypeDef) (s : State) (p : Port) (d : DMA_HandleTypeDef)
    (hp : uart_rx_identify cfg huart = some p) (hd : huart.hdmarx = some d)
    (hr : rearm_ends cfg hal fuel d)
    (hL : 1 ≤ huart.RxXferSize) (hL16 : huart.RxXferSize < 65536) :
    ((s.rx p).head_ptr % huart.RxXferSize ≤ (huart.RxXferSize + 1) / 2 →
      (huart.RxXferSize + 1) / 2 ≤ huart.RxXferSize →
      (s.rx p).head_ptr
        + ((huart.RxXferSize + 1) / 2 - (s.rx p).head_ptr % huart.RxXferSize) < 4294967296 →
      ∃ s1 calls, uart_dmarx_halfdone_callback cfg huart s = .ok (s1, calls)
        ∧ (s1.rx p).head_ptr % huart.RxXferSize
            = ((huart.RxXferSize + 1) / 2) % huart.RxXferSize
        ∧ (s.rx p).head_ptr ≤ (s1.rx p).head_ptr)
    ∧ (d.CNDTR ≤ huart.RxXferSize →
      (s.rx p).head_ptr % huart.RxXferSize ≤ huart.RxXferSize - d.CNDTR →
      (s.rx p).head_ptr
        + (huart.RxXferSize - d.CNDTR - (s.rx p).head_ptr % huart.RxXferSize) < 4294967296 →
      ∃ s1 calls, uart_dmarx_idle_callback cfg huart s = .ok (s1, calls)
        ∧ (s1.rx p).head_ptr % huart.RxXferSize
            = (huart.RxXferSize - d.CNDTR) % huart.RxXferSize
        ∧ (s.rx p).head_ptr ≤ (s1.rx p).head_ptr)
    ∧ ((s.rx p).head_ptr % huart.RxXferSize ≤ huart.RxXferSize →
      (s.rx p).head_ptr
        + (huart.RxXferSize - (s.rx p).head_ptr % huart.RxXferSize) < 4294967296 →
      ∃ s1 calls, uart_dmarx_done_callback cfg hal fuel huart s = .ok (s1, calls)
        ∧ (s1.rx p).head_ptr % huart.RxXferSize = huart.RxXferSize % huart.RxXferSize
        ∧ (s.rx p).head_ptr ≤ (s1.rx p).head_ptr) := by
  refine ⟨?_, ?_, ?_⟩
  · intro hoff _ hnw
    rw [halfdone_eq_reconcile cfg huart s p hp (by omega)]
    obtain ⟨h1, h2⟩ := reconcile_cursor huart _ p s (by omega) hoff hnw
    exact ⟨_, _, rfl, h1, h2⟩
  · intro hc hoff hnw
    rw [idle_eq_reconcile cfg huart s p d hp hd (by omega), sub32_of_le hc (by omega)]
    obtain ⟨h1, h2⟩ := reconcile_cursor huart _ p s (by omega) hoff hnw
    exact ⟨_, _, rfl, h1, h2⟩
  · intro hoff hnw
    obtain ⟨calls, hc, -⟩ := done_eq_reconcile cfg hal fuel huart s p d hp hd (by omega) hr
    obtain ⟨h1, h2⟩ := reconcile_cursor huart _ p s (by omega) hoff hnw
    exact ⟨_, _, hc, h1, h2⟩

/-- Instance of C8: `L = 10`, `head_ptr = 23` (offset 3): after the half
callback (tail 5) the cursor is 25, after the idle callback with counter 2
(tail 8) it is 28, after the done callback it is 30. -/
theorem callbacks_keep_cursor_invariant_witness :
    (∃ s1 calls, uart_dmarx_halfdone_callback exCfg (exHuart 10 2) (exState 23 64)
        = .ok (s1, calls) ∧ (s1.rx .LPUART1).head_ptr % 10 = 5
        ∧ 23 ≤ (s1.rx .LPUART1).head_ptr)
    ∧ (∃ s1 calls, uart_dmarx_idle_callback exCfg (exHuart 10 2) (exState 23 64)
        = .ok (s1, calls) ∧ (s1.rx .LPUART1).head_ptr % 10 = 8
        ∧ 23 ≤ (s1.rx .LPUART1).head_ptr)
    ∧ (∃ s1 calls, uart_dmarx_done_callback exCfg exHal 0 (exHuart 10 2) (exState 23 64)
        = .ok (s1, calls) ∧ (s1.rx .LPUART1).head_ptr % 10 = 0
        ∧ 23 ≤ (s1.rx .LPUART1).head_ptr) := by
  obtain ⟨h1, h2, h3⟩ := callbacks_keep_cursor_invariant exCfg exHal 0 (exHuart 10 2)
    (exState 23 64) .LPUART1 ⟨2, 32⟩ (exCfg_identify 10 2) rfl (Or.inl rfl) (by decide)
    (by decide)
  exact ⟨h1 (by decide) (by decide) (by decide), h2 (by decide) (by decide) (by decide),
    h3 (by decide) (by decide)⟩

/-! ## A tail below the offset -/

theorem reconcile_of_lt (huart : UART_HandleTypeDef) (tail : Nat) (p : Port) (s : State)
    (hh : (s.rx p).head_ptr < 4294967296)
    (hlt : tail < (s.rx p).head_ptr % huart.RxXferSize) :
    (reconcile huart tail p s).2
        = [.ring_fifo_write p ((s.rx p).head_ptr % huart.RxXferSize)
            (4294967296 - ((s.rx p).head_ptr % huart.RxXferSize - tail))]
      ∧ (((reconcile huart tail p s).1).rx p).head_ptr
        = (s.rx p).head_ptr - ((s.rx p).head_ptr % huart.RxXferSize - tail) := by
  have hle : (s.rx p).head_ptr % huart.RxXferSize ≤ (s.rx p).head_ptr := Nat.mod_le _ _
  have hsub := sub32_of_lt hlt (by omega)
  refine ⟨by simp only [reconcile, hsub], ?_⟩
  simp only [reconcile, setRx_rx_same]
  rw [hsub]
  omega

/-- C2, failing input: LPUART1 with circular receive DMA, `L = 64` and
`head_ptr = 40`; the DMA has filled the buffer to its end and reloaded its
counter to 64, and the idle callback runs before the done callback.  Its tail
`64 - 64 = 0` is below the offset 40, and the length it passes to
`ring_fifo_write` is the wrapped difference `0 - 40 = 4294967256`, not 0;
`head_ptr` becomes 0 instead of staying 40, and the done callback that follows
copies the whole buffer `[0, 64)`, its first 40 bytes for the second time.
Likewise the half callback with `L = 4` entered at `head_ptr = 3` (tail 2,
offset 3) passes the length `2 - 3 = 4294967295` and sets `head_ptr` to 2. -/
theorem tail_below_offset_passes_wrapped_length :
    ((exState 40 64).rx .LPUART1).head_ptr % (exHuart 64 64).RxXferSize = 40
    ∧ (∃ s1, uart_dmarx_idle_callback exCfg (exHuart 64 64) (exState 40 64)
          = .ok (s1, [.ring_fifo_write .LPUART1 40 4294967256])
        ∧ (s1.rx .LPUART1).head_ptr = 0
        ∧ ∃ s2, uart_dmarx_done_callback exCfg exHal 0 (exHuart 64 64) s1
            = .ok (s2, [.ring_fifo_write .LPUART1 0 64]))
    ∧ ((exState 3 64).rx .LPUART1).head_ptr % (exHuart 4 4).RxXferSize = 3
    ∧ (∃ s1, uart_dmarx_halfdone_callback exCfg (exHuart 4 4) (exState 3 64)
          = .ok (s1, [.ring_fifo_write .LPUART1 3 4294967295])
        ∧ (s1.rx .LPUART1).head_ptr = 2) :=
  ⟨rfl, ⟨_, rfl, rfl, _, rfl⟩, rfl, ⟨_, rfl, rfl⟩⟩

/-- The unguarded subtraction in general: when the half callback or the idle
callback (counter `c ≤ L`) is entered on a recognised port with its tail below
`offset = head_ptr mod L`, no path compares the two; the length passed to
`ring_fifo_write` is the wrapped 32-bit difference `2^32 - (offset - tail)` and
`head_ptr` moves back by `offset - tail`.  The done callback cannot be entered
that way: its tail `L` is always above the offset. -/
theorem tail_below_offset_wraps (cfg : CSP_Config) (huart : UART_HandleTypeDef)
    (s : State) (p : Port) (d : DMA_HandleTypeDef)
    (hp : uart_rx_identify cfg huart = some p) (hd : huart.hdmarx = some d)
    (hL : 1 ≤ huart.RxXferSize) (hL16 : huart.RxXferSize < 65536)
    (hh : (s.rx p).head_ptr < 4294967296) :
    ((huart.RxXferSize + 1) / 2 < (s.rx p).head_ptr % huart.RxXferSize →
      ∃ s1, uart_dmarx_halfdone_callback cfg huart s
          = .ok (s1, [.ring_fifo_write p ((s.rx p).head_ptr % huart.RxXferSize)
              (4294967296
                - ((s.rx p).head_ptr % huart.RxXferSize - (huart.RxXferSize + 1) / 2))])
        ∧ (s1.rx p).head_ptr = (s.rx p).head_ptr
            - ((s.rx p).head_ptr % huart.RxXferSize - (huart.RxXferSize + 1) / 2))
    ∧ (d.CNDTR ≤ huart.RxXferSize →
      huart.RxXferSize - d.CNDTR < (s.rx p).head_ptr % huart.RxXferSize →
      ∃ s1, uart_dmarx_idle_callback cfg huart s
          = .ok (s1, [.ring_fifo_write p ((s.rx p).head_ptr % huart.RxXferSize)
              (4294967296
                - ((s.rx p).head_ptr % huart.RxXferSize - (huart.RxXferSize - d.CNDTR)))])
        ∧ (s1.rx p).head_ptr = (s.rx p).head_ptr
            - ((s.rx p).head_ptr % huart.RxXferSize - (huart.RxXferSize - d.CNDTR)))
    ∧ (s.rx p).head_ptr % huart.RxXferSize < huart.RxXferSize := by
  refine ⟨?_, ?_, Nat.mod_lt _ (by omega)⟩
  · intro hlt
    rw [halfdone_eq_reconcile cfg huart s p hp (by omega)]
    obtain ⟨h1, h2⟩ := reconcile_of_lt huart _ p s hh hlt
    exact ⟨(reconcile huart _ p s).1, by rw [← h1], h2⟩
  · intro hc hlt
    rw [idle_eq_reconcile cfg huart s p d hp hd (by omega), sub32_of_le hc (by omega)]
    obtain ⟨h1, h2⟩ := reconcile_of_lt huart _ p s hh hlt
    exact ⟨(reconcile huart _ p s).1, by rw [← h1], h2⟩

/-- Instance of the unguarded subtraction: `L = 10`, `head_ptr = 27` (offset
7): the half callback (tail 5) passes length `2^32 - 2` and leaves 25; the idle
callback with counter 6 (tail 4) passes `2^32 - 3` and leaves 24. -/
theorem tail_below_offset_wraps_witness :
    (∃ s1, uart_dmarx_halfdone_callback exCfg (exHuart 10 6) (exState 27 64)
        = .ok (s1, [.ring_fifo_write .LPUART1 7 4294967294])
      ∧ (s1.rx .LPUART1).head_ptr = 25)
    ∧ (∃ s1, uart_dmarx_idle_callback exCfg (exHuart 10 6) (exState 27 64)
        = .ok (s1, [.ring_fifo_write .LPUART1 7 4294967293])
      ∧ (s1.rx .LPUART1).head_ptr = 24) := by
  obtain ⟨h1, h2, -⟩ := tail_below_offset_wraps exCfg (exHuart 10 6) (exState 27 64)
    .LPUART1 ⟨6, 32⟩ (exCfg_identify 10 6) rfl (by decide) (by decide) (by decide)
  exact ⟨h1 (by decide), h2 (by decide) (by decide)⟩

/-! ## Calling a callback twice -/

theorem ring_fifo_write_zero (f : ring_fifo_t) (src : Nat → Nat) :
    (ring_fifo_write f src 0).1 = f := by
  cases f; simp [ring_fifo_write]

theorem setRx_self (s : State) (p : Port) : s.setRx p (s.rx p) = s := by
  cases s; simp [State.setRx]

theorem no_wrap_of_dvd (head tail L : Nat) (hd : L ∣ 4294967296) (hh : head < 4294967296)
    (ht : tail < L) : head - head % L + tail < 4294967296 := by
  obtain ⟨m, hm⟩ := hd
  have hdm := Nat.div_add_mod head L
  have hq : head / L < m := by
    apply Nat.lt_of_mul_lt_mul_left (a := L)
    omega
  have h1 : L * (head / L + 1) ≤ L * m := Nat.mul_le_mul_left L hq
  rw [Nat.mul_succ] at h1
  omega

theorem reconcile_head (huart : UART_HandleTypeDef) (tail : Nat) (p : Port) (s : State)
    (ht : tail < 4294967296) (hh : (s.rx p).head_ptr < 4294967296)
    (hnw : (s.rx p).head_ptr - (s.rx p).head_ptr % huart.RxXferSize + tail < 4294967296) :
    (((reconcile huart tail p s).1).rx p).head_ptr
      = (s.rx p).head_ptr - (s.rx p).head_ptr % huart.RxXferSize + tail := by
  have hle : (s.rx p).head_ptr % huart.RxXferSize ≤ (s.rx p).head_ptr := Nat.mod_le _ _
  simp only [reconcile, setRx_rx_same, sub32]
  omega

theorem reconcile_twice (huart : UART_HandleTypeDef) (tail : Nat) (p : Port) (s : State)
    (ht : tail < huart.RxXferSize) (hL : huart.RxXferSize < 65536)
    (hh : (s.rx p).head_ptr < 4294967296)
    (hnw : huart.RxXferSize ∣ 4294967296
      ∨ (s.rx p).head_ptr - (s.rx p).head_ptr % huart.RxXferSize + tail < 4294967296) :
    reconcile huart tail p (reconcile huart tail p s).1
      = ((reconcile huart tail p s).1, [.ring_fifo_write p tail 0]) := by
  have hnw1 : (s.rx p).head_ptr - (s.rx p).head_ptr % huart.RxXferSize + tail
      < 4294967296 := by
    rcases hnw with h | h
    · exact no_wrap_of_dvd _ _ _ h hh ht
    · exact h
  have hhead := reconcile_head huart tail p s (by omega) hh hnw1
  have hdm := Nat.div_add_mod (s.rx p).head_ptr huart.RxXferSize
  have hoff : (((reconcile huart tail p s).1).rx p).head_ptr % huart.RxXferSize = tail := by
    have h : (s.rx p).head_ptr - (s.rx p).head_ptr % huart.RxXferSize + tail
        = tail + huart.RxXferSize * ((s.rx p).head_ptr / huart.RxXferSize) := by omega
    rw [hhead, h, Nat.add_mul_mod_self_left, Nat.mod_eq_of_lt ht]
  rw [reconcile_of_le huart tail p _ (by omega) (by omega), hoff, Nat.sub_self, Nat.add_zero,
    Nat.mod_eq_of_lt (by omega), ring_fifo_write_zero]
  exact Prod.ext (setRx_self _ p) rfl

/-- C3, counterexample: the done callback with `L = 4` and `head_ptr = 0`,
called twice with the same handle (same `RxXferSize`, same DMA counter).  The
second call copies 4 bytes again: `head_ptr` goes from 4 to 8 and the ring
buffer holds the four bytes twice. -/
theorem done_twice_copies_twice :
    ∃ s1 s2, uart_dmarx_done_callback exCfg exHal 0 (exHuart 4 4) (exState 0 64)
        = .ok (s1, [.ring_fifo_write .LPUART1 0 4])
      ∧ uart_dmarx_done_callback exCfg exHal 0 (exHuart 4 4) s1
        = .ok (s2, [.ring_fifo_write .LPUART1 0 4])
      ∧ (s1.rx .LPUART1).head_ptr = 4 ∧ (s2.rx .LPUART1).head_ptr = 8
      ∧ (s1.rx .LPUART1).rx_fifo.data = [0, 1, 2, 3]
      ∧ (s2.rx .LPUART1).rx_fifo.data = [0, 1, 2, 3, 0, 1, 2, 3] :=
  ⟨_, _, rfl, rfl, rfl, rfl, rfl, rfl⟩

/-- C3, amended: for the half callback and the idle callback, on a recognised
port with `1 ≤ L = RxXferSize`, whenever the tail of the callback is below `L`
(`L ≥ 2` for half, counter `1 ≤ c ≤ L` for idle) and the first call does not
carry `head_ptr` past `2^32` (always so when `L` divides `2^32`): a second call
with the same handle passes length 0 to `ring_fifo_write` and returns the very
state the first call returned, so `head_ptr` and the ring buffer are as they
were.  (The done callback is left out: its second call copies `L` bytes
again.) -/
theorem second_call_copies_nothing (cfg : CSP_Config) (huart : UART_HandleTypeDef)
    (s : State) (p : Port) (d : DMA_HandleTypeDef)
    (hp : uart_rx_identify cfg huart = some p) (hd : huart.hdmarx = some d)
    (hL : 1 ≤ huart.RxXferSize) (hL16 : huart.RxXferSize < 65536)
    (hh : (s.rx p).head_ptr < 4294967296) :
    (2 ≤ huart.RxXferSize →
      (huart.RxXferSize ∣ 4294967296
        ∨ (s.rx p).head_ptr - (s.rx p).head_ptr % huart.RxXferSize
            + (huart.RxXferSize + 1) / 2 < 4294967296) →
      ∃ s1 calls, uart_dmarx_halfdone_callback cfg huart s = .ok (s1, calls)
        ∧ uart_dmarx_halfdone_callback cfg huart s1
            = .ok (s1, [.ring_fifo_write p ((huart.RxXferSize + 1) / 2) 0]))
    ∧ (1 ≤ d.CNDTR → d.CNDTR ≤ huart.RxXferSize →
      (huart.RxXferSize ∣ 4294967296
        ∨ (s.rx p).head_ptr - (s.rx p).head_ptr % huart.RxXferSize
            + (huart.RxXferSize - d.CNDTR) < 4294967296) →
      ∃ s1 calls, uart_dmarx_idle_callback cfg huart s = .ok (s1, calls)
        ∧ uart_dmarx_idle_callback cfg huart s1
            = .ok (s1, [.ring_fifo_write p (huart.RxXferSize - d.CNDTR) 0])) := by
  refine ⟨?_, ?_⟩
  · intro h2 hnw
    have e := reconcile_twice huart ((huart.RxXferSize + 1) / 2) p s (by omega) hL16 hh hnw
    exact ⟨(reconcile huart ((huart.RxXferSize + 1) / 2) p s).1,
      (reconcile huart ((huart.RxXferSize + 1) / 2) p s).2,
      halfdone_eq_reconcile cfg huart s p hp (by omega),
      by rw [halfdone_eq_reconcile cfg huart _ p hp (by omega), e]⟩
  · intro hc1 hc hnw
    have ht := sub32_of_le hc (show huart.RxXferSize < 4294967296 by omega)
    have e := reconcile_twice huart (huart.RxXferSize - d.CNDTR) p s (by omega) hL16 hh hnw
    exact ⟨(reconcile huart (huart.RxXferSize - d.CNDTR) p s).1,
      (reconcile huart (huart.RxXferSize - d.CNDTR) p s).2,
      by rw [idle_eq_reconcile cfg huart s p d hp hd (by omega), ht],
      by rw [idle_eq_reconcile cfg huart _ p d hp hd (by omega), ht, e]⟩

/-- Instance of the amended C3: `L = 10`, `head_ptr = 23`, counter 3: the second
half call passes length 0 at offset 5, the second idle call length 0 at offset
7, and each returns the state it was given. -/
theorem second_call_copies_nothing_witness :
    (∃ s1 calls, uart_dmarx_halfdone_callback exCfg (exHuart 10 3) (exState 23 64)
        = .ok (s1, calls)
      ∧ uart_dmarx_halfdone_callback exCfg (exHuart 10 3) s1
        = .ok (s1, [.ring_fifo_write .LPUART1 5 0]))
    ∧ (∃ s1 calls, uart_dmarx_idle_callback exCfg (exHuart 10 3) (exState 23 64)
        = .ok (s1, calls)
      ∧ uart_dmarx_idle_callback exCfg (exHuart 10 3) s1
        = .ok (s1, [.ring_fifo_write .LPUART1 7 0])) := by
  obtain ⟨h1, h2⟩ := second_call_copies_nothing exCfg (exHuart 10 3) (exState 23 64)
    .LPUART1 ⟨3, 32⟩ (exCfg_identify 10 3) rfl (by decide) (by decide) (by decide)
  exact ⟨h1 (by decide) (Or.inr (by decide)),
    h2 (by decide) (by decide) (Or.inr (by decide))⟩

/-! ## The transmit buffer -/

theorem exCfg_tx_identify (L c : Nat) : uart_tx_identify exCfg (exHuart L c) = some .LPUART1 := by
  simp [uart_tx_identify, exCfg, exHuart]

theorem dmatx_write_eq (cfg : CSP_Config) (huart : UART_HandleTypeDef) (d : Nat → Nat)
    (len : Nat) (s : State) (p : Port) (hp : uart_tx_identify cfg huart = some p)
    (hlen : 0 < len) (hhead : (s.tx p).head_ptr ≤ (s.tx p).buf_size)
    (hsz : (s.tx p).buf_size < 4294967296) :
    uart_dmatx_write cfg huart (some d) len s
      = (s.setTx p { s.tx p with
            send_buf := memcpy (s.tx p).send_buf (s.tx p).head_ptr d
              (min len ((s.tx p).buf_size - (s.tx p).head_ptr)),
            head_ptr := (s.tx p).head_ptr + min len ((s.tx p).buf_size - (s.tx p).head_ptr) },
          min len ((s.tx p).buf_size - (s.tx p).head_ptr)) := by
  have hsub : sub32 (s.tx p).buf_size (s.tx p).head_ptr
      = (s.tx p).buf_size - (s.tx p).head_ptr := sub32_of_le hhead hsz
  simp only [uart_dmatx_write, hp, if_neg (Nat.pos_iff_ne_zero.mp hlen), hsub]
  by_cases h : (s.tx p).buf_size - (s.tx p).head_ptr < len
  · rw [if_pos h, Nat.min_eq_right (Nat.le_of_lt h), Nat.mod_eq_of_lt (by omega)]
  · rw [if_neg h, Nat.min_eq_left (Nat.le_of_not_lt h), Nat.mod_eq_of_lt (by omega)]

/-- C9: `uart_dmatx_write` on a recognised transmit port with
`head_ptr ≤ buf_size`, non-`NULL` data and `len > 0` returns
`n = min(len, buf_size - head_ptr)`, copies `n` bytes to `send_buf + head_ptr`
and sets `head_ptr` to `head_ptr + n`; `n` never exceeds the remaining
capacity, and when `len` exceeds it `n` is exactly the remaining capacity and
`head_ptr` ends equal to `buf_size`. -/
theorem dmatx_write_returns_min (cfg : CSP_Config) (huart : UART_HandleTypeDef)
    (d : Nat → Nat) (len : Nat) (s : State) (p : Port)
    (hp : uart_tx_identify cfg huart = some p) (hlen : 0 < len)
    (hhead : (s.tx p).head_ptr ≤ (s.tx p).buf_size)
    (hsz : (s.tx p).buf_size < 4294967296) :
    (uart_dmatx_write cfg huart (some d) len s).2
        = min len ((s.tx p).buf_size - (s.tx p).head_ptr)
    ∧ (((uart_dmatx_write cfg huart (some d) len s).1).tx p).head_ptr
        = (s.tx p).head_ptr + min len ((s.tx p).buf_size - (s.tx p).head_ptr)
    ∧ (((uart_dmatx_write cfg huart (some d) len s).1).tx p).send_buf
        = memcpy (s.tx p).send_buf (s.tx p).head_ptr d
            (min len ((s.tx p).buf_size - (s.tx p).head_ptr))
    ∧ (((uart_dmatx_write cfg huart (some d) len s).1).tx p).buf_size = (s.tx p).buf_size
    ∧ (uart_dmatx_write cfg huart (some d) len s).2 ≤ (s.tx p).buf_size - (s.tx p).head_ptr
    ∧ ((s.tx p).buf_size - (s.tx p).head_ptr < len →
        (uart_dmatx_write cfg huart (some d) len s).2 = (s.tx p).buf_size - (s.tx p).head_ptr
        ∧ (((uart_dmatx_write cfg huart (some d) len s).1).tx p).head_ptr
            = (s.tx p).buf_size) := by
  rw [dmatx_write_eq cfg huart d len s p hp hlen hhead hsz]
  refine ⟨rfl, ?_, ?_, ?_, Nat.min_le_right _ _, ?_⟩
  · rw [setTx_tx_same]
  · rw [setTx_tx_same]
  · rw [setTx_tx_same]
  · intro h
    rw [setTx_tx_same]
    show min _ _ = _ ∧ _ + min _ _ = _
    rw [Nat.min_eq_right (Nat.le_of_lt h)]
    exact ⟨rfl, by omega⟩

/-- Instance of C9: capacity 64, `head_ptr = 0`, a write of 100 bytes returns
64 and leaves `head_ptr = 64`. -/
theorem dmatx_write_returns_min_witness :
    (uart_dmatx_write exCfg (exHuart 64 0) (some (payload [1, 2, 3])) 100 (exState 0 64)).2 = 64
    ∧ (((uart_dmatx_write exCfg (exHuart 64 0) (some (payload [1, 2, 3])) 100
          (exState 0 64)).1).tx .LPUART1).head_ptr = 64 := by
  obtain ⟨-, -, -, -, -, h⟩ := dmatx_write_returns_min exCfg (exHuart 64 0) (payload [1, 2, 3])
    100 (exState 0 64) .LPUART1 (exCfg_tx_identify 64 0) (by decide) (by decide) (by decide)
  exact h (by decide)

theorem wait_TC_ends (hal : HAL) (fuel : Nat) :
    ∀ n k, n ≤ k → k < n + fuel → hal.UART_FLAG_TC k = true →
      ∃ m, wait_TC hal fuel n = some m := by
  induction fuel with
  | zero => intro n k h1 h2; omega
  | succ f ih =>
    intro n k h1 h2 hk
    by_cases hn : hal.UART_FLAG_TC n = true
    · exact ⟨n, by simp [wait_TC, hn]⟩
    · have hne : n ≠ k := fun e => hn (e ▸ hk)
      obtain ⟨m, hm⟩ := ih (n + 1) k (by omega) (by omega) hk
      exact ⟨m, by simp [wait_TC, hn, hm]⟩

theorem dmatx_write_frame (cfg : CSP_Config) (huart : UART_HandleTypeDef)
    (d : Option (Nat → Nat)) (len : Nat) (s : State) (p : Port)
    (hp : uart_tx_identify cfg huart = some p) (i : Nat)
    (hi : i < (s.tx p).head_ptr
      ∨ (s.tx p).head_ptr + (uart_dmatx_write cfg huart d len s).2 ≤ i) :
    (((uart_dmatx_write cfg huart d len s).1).tx p).send_buf i = (s.tx p).send_buf i := by
  cases d with
  | none => rfl
  | some d =>
    by_cases hlen : len = 0
    · simp [uart_dmatx_write, hlen]
    · simp only [uart_dmatx_write, hp, if_neg hlen] at hi ⊢
      by_cases h : sub32 (s.tx p).buf_size (s.tx p).head_ptr < len
      · rw [if_pos h] at hi ⊢
        simp only [setTx_tx_same, memcpy]
        rw [if_neg (by omega)]
      · rw [if_neg h] at hi ⊢
        simp only [setTx_tx_same, memcpy]
        rw [if_neg (by omega)]

theorem dmatx_write_fits (cfg : CSP_Config) (huart : UART_HandleTypeDef) (d : Nat → Nat)
    (len : Nat) (s : State) (p : Port) (hp : uart_tx_identify cfg huart = some p)
    (hlen : 0 < len) (hfit : (s.tx p).head_ptr + len ≤ (s.tx p).buf_size)
    (hsz : (s.tx p).buf_size < 4294967296) :
    (((uart_dmatx_write cfg huart (some d) len s).1).tx p).head_ptr = (s.tx p).head_ptr + len
    ∧ (((uart_dmatx_write cfg huart (some d) len s).1).tx p).buf_size = (s.tx p).buf_size
    ∧ (((uart_dmatx_write cfg huart (some d) len s).1).tx p).send_buf
        = memcpy (s.tx p).send_buf (s.tx p).head_ptr d len := by
  rw [dmatx_write_eq cfg huart d len s p hp hlen (by omega) hsz, setTx_tx_same,
    Nat.min_eq_left (by omega)]
  exact ⟨rfl, rfl, rfl⟩

theorem dmatx_write_all_spec (cfg : CSP_Config) (huart : UART_HandleTypeDef) (p : Port)
    (hp : uart_tx_identify cfg huart = some p) :
    ∀ (ds : List (List Nat)) (s : State),
      (s.tx p).head_ptr + ds.flatten.length ≤ (s.tx p).buf_size →
      (s.tx p).buf_size < 4294967296 →
      ((uart_dmatx_write_all cfg huart ds s).tx p).head_ptr
          = (s.tx p).head_ptr + ds.flatten.length
        ∧ ((uart_dmatx_write_all cfg huart ds s).tx p).buf_size = (s.tx p).buf_size
        ∧ (∀ i, i < (s.tx p).head_ptr →
            ((uart_dmatx_write_all cfg huart ds s).tx p).send_buf i = (s.tx p).send_buf i)
        ∧ (∀ i, i < ds.flatten.length →
            ((uart_dmatx_write_all cfg huart ds s).tx p).send_buf ((s.tx p).head_ptr + i)
              = ds.flatten.getD i 0) := by
  intro ds
  induction ds with
  | nil =>
    intro s _ _
    exact ⟨rfl, rfl, fun _ _ => rfl, fun i hi => absurd hi (Nat.not_lt_zero i)⟩
  | cons d ds ih =>
    intro s hcap hsz
    rw [List.flatten_cons, List.length_append] at hcap
    by_cases hd : d.length = 0
    · have hnil : d = [] := List.length_eq_zero.mp hd
      subst hnil
      have hs : (uart_dmatx_write cfg huart (some (payload [])) ([] : List Nat).length s).1
          = s := by simp [uart_dmatx_write]
      simp only [uart_dmatx_write_all, hs, List.flatten_cons, List.nil_append]
      exact ih s (by simpa using hcap) hsz
    · obtain ⟨w1, w2, w3⟩ := dmatx_write_fits cfg huart (payload d) d.length s p hp
        (by omega) (by omega) hsz
      obtain ⟨h1, h2, h3, h4⟩ := ih (uart_dmatx_write cfg huart (some (payload d)) d.length s).1
        (by rw [w1, w2]; omega) (by rw [w2]; exact hsz)
      rw [w1] at h1 h3 h4
      rw [w2] at h2
      simp only [uart_dmatx_write_all, List.flatten_cons, List.length_append]
      refine ⟨by rw [h1]; omega, h2, ?_, ?_⟩
      · intro i hi
        rw [h3 i (by omega), w3]
        simp only [memcpy]
        rw [if_neg (by omega)]
      · intro i hi
        by_cases hid : i < d.length
        · rw [h3 _ (by omega), List.getD_append _ _ _ _ hid, w3]
          simp only [memcpy, payload]
          rw [if_pos (by omega), Nat.add_sub_cancel_left]
        · have h := h4 (i - d.length) (by omega)
          have e : (s.tx p).head_ptr + d.length + (i - d.length) = (s.tx p).head_ptr + i := by
            omega
          rw [e] at h
          rw [List.getD_append_right _ _ _ _ (by omega), h]

theorem dmatx_send_eq (cfg : CSP_Config) (hal : HAL) (fuel : Nat) (huart : UART_HandleTypeDef)
    (s : State) (p : Port) (dt : DMA_HandleTypeDef) (k : Nat)
    (hp : uart_tx_identify cfg huart = some p) (hdt : huart.hdmatx = some dt)
    (hpos : (s.tx p).head_ptr ≠ 0) (hk : k < fuel) (htc : hal.UART_FLAG_TC k = true) :
    uart_dmatx_send cfg hal fuel huart s
      = .ok (s.setTx p { s.tx p with head_ptr := 0 }, (s.tx p).head_ptr,
          [.HAL_UART_Transmit_DMA p (s.tx p).send_buf ((s.tx p).head_ptr % 65536)]) := by
  obtain ⟨m, hm⟩ := wait_TC_ends hal fuel 0 k (by omega) (by omega) htc
  simp only [uart_dmatx_send, hp, hdt, if_neg hpos, hm]

/-- C10, counterexample: with no payload written (`head_ptr = 0`, capacity 64,
DMA handle bound) `uart_dmatx_send` returns 0 and makes no call at all, so it
does not start one DMA transfer of the accumulated length. -/
theorem send_after_no_payload_starts_no_transfer :
    ((exState 0 64).tx .LPUART1).head_ptr = 0
    ∧ ((exState 0 64).tx .LPUART1).buf_size ≤ 65535
    ∧ ([] : List (List Nat)).flatten.length ≤ ((exState 0 64).tx .LPUART1).buf_size
    ∧ (exHuart 64 0).hdmatx.isSome = true
    ∧ ∃ s1, uart_dmatx_send exCfg exHal 1 (exHuart 64 0)
        (uart_dmatx_write_all exCfg (exHuart 64 0) [] (exState 0 64)) = .ok (s1, 0, []) :=
  ⟨rfl, by decide, by decide, rfl, _, rfl⟩

/-- C10, amended: accumulate, then flush.  On a recognised transmit port with
a bound DMA handle, `head_ptr = 0` and `buf_size ≤ 65535`, after
`uart_dmatx_write` calls with payloads `d1 .. dk` of total length at most
`buf_size`: if the total length is at least 1, `uart_dmatx_send` (once the
transfer-complete flag reads set) starts exactly one DMA transfer, whose source
is `send_buf`, whose length is the total length and whose first that-many bytes
are `d1 ++ ... ++ dk`, returns that length and resets `head_ptr`; if the total
length is 0 it returns 0 and starts no transfer.  Every write changes
`send_buf` only at positions `[head_ptr, head_ptr + n)`. -/
theorem accumulate_then_send (cfg : CSP_Config) (hal : HAL) (fuel : Nat)
    (huart : UART_HandleTypeDef) (s : State) (p : Port) (dt : DMA_HandleTypeDef)
    (ds : List (List Nat)) (k : Nat)
    (hp : uart_tx_identify cfg huart = some p) (hdt : huart.hdmatx = some dt)
    (hhead : (s.tx p).head_ptr = 0) (hsz : (s.tx p).buf_size ≤ 65535)
    (htot : ds.flatten.length ≤ (s.tx p).buf_size)
    (hk : k < fuel) (htc : hal.UART_FLAG_TC k = true) :
    (0 < ds.flatten.length →
      (∃ s1, uart_dmatx_send cfg hal fuel huart (uart_dmatx_write_all cfg huart ds s)
          = .ok (s1, ds.flatten.length,
              [.HAL_UART_Transmit_DMA p ((uart_dmatx_write_all cfg huart ds s).tx p).send_buf
                ds.flatten.length])
        ∧ (s1.tx p).head_ptr = 0)
      ∧ (List.range ds.flatten.length).map
          ((uart_dmatx_write_all cfg huart ds s).tx p).send_buf = ds.flatten)
    ∧ (ds.flatten.length = 0 →
      uart_dmatx_send cfg hal fuel huart (uart_dmatx_write_all cfg huart ds s)
        = .ok (uart_dmatx_write_all cfg huart ds s, 0, []))
    ∧ (∀ (s0 : State) (d0 : Option (Nat → Nat)) (len0 i : Nat),
        (i < (s0.tx p).head_ptr
          ∨ (s0.tx p).head_ptr + (uart_dmatx_write cfg huart d0 len0 s0).2 ≤ i) →
        (((uart_dmatx_write cfg huart d0 len0 s0).1).tx p).send_buf i
          = (s0.tx p).send_buf i) := by
  obtain ⟨h1, _, _, h4⟩ := dmatx_write_all_spec cfg huart p hp ds s (by omega) (by omega)
  rw [hhead, Nat.zero_add] at h1
  refine ⟨?_, ?_, ?_⟩
  · intro hpos
    refine ⟨?_, ?_⟩
    · rw [dmatx_send_eq cfg hal fuel huart _ p dt k hp hdt (by omega) hk htc, h1,
        Nat.mod_eq_of_lt (by omega)]
      exact ⟨_, rfl, by rw [setTx_tx_same]⟩
    · apply List.ext_getElem
      · simp
      · intro n hn1 hn2
        have h := h4 n hn2
        rw [hhead, Nat.zero_add] at h
        rw [List.getElem_map, List.getElem_range, h, List.getD_eq_getElem _ _ hn2]
  · intro h0
    rw [h0] at h1
    simp only [uart_dmatx_send, hp, hdt, h1, if_true]
  · intro s0 d0 len0 i hi
    exact dmatx_write_frame cfg huart d0 len0 s0 p hp i hi

/-- Instance of the amended C10: payloads `[1, 2]`, `[3]`, `[4, 5, 6]` into an
empty 64-byte buffer; the send starts one transfer of 6 bytes `1 .. 6`. -/
theorem accumulate_then_send_witness :
    (∃ s1 src, uart_dmatx_send exCfg exHal 1 (exHuart 64 0)
        (uart_dmatx_write_all exCfg (exHuart 64 0) [[1, 2], [3], [4, 5, 6]] (exState 0 64))
        = .ok (s1, 6, [.HAL_UART_Transmit_DMA .LPUART1 src 6])
      ∧ (List.range 6).map src = [1, 2, 3, 4, 5, 6]
      ∧ (s1.tx .LPUART1).head_ptr = 0) := by
  obtain ⟨h, -, -⟩ := accumulate_then_send exCfg exHal 1 (exHuart 64 0) (exState 0 64)
    .LPUART1 ⟨0, 0⟩ [[1, 2], [3], [4, 5, 6]] 0 (exCfg_tx_identify 64 0) rfl rfl (by decide)
    (by decide) (by decide) rfl
  obtain ⟨⟨s1, h1, h2⟩, h3⟩ := h (by decide)
  exact ⟨s1, _, h1, h3, h2⟩

/-! ## The 64-byte scenario -/

theorem ring_fifo_write_fits (f : ring_fifo_t) (src : Nat → Nat) (len : Nat)
    (h : f.data.length + len ≤ f.capacity) :
    (ring_fifo_write f src len).1
      = { capacity := f.capacity, data := f.data ++ (List.range len).map src } := by
  simp only [ring_fifo_write, Nat.min_eq_left (show len ≤ f.capacity - f.data.length by omega)]

theorem map_range_shift (mem : Nat → Nat) (off n : Nat) :
    (List.range n).map (fun i => mem (off + i)) = (List.range' off n).map mem := by
  rw [List.range'_eq_map_range, List.map_map]
  rfl

theorem reconcile_step (huart : UART_HandleTypeDef) (tail : Nat) (p : Port) (s : State)
    (off : Nat) (hoff : (s.rx p).head_ptr % huart.RxXferSize = off) (hle : off ≤ tail)
    (ht : tail < 4294967296) (hnw : (s.rx p).head_ptr + (tail - off) < 4294967296)
    (hfit : (s.rx p).rx_fifo.data.length + (tail - off) ≤ (s.rx p).rx_fifo.capacity) :
    (reconcile huart tail p s).2 = [.ring_fifo_write p off (tail - off)]
      ∧ (((reconcile huart tail p s).1).rx p).head_ptr = (s.rx p).head_ptr + (tail - off)
      ∧ (((reconcile huart tail p s).1).rx p).rx_fifo.data
          = (s.rx p).rx_fifo.data ++ (List.range' off (tail - off)).map huart.pRxBuffPtr
      ∧ (((reconcile huart tail p s).1).rx p).rx_fifo.capacity = (s.rx p).rx_fifo.capacity := by
  subst hoff
  rw [reconcile_of_le huart tail p s ht hle, setRx_rx_same, ring_fifo_write_fits _ _ _ hfit,
    map_range_shift]
  exact ⟨rfl, Nat.mod_eq_of_lt hnw, rfl, rfl⟩

/-- C7: scenario with `RxXferSize = 64`, `head_ptr = 0` and an empty ring
buffer of capacity at least 64 on a recognised port.  The half callback hands
over 32 bytes from offset 0 and leaves `head_ptr = 32`; the idle callback with
DMA counter 24 (tail 40) hands over 8 bytes from offset 32 and leaves 40; the
done callback hands over 24 bytes from offset 40 and leaves 64; then
`uart_dmarx_read` with a 100-byte destination returns 64 and stores the
hardware-buffer bytes `mem 0 .. mem 63` in order.  Each callback sees in the
hardware buffer the bytes `mem` that the hardware had written by then. -/
theorem scenario_half_idle_done_read (cfg : CSP_Config) (hal : HAL) (fuel : Nat)
    (h1 h2 h3 h4 : UART_HandleTypeDef) (s : State) (p : Port) (d2 d3 : DMA_HandleTypeDef)
    (mem : Nat → Nat)
    (hp1 : uart_rx_identify cfg h1 = some p) (hp2 : uart_rx_identify cfg h2 = some p)
    (hp3 : uart_rx_identify cfg h3 = some p) (hp4 : uart_rx_identify cfg h4 = some p)
    (hL1 : h1.RxXferSize = 64) (hL2 : h2.RxXferSize = 64) (hL3 : h3.RxXferSize = 64)
    (hd2 : h2.hdmarx = some d2) (hc2 : d2.CNDTR = 24)
    (hd3 : h3.hdmarx = some d3) (hr : rearm_ends cfg hal fuel d3)
    (hhead : (s.rx p).head_ptr = 0) (hdata : (s.rx p).rx_fifo.data = [])
    (hcap : 64 ≤ (s.rx p).rx_fifo.capacity)
    (hm1 : ∀ i, i < 32 → h1.pRxBuffPtr i = mem i)
    (hm2 : ∀ i, 32 ≤ i → i < 40 → h2.pRxBuffPtr i = mem i)
    (hm3 : ∀ i, 40 ≤ i → i < 64 → h3.pRxBuffPtr i = mem i) :
    ∃ s1 s2 s3 calls,
      uart_dmarx_halfdone_callback cfg h1 s = .ok (s1, [.ring_fifo_write p 0 32])
      ∧ (s1.rx p).head_ptr = 32
      ∧ uart_dmarx_idle_callback cfg h2 s1 = .ok (s2, [.ring_fifo_write p 32 8])
      ∧ (s2.rx p).head_ptr = 40
      ∧ uart_dmarx_done_callback cfg hal fuel h3 s2
          = .ok (s3, .ring_fifo_write p 40 24 :: calls)
      ∧ (∀ a ∈ calls, a.isWrite = false)
      ∧ (s3.rx p).head_ptr = 64
      ∧ (uart_dmarx_read cfg h4 true 100 s3).2 = (64, (List.range 64).map mem) := by
  have e1 : uart_dmarx_halfdone_callback cfg h1 s = .ok (reconcile h1 32 p s) := by
    rw [halfdone_eq_reconcile cfg h1 s p hp1 (by omega), hL1]
  obtain ⟨a1, b1, c1, k1⟩ := reconcile_step h1 32 p s 0 (by rw [hhead, hL1]) (by omega)
    (by omega) (by omega) (by rw [hdata]; show 0 + (32 - 0) ≤ _; omega)
  have e2 : uart_dmarx_idle_callback cfg h2 (reconcile h1 32 p s).1
      = .ok (reconcile h2 40 p (reconcile h1 32 p s).1) := by
    rw [idle_eq_reconcile cfg h2 _ p d2 hp2 hd2 (by omega), hL2, hc2]
    rfl
  rw [hhead] at b1
  rw [hdata] at c1
  obtain ⟨a2, b2, c2, k2⟩ := reconcile_step h2 40 p (reconcile h1 32 p s).1 32
    (by rw [b1, hL2]) (by omega) (by omega) (by omega)
    (by rw [c1, k1]; simp only [List.nil_append, List.length_map, List.length_range']; omega)
  rw [b1] at b2
  rw [c1] at c2
  rw [k1] at k2
  obtain ⟨calls, e3, hw⟩ := done_eq_reconcile cfg hal fuel h3
    (reconcile h2 40 p (reconcile h1 32 p s).1).1 p d3 hp3 hd3 (by omega) hr
  rw [hL3] at e3
  obtain ⟨a3, b3, c3, k3⟩ := reconcile_step h3 64 p
    (reconcile h2 40 p (reconcile h1 32 p s).1).1 40
    (by rw [b2, hL3]) (by omega) (by omega) (by omega)
    (by rw [c2, k2]; simp only [List.nil_append, List.length_map, List.length_range',
      List.length_append]; omega)
  rw [b2] at b3
  rw [c2] at c3
  rw [a3] at e3
  have x1 : (List.range' 0 (32 - 0)).map h1.pRxBuffPtr = (List.range' 0 32).map mem :=
    List.map_congr_left (fun i hi => hm1 i (by rw [List.mem_range'_1] at hi; omega))
  have x2 : (List.range' 32 (40 - 32)).map h2.pRxBuffPtr = (List.range' 32 8).map mem :=
    List.map_congr_left (fun i hi => hm2 i (by rw [List.mem_range'_1] at hi; omega)
      (by rw [List.mem_range'_1] at hi; omega))
  have x3 : (List.range' 40 (64 - 40)).map h3.pRxBuffPtr = (List.range' 40 24).map mem :=
    List.map_congr_left (fun i hi => hm3 i (by rw [List.mem_range'_1] at hi; omega)
      (by rw [List.mem_range'_1] at hi; omega))
  rw [x1, x2, x3] at c3
  have hall : ([] ++ (List.range' 0 32).map mem ++ (List.range' 32 8).map mem
      ++ (List.range' 40 24).map mem) = (List.range 64).map mem := rfl
  rw [hall] at c3
  refine ⟨(reconcile h1 32 p s).1, (reconcile h2 40 p (reconcile h1 32 p s).1).1,
    (reconcile h3 64 p (reconcile h2 40 p (reconcile h1 32 p s).1).1).1, calls,
    ?_, b1, ?_, b2, e3, hw, b3, ?_⟩
  · rw [e1, ← a1]
  · rw [e2, ← a2]
  · simp only [uart_dmarx_read, hp4, ring_fifo_read, c3]
    simp

/-- Instance of C7 on LPUART1 with circular DMA, a ring buffer of capacity 64
and the hardware buffer holding byte `i % 256` at position `i`: the read
returns 64 and the bytes `0 .. 63`. -/
theorem scenario_half_idle_done_read_witness :
    ∃ s1 s2 s3 calls,
      uart_dmarx_halfdone_callback exCfg (exHuart 64 32) (exState 0 64)
        = .ok (s1, [.ring_fifo_write .LPUART1 0 32])
      ∧ uart_dmarx_idle_callback exCfg (exHuart 64 24) s1
        = .ok (s2, [.ring_fifo_write .LPUART1 32 8])
      ∧ uart_dmarx_done_callback exCfg exHal 0 (exHuart 64 64) s2
        = .ok (s3, .ring_fifo_write .LPUART1 40 24 :: calls)
      ∧ (uart_dmarx_read exCfg (exHuart 64 64) true 100 s3).2
        = (64, (List.range 64).map (fun i => i % 256)) := by
  obtain ⟨s1, s2, s3, calls, g1, -, g2, -, g3, -, -, g4⟩ := scenario_half_idle_done_read exCfg
    exHal 0 (exHuart 64 32) (exHuart 64 24) (exHuart 64 64) (exHuart 64 64) (exState 0 64)
    .LPUART1 ⟨24, 32⟩ ⟨64, 32⟩ (fun i => i % 256) (exCfg_identify 64 32)
    (exCfg_identify 64 24) (exCfg_identify 64 64) (exCfg_identify 64 64) rfl rfl rfl rfl rfl
    rfl (Or.inl rfl) rfl rfl (by decide) (fun _ _ => rfl) (fun _ _ _ => rfl)
    (fun _ _ _ => rfl)
  exact ⟨s1, s2, s3, calls, g1, g2, g3, g4⟩

/-! ## Runs of callbacks -/

theorem written_positions_append (p : Port) (a b : List Action) :
    written_positions p (a ++ b) = written_positions p a ++ written_positions p b := by
  simp [written_positions]

theorem written_positions_no_write (p : Port) (calls : List Action)
    (h : ∀ a ∈ calls, a.isWrite = false) : written_positions p calls = [] := by
  induction calls with
  | nil => rfl
  | cons a as ih =>
    have ha := h a (List.mem_cons_self a as)
    have hrest := ih (fun b hb => h b (List.mem_cons_of_mem a hb))
    cases a <;>
      first
        | (simp [Action.isWrite] at ha; done)
        | (simpa [written_positions, Action.positions] using hrest)

theorem RxCall.run_eq (cfg : CSP_Config) (hal : HAL) (fuel : Nat) (p : Port) (L : Nat)
    (c : RxCall) (s : State) (hL : 1 ≤ L) (hL16 : L < 65536)
    (hwf : c.wf cfg hal fuel p L) :
    ∃ extra, c.run cfg hal fuel s
        = .ok ((reconcile c.huart c.tail p s).1, (reconcile c.huart c.tail p s).2 ++ extra)
      ∧ ∀ a ∈ extra, a.isWrite = false := by
  obtain ⟨hLe, hp, d, hd, hc, hr⟩ := hwf
  cases c with
  | idle h =>
    simp only [RxCall.huart] at hLe hp hd
    refine ⟨[], ?_, by simp⟩
    simp only [RxCall.run, RxCall.tail, RxCall.huart, hd, List.append_nil]
    rw [idle_eq_reconcile cfg h s p d hp hd (by omega), sub32_of_le (by omega) (by omega)]
  | halfdone h =>
    simp only [RxCall.huart] at hLe hp hd
    refine ⟨[], ?_, by simp⟩
    simp only [RxCall.run, RxCall.tail, RxCall.huart, List.append_nil]
    rw [halfdone_eq_reconcile cfg h s p hp (by omega)]
  | done h =>
    simp only [RxCall.huart] at hLe hp hd
    exact done_eq_reconcile cfg hal fuel h s p d hp hd (by omega) (hr rfl)

theorem RxCall.tail_of_done (c : RxCall) (L : Nat) (hdone : c.isDone = true)
    (hLe : c.huart.RxXferSize = L) : c.tail = L := by
  cases c with
  | idle h => simp [RxCall.isDone] at hdone
  | halfdone h => simp [RxCall.isDone] at hdone
  | done h => exact hLe

theorem consistent_le_total (cfg : CSP_Config) (hal : HAL) (fuel : Nat) (p : Port) (L : Nat) :
    ∀ (cs : List RxCall) (pos : Nat), consistent cfg hal fuel p L pos cs →
      pos ≤ cs.countP RxCall.isDone * L + final_pos pos cs := by
  intro cs
  induction cs with
  | nil => intro pos _; simp [final_pos]
  | cons c cs ih =>
    intro pos h
    obtain ⟨_, h1, h2, h3⟩ := h
    have h4 := ih _ h3
    rw [List.countP_cons]
    cases hdone : c.isDone with
    | true =>
      simp only [hdone, ↓reduceIte, final_pos] at h4 ⊢
      rw [Nat.add_mul]
      omega
    | false =>
      simp only [hdone, Bool.false_eq_true, ↓reduceIte, final_pos, Nat.add_zero] at h4 ⊢
      omega

theorem mod_mod_of_dvd32 (x L : Nat) (h : L ∣ 4294967296) : x % 4294967296 % L = x % L :=
  Nat.mod_mod_of_dvd x h

theorem range_append_range' (pos t : Nat) (h : pos ≤ t) :
    List.range pos ++ List.range' pos (t - pos) = List.range t := by
  rw [List.range_eq_range', List.range_eq_range']
  have h1 := List.range'_append_1 0 pos (t - pos)
  rw [Nat.zero_add] at h1
  rw [h1]
  congr 1
  omega

theorem run_callbacks_positions (cfg : CSP_Config) (hal : HAL) (fuel : Nat) (p : Port)
    (L : Nat) (hL : 1 ≤ L) (hL16 : L < 65536) :
    ∀ (cs : List RxCall) (pos : Nat) (s : State),
      pos < L → (s.rx p).head_ptr % L = pos →
      consistent cfg hal fuel p L pos cs →
      (∀ c ∈ cs, c.isDone = false → c.tail < L) →
      (L ∣ 4294967296
        ∨ (s.rx p).head_ptr - pos + (cs.countP RxCall.isDone * L + final_pos pos cs)
            < 4294967296) →
      ∃ s1 calls, run_callbacks cfg hal fuel cs s = .ok (s1, calls)
        ∧ List.range pos ++ written_positions p calls
            = (List.replicate (cs.countP RxCall.isDone) (List.range L)).flatten
              ++ List.range (final_pos pos cs)
        ∧ (s1.rx p).head_ptr % L = final_pos pos cs
        ∧ ∀ q, q ≠ p → written_positions q calls = [] := by
  intro cs
  induction cs with
  | nil =>
    intro pos s _ hoff _ _ _
    exact ⟨s, [], rfl, by simp [written_positions, final_pos], hoff, fun _ _ => rfl⟩
  | cons c cs ih =>
    intro pos s hpos hoff hcons hstrict hnw
    obtain ⟨hwf, hle, hleL, hrest⟩ := hcons
    have hLe : c.huart.RxXferSize = L := hwf.1
    obtain ⟨extra, hrun, hextra⟩ := RxCall.run_eq cfg hal fuel p L c s hL hL16 hwf
    have hoff2 : (s.rx p).head_ptr % c.huart.RxXferSize = pos := by rw [hLe]; exact hoff
    have hrec := reconcile_of_le c.huart c.tail p s (by omega) (by rw [hoff2]; exact hle)
    rw [hoff2] at hrec
    rw [hrec] at hrun
    have hmodle : pos ≤ (s.rx p).head_ptr := hoff ▸ Nat.mod_le _ _
    have htot := consistent_le_total cfg hal fuel p L cs _ hrest
    have hmod := add_sub_mod_eq (s.rx p).head_ptr c.tail L (by rw [hoff]; exact hle)
    rw [hoff] at hmod
    rw [List.countP_cons] at hnw ⊢
    simp only [final_pos] at hnw ⊢
    cases hdone : c.isDone with
    | true =>
      have ht : c.tail = L := RxCall.tail_of_done c L hdone hLe
      simp only [hdone, ↓reduceIte] at hnw htot hrest ih ⊢
      have hhead : (((s.rx p).head_ptr + (c.tail - pos)) % 4294967296) % L = 0
          ∧ (L ∣ 4294967296
            ∨ ((s.rx p).head_ptr + (c.tail - pos)) % 4294967296 - 0
                + (cs.countP RxCall.isDone * L + final_pos 0 cs) < 4294967296) := by
        replace hmod : ((s.rx p).head_ptr + (c.tail - pos)) % L = 0 := by
          rw [hmod, ht, Nat.mod_self]
        rcases hnw with hdvd | hlt
        · exact ⟨by rw [mod_mod_of_dvd32 _ _ hdvd]; exact hmod, Or.inl hdvd⟩
        · rw [Nat.add_mul, Nat.one_mul] at hlt
          have hx : ((s.rx p).head_ptr + (c.tail - pos)) % 4294967296
              = (s.rx p).head_ptr + (c.tail - pos) := Nat.mod_eq_of_lt (by omega)
          rw [hx]
          exact ⟨hmod, Or.inr (by omega)⟩
      obtain ⟨s1, calls, hruns, hpositions, hfinal, hother⟩ := ih 0
        (s.setRx p { s.rx p with
          head_ptr := ((s.rx p).head_ptr + (c.tail - pos)) % 4294967296,
          rx_fifo := (ring_fifo_write (s.rx p).rx_fifo
            (fun i => c.huart.pRxBuffPtr (pos + i)) (c.tail - pos)).1 })
        (by omega) (by rw [setRx_rx_same]; exact hhead.1) hrest
        (fun c1 hc1 => hstrict c1 (List.mem_cons_of_mem c hc1))
        (by rw [setRx_rx_same]; exact hhead.2)
      refine ⟨s1, ([.ring_fifo_write p pos (c.tail - pos)] ++ extra) ++ calls, ?_, ?_, hfinal,
        ?_⟩
      · simp only [run_callbacks, hrun, hruns]
      · have hw : written_positions p [.ring_fifo_write p pos (c.tail - pos)]
            = List.range' pos (c.tail - pos) := by
          simp [written_positions, Action.positions]
        rw [written_positions_append, written_positions_append,
          written_positions_no_write p extra hextra, List.append_nil, ← List.append_assoc,
          hw, range_append_range' pos c.tail hle, ht]
        rw [List.range_zero, List.nil_append] at hpositions
        rw [hpositions, List.replicate_succ, List.flatten_cons, List.append_assoc]
      · intro q hq
        rw [written_positions_append, written_positions_append,
          written_positions_no_write q extra hextra, hother q hq]
        simp [written_positions, Action.positions, Ne.symm hq]
    | false =>
      have ht : c.tail < L := hstrict c (List.mem_cons_self c cs) hdone
      simp only [hdone, Bool.false_eq_true, ↓reduceIte, Nat.add_zero] at hnw htot hrest ih ⊢
      have hhead : (((s.rx p).head_ptr + (c.tail - pos)) % 4294967296) % L = c.tail
          ∧ (L ∣ 4294967296
            ∨ ((s.rx p).head_ptr + (c.tail - pos)) % 4294967296 - c.tail
                + (cs.countP RxCall.isDone * L + final_pos c.tail cs) < 4294967296) := by
        rw [Nat.mod_eq_of_lt ht] at hmod
        rcases hnw with hdvd | hlt
        · exact ⟨by rw [mod_mod_of_dvd32 _ _ hdvd]; exact hmod, Or.inl hdvd⟩
        · have hx : ((s.rx p).head_ptr + (c.tail - pos)) % 4294967296
              = (s.rx p).head_ptr + (c.tail - pos) := Nat.mod_eq_of_lt (by omega)
          rw [hx]
          exact ⟨hmod, Or.inr (by omega)⟩
      obtain ⟨s1, calls, hruns, hpositions, hfinal, hother⟩ := ih c.tail
        (s.setRx p { s.rx p with
          head_ptr := ((s.rx p).head_ptr + (c.tail - pos)) % 4294967296,
          rx_fifo := (ring_fifo_write (s.rx p).rx_fifo
            (fun i => c.huart.pRxBuffPtr (pos + i)) (c.tail - pos)).1 })
        ht (by rw [setRx_rx_same]; exact hhead.1) hrest
        (fun c1 hc1 => hstrict c1 (List.mem_cons_of_mem c hc1))
        (by rw [setRx_rx_same]; exact hhead.2)
      refine ⟨s1, ([.ring_fifo_write p pos (c.tail - pos)] ++ extra) ++ calls, ?_, ?_, hfinal,
        ?_⟩
      · simp only [run_callbacks, hrun, hruns]
      · have hw : written_positions p [.ring_fifo_write p pos (c.tail - pos)]
            = List.range' pos (c.tail - pos) := by
          simp [written_positions, Action.positions]
        rw [written_positions_append, written_positions_append,
          written_positions_no_write p extra hextra, List.append_nil, ← List.append_assoc,
          hw, range_append_range' pos c.tail hle]
        exact hpositions
      · intro q hq
        rw [written_positions_append, written_positions_append,
          written_positions_no_write q extra hextra, hother q hq]
        simp [written_positions, Action.positions, Ne.symm hq]

theorem hw_positions_length (L : Nat) (cs : List RxCall) :
    (hw_positions L cs).length = cs.countP RxCall.isDone * L + final_pos 0 cs := by
  simp [hw_positions, List.length_flatten]

theorem exCfg_identify_normal (L c : Nat) :
    uart_rx_identify exCfg (exHuartNormal L c) = some .LPUART1 := by
  simp [uart_rx_identify, exCfg, exHuart, exHuartNormal]

/-- C1, counterexample, three runs that meet the stated conditions.
(1) `L = 1`, `head_ptr = 0`: the half callback (tail `ceil(1/2) = 1`) and then
the done callback (tail 1) each hand over position 0, so the one byte of the
pass is copied twice.
(2) `L = 4`, `head_ptr = 0`, one-shot DMA: the idle callback with DMA counter 0
(tail 4) and then the done callback (tail 4); positions `0 .. 3` are handed
over twice.
(3) `L = 3`, `head_ptr = 2^32 - 1` (a multiple of 3): the done callback and
then the idle callback with counter 2 (tail 1); `head_ptr` wraps to 2 and the
idle callback hands over `2^32 - 1` bytes from offset 2 instead of position
0. -/
theorem callbacks_copy_twice_or_wrap :
    (consistent exCfg exHal 0 .LPUART1 1 0 [.halfdone (exHuart 1 1), .done (exHuart 1 1)]
      ∧ ((exState 0 64).rx .LPUART1).head_ptr % 1 = 0
      ∧ (∃ s1, run_callbacks exCfg exHal 0 [.halfdone (exHuart 1 1), .done (exHuart 1 1)]
          (exState 0 64)
          = .ok (s1, [.ring_fifo_write .LPUART1 0 1, .ring_fifo_write .LPUART1 0 1]))
      ∧ written_positions .LPUART1
          [.ring_fifo_write .LPUART1 0 1, .ring_fifo_write .LPUART1 0 1] = [0, 0]
      ∧ hw_positions 1 [.halfdone (exHuart 1 1), .done (exHuart 1 1)] = [0])
    ∧ (consistent exCfg exHal 1 .LPUART1 4 0
          [.idle (exHuartNormal 4 0), .done (exHuartNormal 4 0)]
      ∧ ((exState 0 64).rx .LPUART1).head_ptr % 4 = 0
      ∧ (∃ s1, run_callbacks exCfg exHal 1
          [.idle (exHuartNormal 4 0), .done (exHuartNormal 4 0)] (exState 0 64)
          = .ok (s1, [.ring_fifo_write .LPUART1 0 4, .ring_fifo_write .LPUART1 0 4,
              .HAL_UART_Receive_DMA 4]))
      ∧ written_positions .LPUART1
          [.ring_fifo_write .LPUART1 0 4, .ring_fifo_write .LPUART1 0 4,
            .HAL_UART_Receive_DMA 4]
          = [0, 1, 2, 3, 0, 1, 2, 3]
      ∧ hw_positions 4 [.idle (exHuartNormal 4 0), .done (exHuartNormal 4 0)] = [0, 1, 2, 3])
    ∧ (consistent exCfg exHal 0 .LPUART1 3 0 [.done (exHuart 3 3), .idle (exHuart 3 2)]
      ∧ ((exState 4294967295 64).rx .LPUART1).head_ptr % 3 = 0
      ∧ (∃ s1, run_callbacks exCfg exHal 0 [.done (exHuart 3 3), .idle (exHuart 3 2)]
          (exState 4294967295 64)
          = .ok (s1, [.ring_fifo_write .LPUART1 0 3, .ring_fifo_write .LPUART1 2 4294967295]))
      ∧ hw_positions 3 [.done (exHuart 3 3), .idle (exHuart 3 2)] = [0, 1, 2, 0]) := by
  refine ⟨⟨?_, rfl, ⟨_, rfl⟩, rfl, rfl⟩, ⟨?_, rfl, ⟨_, rfl⟩, rfl, rfl⟩, ⟨?_, rfl, ⟨_, rfl⟩, rfl⟩⟩
  · exact ⟨⟨rfl, exCfg_identify 1 1, ⟨1, 32⟩, rfl, by decide, fun _ => Or.inl rfl⟩, by decide,
      by decide,
      ⟨rfl, exCfg_identify 1 1, ⟨1, 32⟩, rfl, by decide, fun _ => Or.inl rfl⟩, by decide,
      by decide, trivial⟩
  · exact ⟨⟨rfl, exCfg_identify_normal 4 0, ⟨0, 0⟩, rfl, by decide,
        fun _ => Or.inr ⟨0, by decide, rfl⟩⟩, by decide, by decide,
      ⟨rfl, exCfg_identify_normal 4 0, ⟨0, 0⟩, rfl, by decide,
        fun _ => Or.inr ⟨0, by decide, rfl⟩⟩, by decide, by decide, trivial⟩
  · exact ⟨⟨rfl, exCfg_identify 3 3, ⟨3, 32⟩, rfl, by decide, fun _ => Or.inl rfl⟩, by decide,
      by decide,
      ⟨rfl, exCfg_identify 3 2, ⟨2, 32⟩, rfl, by decide, fun _ => Or.inl rfl⟩, by decide,
      by decide, trivial⟩

/-- C1, amended: for a buffer length `1 ≤ L = RxXferSize`, a recognised
receive port whose `head_ptr` is a multiple of `L`, and every finite sequence of
half / idle / done callbacks whose reported tails fit a monotonically advancing
hardware write position (within each pass the tails do not decrease; the half
callback reports `ceil(L/2)`, the idle callback `L` minus the DMA counter, the
done callback `L` and ends the pass), provided every half and idle tail is
strictly below `L`, and `L` divides `2^32` or `head_ptr` plus the number of
bytes written stays below `2^32`: all callbacks return, and the ranges handed to
`ring_fifo_write`, concatenated in call order, are exactly the positions the
hardware wrote, `0 .. L - 1` for every finished pass and then `0 .. t - 1` for
the open pass; every position once, in order.  No call is made for another
port, and at the end `head_ptr mod L` is the last reported position. -/
theorem callbacks_copy_each_position_once (cfg : CSP_Config) (hal : HAL) (fuel : Nat)
    (p : Port) (L : Nat) (cs : List RxCall) (s : State)
    (hL : 1 ≤ L) (hL16 : L < 65536)
    (h0 : (s.rx p).head_ptr % L = 0)
    (hcons : consistent cfg hal fuel p L 0 cs)
    (hstrict : ∀ c ∈ cs, c.isDone = false → c.tail < L)
    (hnw : L ∣ 4294967296
      ∨ (s.rx p).head_ptr + (hw_positions L cs).length < 4294967296) :
    ∃ s1 calls, run_callbacks cfg hal fuel cs s = .ok (s1, calls)
      ∧ written_positions p calls = hw_positions L cs
      ∧ (s1.rx p).head_ptr % L = final_pos 0 cs
      ∧ ∀ q, q ≠ p → written_positions q calls = [] := by
  rw [hw_positions_length] at hnw
  obtain ⟨s1, calls, h1, h2, h3, h4⟩ := run_callbacks_positions cfg hal fuel p L hL hL16 cs 0 s
    (by omega) h0 hcons hstrict (by rw [Nat.sub_zero]; exact hnw)
  rw [List.range_zero, List.nil_append] at h2
  exact ⟨s1, calls, h1, h2, h3, h4⟩

/-- Instance of the amended C1: `L = 10`, `head_ptr = 4294967270` (a multiple
of 10, 26 bytes before the wrap), calls idle (counter 7), half, idle
(counter 2), done, idle (counter 6): the positions handed over are `0 .. 9`
followed by `0 .. 3`. -/
theorem callbacks_copy_each_position_once_witness :
    ∃ s1 calls, run_callbacks exCfg exHal 0
        [.idle (exHuart 10 7), .halfdone (exHuart 10 5), .idle (exHuart 10 2),
          .done (exHuart 10 10), .idle (exHuart 10 6)] (exState 4294967270 64)
        = .ok (s1, calls)
      ∧ written_positions .LPUART1 calls = [0, 1, 2, 3, 4, 5, 6, 7, 8, 9, 0, 1, 2, 3]
      ∧ (s1.rx .LPUART1).head_ptr % 10 = 4 := by
  obtain ⟨s1, calls, h1, h2, h3, -⟩ := callbacks_copy_each_position_once exCfg exHal 0 .LPUART1
    10 [.idle (exHuart 10 7), .halfdone (exHuart 10 5), .idle (exHuart 10 2),
      .done (exHuart 10 10), .idle (exHuart 10 6)] (exState 4294967270 64)
    (by decide) (by decide) (by decide)
    ⟨⟨rfl, exCfg_identify 10 7, ⟨7, 32⟩, rfl, by decide, fun _ => Or.inl rfl⟩,
      by decide, by decide,
      ⟨rfl, exCfg_identify 10 5, ⟨5, 32⟩, rfl, by decide, fun _ => Or.inl rfl⟩,
      by decide, by decide,
      ⟨rfl, exCfg_identify 10 2, ⟨2, 32⟩, rfl, by decide, fun _ => Or.inl rfl⟩,
      by decide, by decide,
      ⟨rfl, exCfg_identify 10 10, ⟨10, 32⟩, rfl, by decide, fun _ => Or.inl rfl⟩,
      by decide, by decide,
      ⟨rfl, exCfg_identify 10 6, ⟨6, 32⟩, rfl, by decide, fun _ => Or.inl rfl⟩,
      by decide, by decide, trivial⟩
    (by
      intro c hc hd
      simp only [List.mem_cons, List.mem_singleton, List.not_mem_nil, or_false] at hc
      rcases hc with rfl | rfl | rfl | rfl | rfl
      · decide
      · decide
      · decide
      · exact absurd hd (by decide)
      · decide)
    (Or.inr (by decide))
  exact ⟨s1, calls, h1, h2, h3⟩

/-! ## Resizing and the size getters -/

theorem exCfgRxOnly_identify (L c : Nat) :
    uart_rx_identify exCfgRxOnly (exHuartRxOnly L c) = some .LPUART1 := by
  simp [uart_rx_identify, exCfgRxOnly, exCfg, exHuartRxOnly, exHuart]

theorem exTxState_tx (n cap : Nat) :
    (exTxState n cap).tx .LPUART1 = { send_buf := fun _ => 7, head_ptr := n, buf_size := cap } :=
  setTx_tx_same _ _ _

theorem resize_fifo_cases (cfg : CSP_Config) (huart : UART_HandleTypeDef)
    (buf_size fifo_size : Nat) (s : State) :
    (buf_size = 0 ∨ fifo_size = 0 →
      uart_dmarx_resize_fifo cfg huart buf_size fifo_size s = (s, 3))
    ∧ (buf_size ≠ 0 → fifo_size ≠ 0 → uart_rx_identify cfg huart = none →
      uart_dmarx_resize_fifo cfg huart buf_size fifo_size s = (s, 1))
    ∧ (∀ p, buf_size ≠ 0 → fifo_size ≠ 0 → uart_rx_identify cfg huart = some p →
      huart.hdmatx ≠ none →
      uart_dmarx_resize_fifo cfg huart buf_size fifo_size s = (s, 2))
    ∧ (∀ p, buf_size ≠ 0 → fifo_size ≠ 0 → uart_rx_identify cfg huart = some p →
      huart.hdmatx = none →
      uart_dmarx_resize_fifo cfg huart buf_size fifo_size s
        = (s.setRx p { s.rx p with buf_size := buf_size, fifo_size := fifo_size }, 0)) := by
  refine ⟨?_, ?_, ?_, ?_⟩
  · intro h
    simp only [uart_dmarx_resize_fifo, if_pos h]
  · intro h1 h2 hp
    simp only [uart_dmarx_resize_fifo, if_neg (not_or.mpr ⟨h1, h2⟩), hp]
  · intro p h1 h2 hp ht
    obtain ⟨d, hd⟩ := Option.ne_none_iff_exists'.mp ht
    simp only [uart_dmarx_resize_fifo, if_neg (not_or.mpr ⟨h1, h2⟩), hp, hd]
  · intro p h1 h2 hp ht
    simp only [uart_dmarx_resize_fifo, if_neg (not_or.mpr ⟨h1, h2⟩), hp, ht]

theorem resize_buf_cases (cfg : CSP_Config) (hal : HAL) (huart : UART_HandleTypeDef)
    (size : Nat) (s : State) :
    (size = 0 → uart_dmatx_resize_buf cfg hal huart size s = (s, 4))
    ∧ (size ≠ 0 → uart_tx_identify cfg huart = none →
      uart_dmatx_resize_buf cfg hal huart size s = (s, 1))
    ∧ (∀ p, size ≠ 0 → uart_tx_identify cfg huart = some p → gState_busy_bits cfg huart ≠ 0 →
      uart_dmatx_resize_buf cfg hal huart size s = (s, 3))
    ∧ (∀ p, size ≠ 0 → uart_tx_identify cfg huart = some p → gState_busy_bits cfg huart = 0 →
      huart.hdmatx ≠ none → hal.CSP_REALLOC = none →
      uart_dmatx_resize_buf cfg hal huart size s = (s, 2))
    ∧ (∀ p, size ≠ 0 → uart_tx_identify cfg huart = some p → gState_busy_bits cfg huart = 0 →
      huart.hdmatx = none →
      uart_dmatx_resize_buf cfg hal huart size s
        = (s.setTx p { s.tx p with buf_size := size }, 0))
    ∧ (∀ p new_ptr, size ≠ 0 → uart_tx_identify cfg huart = some p →
      gState_busy_bits cfg huart = 0 → huart.hdmatx ≠ none →
      hal.CSP_REALLOC = some new_ptr →
      uart_dmatx_resize_buf cfg hal huart size s
        = (s.setTx p { s.tx p with send_buf := new_ptr, buf_size := size }, 0)) := by
  refine ⟨?_, ?_, ?_, ?_, ?_, ?_⟩
  · intro h
    simp only [uart_dmatx_resize_buf, if_pos h]
  · intro h hp
    simp only [uart_dmatx_resize_buf, if_neg h, hp]
  · intro p h hp hb
    simp only [uart_dmatx_resize_buf, if_neg h, hp, if_pos hb]
  · intro p h hp hb ht hr
    obtain ⟨d, hd⟩ := Option.ne_none_iff_exists'.mp ht
    simp only [uart_dmatx_resize_buf, if_neg h, hp, hb, hd, hr, ne_eq, not_true_eq_false,
      if_false]
  · intro p h hp hb ht
    simp only [uart_dmatx_resize_buf, if_neg h, hp, hb, ht, ne_eq, not_true_eq_false, if_false]
  · intro p new_ptr h hp hb ht hr
    obtain ⟨d, hd⟩ := Option.ne_none_iff_exists'.mp ht
    simp only [uart_dmatx_resize_buf, if_neg h, hp, hb, hd, hr, ne_eq, not_true_eq_false,
      if_false]

/-- C15, failing input: LPUART1 with receive DMA enabled and transmit DMA
disabled, initialised and receiving (`hdmarx` linked, `hdmatx` is `NULL`).
`uart_dmarx_resize_fifo(huart, 128, 256)` returns 0 instead of 2 and overwrites
`buf_size` and `fifo_size` (both 64 before) with 128 and 256. -/
theorem resize_fifo_on_active_rx_port_succeeds :
    uart_rx_identify exCfgRxOnly (exHuartRxOnly 64 64) = some .LPUART1
    ∧ (exHuartRxOnly 64 64).hdmarx = some { CNDTR := 64, Mode := 32 }
    ∧ (exHuartRxOnly 64 64).hdmatx = none
    ∧ ((exState 0 64).rx .LPUART1).buf_size = 64
    ∧ ((exState 0 64).rx .LPUART1).fifo_size = 64
    ∧ (uart_dmarx_resize_fifo exCfgRxOnly (exHuartRxOnly 64 64) 128 256 (exState 0 64)).2 = 0
    ∧ (((uart_dmarx_resize_fifo exCfgRxOnly (exHuartRxOnly 64 64) 128 256
          (exState 0 64)).1).rx .LPUART1).buf_size = 128
    ∧ (((uart_dmarx_resize_fifo exCfgRxOnly (exHuartRxOnly 64 64) 128 256
          (exState 0 64)).1).rx .LPUART1).fifo_size = 256 :=
  ⟨exCfgRxOnly_identify 64 64, rfl, rfl, rfl, rfl, rfl, rfl, rfl⟩

/-- C16, counterexample: LPUART1 with a DMA transmit handle bound
(`hdmatx ≠ NULL`), `gState = HAL_UART_STATE_READY` and an allocator that
succeeds.  `uart_dmatx_resize_buf(huart, 128)` returns 0 and changes `buf_size`
from 64 to 128. -/
theorem resize_buf_with_bound_handle_succeeds :
    (exHuart 64 64).hdmatx = some { CNDTR := 0, Mode := 0 }
    ∧ ((exState 0 64).tx .LPUART1).buf_size = 64
    ∧ (uart_dmatx_resize_buf exCfg exHal (exHuart 64 64) 128 (exState 0 64)).2 = 0
    ∧ (((uart_dmatx_resize_buf exCfg exHal (exHuart 64 64) 128 (exState 0 64)).1).tx
        .LPUART1).buf_size = 128 :=
  ⟨rfl, rfl, rfl, rfl⟩

/-- C16, amended: `uart_dmatx_resize_buf` fails, returning a non-zero status
and leaving the whole state unchanged, exactly when `size` is 0 (status 4), the
port is not recognised (1), the busy test on `gState` is non-zero (3), or a DMA
transmit handle is bound and `CSP_REALLOC` returns `NULL` (2).  Otherwise it
returns 0 and sets `buf_size` to `size`, leaving `head_ptr` as it was: with no
DMA transmit handle bound `send_buf` is kept, with a handle bound `send_buf`
becomes the reallocated block. -/
theorem resize_buf_fails_iff (cfg : CSP_Config) (hal : HAL) (huart : UART_HandleTypeDef)
    (size : Nat) (s : State) :
    ((uart_dmatx_resize_buf cfg hal huart size s).2 ≠ 0 ↔
      (size = 0 ∨ uart_tx_identify cfg huart = none ∨ gState_busy_bits cfg huart ≠ 0
        ∨ (huart.hdmatx ≠ none ∧ hal.CSP_REALLOC = none)))
    ∧ ((uart_dmatx_resize_buf cfg hal huart size s).2 ≠ 0 →
        (uart_dmatx_resize_buf cfg hal huart size s).1 = s)
    ∧ (size = 0 → (uart_dmatx_resize_buf cfg hal huart size s).2 = 4)
    ∧ (size ≠ 0 → uart_tx_identify cfg huart = none →
        (uart_dmatx_resize_buf cfg hal huart size s).2 = 1)
    ∧ (size ≠ 0 → uart_tx_identify cfg huart ≠ none → gState_busy_bits cfg huart ≠ 0 →
        (uart_dmatx_resize_buf cfg hal huart size s).2 = 3)
    ∧ (size ≠ 0 → uart_tx_identify cfg huart ≠ none → gState_busy_bits cfg huart = 0 →
        huart.hdmatx ≠ none → hal.CSP_REALLOC = none →
        (uart_dmatx_resize_buf cfg hal huart size s).2 = 2)
    ∧ (∀ p, uart_tx_identify cfg huart = some p →
        (uart_dmatx_resize_buf cfg hal huart size s).2 = 0 →
        (((uart_dmatx_resize_buf cfg hal huart size s).1).tx p).buf_size = size
        ∧ (((uart_dmatx_resize_buf cfg hal huart size s).1).tx p).head_ptr = (s.tx p).head_ptr
        ∧ (huart.hdmatx = none →
            (((uart_dmatx_resize_buf cfg hal huart size s).1).tx p).send_buf
              = (s.tx p).send_buf)
        ∧ (huart.hdmatx ≠ none →
            some (((uart_dmatx_resize_buf cfg hal huart size s).1).tx p).send_buf
              = hal.CSP_REALLOC)) := by
  obtain ⟨c1, c2, c3, c4, c5, c6⟩ := resize_buf_cases cfg hal huart size s
  by_cases hsz : size = 0
  · rw [c1 hsz]
    simp [hsz]
  · cases hp : uart_tx_identify cfg huart with
    | none =>
      rw [c2 hsz hp]
      simp [hsz]
    | some p =>
      by_cases hb : gState_busy_bits cfg huart = 0
      · cases ht : huart.hdmatx with
        | none =>
          rw [c5 p hsz hp hb ht]
          simp [hsz, hb, setTx_tx_same]
        | some d =>
          have ht2 : huart.hdmatx ≠ none := by rw [ht]; simp
          cases hr : hal.CSP_REALLOC with
          | none =>
            rw [c4 p hsz hp hb ht2 hr]
            simp [hsz, hb]
          | some new_ptr =>
            rw [c6 p new_ptr hsz hp hb ht2 hr]
            simp [hsz, hb, setTx_tx_same]
      · rw [c3 p hsz hp hb]
        simp [hsz, hb]

/-- Instances of the amended C16 on LPUART1: a busy UART (`gState = 0x21`)
gives status 3, a bound handle with a failing allocator gives status 2, both
with the state unchanged; a bound handle, a ready UART and a succeeding
allocator give status 0 and capacity 128. -/
theorem resize_buf_fails_iff_witness :
    uart_dmatx_resize_buf exCfg exHal { exHuart 64 64 with gState := 0x21 } 128 (exState 0 64)
        = (exState 0 64, 3)
    ∧ uart_dmatx_resize_buf exCfg exHalFail (exHuart 64 64) 128 (exState 0 64)
        = (exState 0 64, 2)
    ∧ (((uart_dmatx_resize_buf exCfg exHal (exHuart 64 64) 128 (exState 0 64)).1).tx
        .LPUART1).buf_size = 128 := by
  have h1 := resize_buf_fails_iff exCfg exHal { exHuart 64 64 with gState := 0x21 } 128
    (exState 0 64)
  have h2 := resize_buf_fails_iff exCfg exHalFail (exHuart 64 64) 128 (exState 0 64)
  have h3 := resize_buf_fails_iff exCfg exHal (exHuart 64 64) 128 (exState 0 64)
  refine ⟨Prod.ext (h1.2.1 (by decide)) rfl, Prod.ext (h2.2.1 (by decide)) rfl, ?_⟩
  exact (h3.2.2.2.2.2.2 .LPUART1 (exCfg_tx_identify 64 64) rfl).1

/-- C20: resize/get round trip.  If `uart_dmarx_resize_fifo(h, b, f)` returns 0
then `uart_dmarx_get_buf_size(h)` is `b` and `uart_dmarx_get_fifo_size(h)` is
`f`; if `uart_dmatx_resize_buf(h, sz)` returns 0 then
`uart_damtx_get_buf_szie(h)` is `sz`; and if a resize returns non-zero the
getters return what they returned before the call. -/
theorem resize_get_round_trip (cfg : CSP_Config) (hal : HAL) (huart : UART_HandleTypeDef)
    (b f sz : Nat) (s : State) :
    ((uart_dmarx_resize_fifo cfg huart b f s).2 = 0 →
      uart_dmarx_get_buf_size cfg huart (uart_dmarx_resize_fifo cfg huart b f s).1 = b
      ∧ uart_dmarx_get_fifo_size cfg huart (uart_dmarx_resize_fifo cfg huart b f s).1 = f)
    ∧ ((uart_dmarx_resize_fifo cfg huart b f s).2 ≠ 0 →
      uart_dmarx_get_buf_size cfg huart (uart_dmarx_resize_fifo cfg huart b f s).1
        = uart_dmarx_get_buf_size cfg huart s
      ∧ uart_dmarx_get_fifo_size cfg huart (uart_dmarx_resize_fifo cfg huart b f s).1
        = uart_dmarx_get_fifo_size cfg huart s)
    ∧ ((uart_dmatx_resize_buf cfg hal huart sz s).2 = 0 →
      uart_damtx_get_buf_szie cfg huart (uart_dmatx_resize_buf cfg hal huart sz s).1 = sz)
    ∧ ((uart_dmatx_resize_buf cfg hal huart sz s).2 ≠ 0 →
      uart_damtx_get_buf_szie cfg huart (uart_dmatx_resize_buf cfg hal huart sz s).1
        = uart_damtx_get_buf_szie cfg huart s) := by
  obtain ⟨r1, r2, r3, r4⟩ := resize_fifo_cases cfg huart b f s
  obtain ⟨c1, c2, c3, c4, c5, c6⟩ := resize_buf_cases cfg hal huart sz s
  have hrx : ((uart_dmarx_resize_fifo cfg huart b f s).2 = 0 →
      uart_dmarx_get_buf_size cfg huart (uart_dmarx_resize_fifo cfg huart b f s).1 = b
      ∧ uart_dmarx_get_fifo_size cfg huart (uart_dmarx_resize_fifo cfg huart b f s).1 = f)
    ∧ ((uart_dmarx_resize_fifo cfg huart b f s).2 ≠ 0 →
      uart_dmarx_get_buf_size cfg huart (uart_dmarx_resize_fifo cfg huart b f s).1
        = uart_dmarx_get_buf_size cfg huart s
      ∧ uart_dmarx_get_fifo_size cfg huart (uart_dmarx_resize_fifo cfg huart b f s).1
        = uart_dmarx_get_fifo_size cfg huart s) := by
    by_cases h0 : b = 0 ∨ f = 0
    · rw [r1 h0]; simp
    · obtain ⟨hb, hf⟩ := not_or.mp h0
      cases hp : uart_rx_identify cfg huart with
      | none => rw [r2 hb hf hp]; simp
      | some p =>
        cases ht : huart.hdmatx with
        | none =>
          rw [r4 p hb hf hp ht]
          simp [uart_dmarx_get_buf_size, uart_dmarx_get_fifo_size, hp, setRx_rx_same]
        | some d =>
          rw [r3 p hb hf hp (by rw [ht]; simp)]; simp
  have htx : ((uart_dmatx_resize_buf cfg hal huart sz s).2 = 0 →
      uart_damtx_get_buf_szie cfg huart (uart_dmatx_resize_buf cfg hal huart sz s).1 = sz)
    ∧ ((uart_dmatx_resize_buf cfg hal huart sz s).2 ≠ 0 →
      uart_damtx_get_buf_szie cfg huart (uart_dmatx_resize_buf cfg hal huart sz s).1
        = uart_damtx_get_buf_szie cfg huart s) := by
    by_cases hsz : sz = 0
    · rw [c1 hsz]; simp
    · cases hp : uart_tx_identify cfg huart with
      | none => rw [c2 hsz hp]; simp
      | some p =>
        by_cases hb : gState_busy_bits cfg huart = 0
        · cases ht : huart.hdmatx with
          | none =>
            rw [c5 p hsz hp hb ht]
            simp [uart_damtx_get_buf_szie, hp, setTx_tx_same]
          | some d =>
            have ht2 : huart.hdmatx ≠ none := by rw [ht]; simp
            cases hr : hal.CSP_REALLOC with
            | none => rw [c4 p hsz hp hb ht2 hr]; simp
            | some new_ptr =>
              rw [c6 p new_ptr hsz hp hb ht2 hr]
              simp [uart_damtx_get_buf_szie, hp, setTx_tx_same]
        · rw [c3 p hsz hp hb]; simp
  exact ⟨hrx.1, hrx.2, htx.1, htx.2⟩

/-- Instances of C20 on LPUART1: a receive resize to (128, 256) on a port
without transmit DMA is read back as 128 and 256; a transmit resize to 200 is
read back as 200; a rejected receive resize (transmit handle bound) leaves the
getters at 64. -/
theorem resize_get_round_trip_witness :
    uart_dmarx_get_buf_size exCfgRxOnly (exHuartRxOnly 64 64)
        (uart_dmarx_resize_fifo exCfgRxOnly (exHuartRxOnly 64 64) 128 256 (exState 0 64)).1 = 128
    ∧ uart_dmarx_get_fifo_size exCfgRxOnly (exHuartRxOnly 64 64)
        (uart_dmarx_resize_fifo exCfgRxOnly (exHuartRxOnly 64 64) 128 256 (exState 0 64)).1 = 256
    ∧ uart_damtx_get_buf_szie exCfg (exHuart 64 64)
        (uart_dmatx_resize_buf exCfg exHal (exHuart 64 64) 200 (exState 0 64)).1 = 200
    ∧ uart_dmarx_get_buf_size exCfg (exHuart 64 64)
        (uart_dmarx_resize_fifo exCfg (exHuart 64 64) 128 256 (exState 0 64)).1 = 64 := by
  have h1 := resize_get_round_trip exCfgRxOnly exHal (exHuartRxOnly 64 64) 128 256 200
    (exState 0 64)
  have h2 := resize_get_round_trip exCfg exHal (exHuart 64 64) 128 256 200 (exState 0 64)
  exact ⟨(h1.1 rfl).1, (h1.1 rfl).2, h2.2.2.1 rfl, (h2.2.1 (by decide)).1⟩

/-! ## Misuse and unrecognised ports -/

/-- C18: misuse leaves the state untouched.  Whenever `uart_dmarx_resize_fifo`
or `uart_dmatx_resize_buf` returns a non-zero status (which is then 1, 2 or 3
for receive and 1, 2, 3 or 4 for transmit), and whenever `uart_dmatx_write` or
`uart_dmarx_read` is called with a `NULL` buffer or a zero length (returning
0), the state after the call is the state before it: every field of every
port's receive and transmit object is the same. -/
theorem misuse_leaves_state_untouched (cfg : CSP_Config) (hal : HAL)
    (huart : UART_HandleTypeDef) (b f sz len : Nat) (data : Option (Nat → Nat)) (buf : Bool)
    (s : State) :
    ((uart_dmarx_resize_fifo cfg huart b f s).2 ≠ 0 →
      (uart_dmarx_resize_fifo cfg huart b f s).1 = s
      ∧ ((uart_dmarx_resize_fifo cfg huart b f s).2 = 1
        ∨ (uart_dmarx_resize_fifo cfg huart b f s).2 = 2
        ∨ (uart_dmarx_resize_fifo cfg huart b f s).2 = 3))
    ∧ ((uart_dmatx_resize_buf cfg hal huart sz s).2 ≠ 0 →
      (uart_dmatx_resize_buf cfg hal huart sz s).1 = s
      ∧ ((uart_dmatx_resize_buf cfg hal huart sz s).2 = 1
        ∨ (uart_dmatx_resize_buf cfg hal huart sz s).2 = 2
        ∨ (uart_dmatx_resize_buf cfg hal huart sz s).2 = 3
        ∨ (uart_dmatx_resize_buf cfg hal huart sz s).2 = 4))
    ∧ (b = 0 ∨ f = 0 → (uart_dmarx_resize_fifo cfg huart b f s).2 = 3)
    ∧ (sz = 0 → (uart_dmatx_resize_buf cfg hal huart sz s).2 = 4)
    ∧ (b ≠ 0 → f ≠ 0 → uart_rx_identify cfg huart = none →
        (uart_dmarx_resize_fifo cfg huart b f s).2 = 1)
    ∧ (sz ≠ 0 → uart_tx_identify cfg huart = none →
        (uart_dmatx_resize_buf cfg hal huart sz s).2 = 1)
    ∧ (b ≠ 0 → f ≠ 0 → uart_rx_identify cfg huart ≠ none → huart.hdmatx ≠ none →
        (uart_dmarx_resize_fifo cfg huart b f s).2 = 2)
    ∧ (sz ≠ 0 → uart_tx_identify cfg huart ≠ none → gState_busy_bits cfg huart ≠ 0 →
        (uart_dmatx_resize_buf cfg hal huart sz s).2 = 3)
    ∧ (sz ≠ 0 → uart_tx_identify cfg huart ≠ none → gState_busy_bits cfg huart = 0 →
        huart.hdmatx ≠ none → hal.CSP_REALLOC = none →
        (uart_dmatx_resize_buf cfg hal huart sz s).2 = 2)
    ∧ (data = none ∨ len = 0 → uart_dmatx_write cfg huart data len s = (s, 0))
    ∧ (buf = false ∨ len = 0 → uart_dmarx_read cfg huart buf len s = (s, 0, [])) := by
  obtain ⟨r1, r2, r3, r4⟩ := resize_fifo_cases cfg huart b f s
  obtain ⟨c1, c2, c3, c4, c5, c6⟩ := resize_buf_cases cfg hal huart sz s
  refine ⟨?_, ?_, ?_, ?_, ?_, ?_, ?_, ?_, ?_, ?_, ?_⟩
  · by_cases h0 : b = 0 ∨ f = 0
    · rw [r1 h0]; simp
    · obtain ⟨hb, hf⟩ := not_or.mp h0
      cases hp : uart_rx_identify cfg huart with
      | none => rw [r2 hb hf hp]; simp
      | some p =>
        cases ht : huart.hdmatx with
        | none => rw [r4 p hb hf hp ht]; simp
        | some d => rw [r3 p hb hf hp (by rw [ht]; simp)]; simp
  · by_cases hsz : sz = 0
    · rw [c1 hsz]; simp
    · cases hp : uart_tx_identify cfg huart with
      | none => rw [c2 hsz hp]; simp
      | some p =>
        by_cases hb : gState_busy_bits cfg huart = 0
        · cases ht : huart.hdmatx with
          | none => rw [c5 p hsz hp hb ht]; simp
          | some d =>
            have ht2 : huart.hdmatx ≠ none := by rw [ht]; simp
            cases hr : hal.CSP_REALLOC with
            | none => rw [c4 p hsz hp hb ht2 hr]; simp
            | some new_ptr => rw [c6 p new_ptr hsz hp hb ht2 hr]; simp
        · rw [c3 p hsz hp hb]; simp
  · intro h; rw [r1 h]
  · intro h; rw [c1 h]
  · intro hb hf hp; rw [r2 hb hf hp]
  · intro hsz hp; rw [c2 hsz hp]
  · intro hb hf hp ht
    obtain ⟨p, hp⟩ := Option.ne_none_iff_exists'.mp hp
    rw [r3 p hb hf hp ht]
  · intro hsz hp hb
    obtain ⟨p, hp⟩ := Option.ne_none_iff_exists'.mp hp
    rw [c3 p hsz hp hb]
  · intro hsz hp hb ht hr
    obtain ⟨p, hp⟩ := Option.ne_none_iff_exists'.mp hp
    rw [c4 p hsz hp hb ht hr]
  · intro h
    rcases h with h | h
    · subst h; rfl
    · subst h
      cases data with
      | none => rfl
      | some d => simp [uart_dmatx_write]
  · intro h
    simp only [uart_dmarx_read]
    rw [if_pos h]

/-- Instances of C18 on LPUART1 with 10 bytes accumulated: a transmit resize on
a busy UART and a receive resize with a transmit handle bound return 3 and 2
and give back the same state; a write of length 0 and a read into `NULL` return
0 and give back the same state. -/
theorem misuse_leaves_state_untouched_witness :
    uart_dmatx_resize_buf exCfg exHal { exHuart 64 64 with gState := 0x21 } 128
        (exTxState 10 64) = (exTxState 10 64, 3)
    ∧ uart_dmarx_resize_fifo exCfg (exHuart 64 64) 128 256 (exTxState 10 64)
        = (exTxState 10 64, 2)
    ∧ uart_dmatx_write exCfg (exHuart 64 64) (some (payload [1, 2])) 0 (exTxState 10 64)
        = (exTxState 10 64, 0)
    ∧ uart_dmarx_read exCfg (exHuart 64 64) false 100 (exTxState 10 64)
        = (exTxState 10 64, 0, []) := by
  have h1 := misuse_leaves_state_untouched exCfg exHal { exHuart 64 64 with gState := 0x21 }
    128 256 128 0 (some (payload [1, 2])) false (exTxState 10 64)
  have h2 := misuse_leaves_state_untouched exCfg exHal (exHuart 64 64)
    128 256 128 100 (some (payload [1, 2])) false (exTxState 10 64)
  exact ⟨Prod.ext (h1.2.1 (by decide)).1 rfl, Prod.ext (h2.1 (by decide)).1 rfl,
    h1.2.2.2.2.2.2.2.2.2.1 (Or.inr rfl), h2.2.2.2.2.2.2.2.2.2.2 (Or.inl rfl)⟩

theorem exCfgNoDma_rx_identify (L c : Nat) :
    uart_rx_identify exCfgNoDma (exHuart L c) = none := by
  simp [uart_rx_identify, exCfgNoDma, exCfg]

theorem exCfgNoDma_tx_identify (L c : Nat) :
    uart_tx_identify exCfgNoDma (exHuart L c) = none := by
  simp [uart_tx_identify, exCfgNoDma, exCfg]

/-- C17: for a handle that `uart_rx_identify` and `uart_tx_identify` do not
recognise, and for all other arguments: `uart_dmarx_read`, `uart_dmatx_write`,
`uart_dmatx_send`, `uart_dmarx_get_buf_size`, `uart_dmarx_get_fifo_size` and
`uart_damtx_get_buf_szie` return 0; `uart_dmarx_resize_fifo` and
`uart_dmatx_resize_buf` return a non-zero status; the three receive callbacks
return without any call, so without `ring_fifo_write`; and every function
gives back the state it was given. -/
theorem unrecognised_port_is_no_op (cfg : CSP_Config) (hal : HAL) (fuel : Nat)
    (huart : UART_HandleTypeDef) (s : State) (buf : Bool) (len b f sz : Nat)
    (data : Option (Nat → Nat))
    (hrx : uart_rx_identify cfg huart = none) (htx : uart_tx_identify cfg huart = none) :
    uart_dmarx_read cfg huart buf len s = (s, 0, [])
    ∧ uart_dmatx_write cfg huart data len s = (s, 0)
    ∧ uart_dmatx_send cfg hal fuel huart s = .ok (s, 0, [])
    ∧ uart_dmarx_get_buf_size cfg huart s = 0
    ∧ uart_dmarx_get_fifo_size cfg huart s = 0
    ∧ uart_damtx_get_buf_szie cfg huart s = 0
    ∧ (uart_dmarx_resize_fifo cfg huart b f s).1 = s
    ∧ (uart_dmarx_resize_fifo cfg huart b f s).2 ≠ 0
    ∧ (uart_dmatx_resize_buf cfg hal huart sz s).1 = s
    ∧ (uart_dmatx_resize_buf cfg hal huart sz s).2 ≠ 0
    ∧ uart_dmarx_idle_callback cfg huart s = .ok (s, [])
    ∧ uart_dmarx_halfdone_callback cfg huart s = .ok (s, [])
    ∧ uart_dmarx_done_callback cfg hal fuel huart s = .ok (s, []) := by
  refine ⟨?_, ?_, ?_, ?_, ?_, ?_, ?_, ?_, ?_, ?_, ?_, ?_, ?_⟩
  · simp only [uart_dmarx_read, hrx]
    split <;> rfl
  · cases data with
    | none => rfl
    | some d =>
      simp only [uart_dmatx_write, htx]
      split <;> rfl
  · simp only [uart_dmatx_send, htx]
  · simp only [uart_dmarx_get_buf_size, hrx]
  · simp only [uart_dmarx_get_fifo_size, hrx]
  · simp only [uart_damtx_get_buf_szie, htx]
  · simp only [uart_dmarx_resize_fifo, hrx]
    split <;> rfl
  · simp only [uart_dmarx_resize_fifo, hrx]
    split <;> simp
  · simp only [uart_dmatx_resize_buf, htx]
    split <;> rfl
  · simp only [uart_dmatx_resize_buf, htx]
    split <;> simp
  · simp only [uart_dmarx_idle_callback, hrx]
  · simp only [uart_dmarx_halfdone_callback, hrx]
  · simp only [uart_dmarx_done_callback, hrx]

/-- Instance of C17: with no port enabled for DMA the LPUART1 handle is not
recognised; a read of 100 bytes, a write of two bytes, a send and the done
callback all give back the state with 10 accumulated bytes, and the resizes
return 1. -/
theorem unrecognised_port_is_no_op_witness :
    uart_dmarx_read exCfgNoDma (exHuart 64 64) true 100 (exTxState 10 64)
        = (exTxState 10 64, 0, [])
    ∧ uart_dmatx_write exCfgNoDma (exHuart 64 64) (some (payload [1, 2])) 100 (exTxState 10 64)
        = (exTxState 10 64, 0)
    ∧ uart_dmatx_send exCfgNoDma exHal 1 (exHuart 64 64) (exTxState 10 64)
        = .ok (exTxState 10 64, 0, [])
    ∧ (uart_dmarx_resize_fifo exCfgNoDma (exHuart 64 64) 128 256 (exTxState 10 64)).2 = 1
    ∧ (uart_dmatx_resize_buf exCfgNoDma exHal (exHuart 64 64) 128 (exTxState 10 64)).2 = 1
    ∧ uart_dmarx_done_callback exCfgNoDma exHal 1 (exHuart 64 64) (exTxState 10 64)
        = .ok (exTxState 10 64, []) := by
  obtain ⟨h1, h2, h3, -, -, -, -, -, -, -, -, -, h13⟩ := unrecognised_port_is_no_op exCfgNoDma
    exHal 1 (exHuart 64 64) (exTxState 10 64) true 100 128 256 128 (some (payload [1, 2]))
    (exCfgNoDma_rx_identify 64 64) (exCfgNoDma_tx_identify 64 64)
  exact ⟨h1, h2, h3, by decide, by decide, h13⟩

/-! ## Reading the ring buffer -/

/-- C19: `uart_dmarx_read` returns 0, stores nothing and gives back the state
when `buf` is `NULL`, `buf_size` is 0 or the port is not recognised.  Otherwise,
with the ring buffer of the port holding the bytes `data` (oldest first, `m` of
them), it returns `k = min(buf_size, m)`, stores the `k` oldest bytes in arrival
order, leaves the remaining bytes in the ring (stored bytes followed by
remaining bytes are `data`), returns 0 when the ring is empty, and changes
neither `head_ptr`, `buf_size`, `fifo_size`, the ring capacity, another port's
receive object nor any transmit object. -/
theorem dmarx_read_drains_oldest (cfg : CSP_Config) (huart : UART_HandleTypeDef)
    (buf : Bool) (buf_size : Nat) (s : State) :
    (buf = false ∨ buf_size = 0 ∨ uart_rx_identify cfg huart = none →
      uart_dmarx_read cfg huart buf buf_size s = (s, 0, []))
    ∧ (∀ p, buf = true → buf_size ≠ 0 → uart_rx_identify cfg huart = some p →
      (uart_dmarx_read cfg huart buf buf_size s).2.1
          = min buf_size (s.rx p).rx_fifo.data.length
      ∧ (uart_dmarx_read cfg huart buf buf_size s).2.2 = (s.rx p).rx_fifo.data.take buf_size
      ∧ (uart_dmarx_read cfg huart buf buf_size s).2.2.length
          = (uart_dmarx_read cfg huart buf buf_size s).2.1
      ∧ (((uart_dmarx_read cfg huart buf buf_size s).1).rx p).rx_fifo.data
          = (s.rx p).rx_fifo.data.drop buf_size
      ∧ (uart_dmarx_read cfg huart buf buf_size s).2.2
          ++ (((uart_dmarx_read cfg huart buf buf_size s).1).rx p).rx_fifo.data
          = (s.rx p).rx_fifo.data
      ∧ ((s.rx p).rx_fifo.data = [] → (uart_dmarx_read cfg huart buf buf_size s).2.1 = 0)
      ∧ (((uart_dmarx_read cfg huart buf buf_size s).1).rx p).head_ptr = (s.rx p).head_ptr
      ∧ (((uart_dmarx_read cfg huart buf buf_size s).1).rx p).buf_size = (s.rx p).buf_size
      ∧ (((uart_dmarx_read cfg huart buf buf_size s).1).rx p).fifo_size = (s.rx p).fifo_size
      ∧ (((uart_dmarx_read cfg huart buf buf_size s).1).rx p).rx_fifo.capacity
          = (s.rx p).rx_fifo.capacity
      ∧ (∀ q, q ≠ p → ((uart_dmarx_read cfg huart buf buf_size s).1).rx q = s.rx q)
      ∧ ((uart_dmarx_read cfg huart buf buf_size s).1).tx = s.tx) := by
  refine ⟨?_, ?_⟩
  · intro h
    simp only [uart_dmarx_read]
    by_cases h1 : buf = false ∨ buf_size = 0
    · rw [if_pos h1]
    · rw [if_neg h1]
      rcases h with h | h | h
      · exact absurd (Or.inl h) h1
      · exact absurd (Or.inr h) h1
      · simp only [h]
  · intro p hb hsz hp
    have h1 : ¬ (buf = false ∨ buf_size = 0) := by
      rw [hb]; simp [hsz]
    have hread : uart_dmarx_read cfg huart buf buf_size s
        = (s.setRx p { s.rx p with
              rx_fifo := { capacity := (s.rx p).rx_fifo.capacity,
                           data := (s.rx p).rx_fifo.data.drop buf_size } },
            ((s.rx p).rx_fifo.data.take buf_size).length,
            (s.rx p).rx_fifo.data.take buf_size) := by
      simp only [uart_dmarx_read, if_neg h1, hp, ring_fifo_read]
    rw [hread]
    refine ⟨List.length_take _ _, rfl, rfl, ?_, ?_, ?_, ?_, ?_, ?_, ?_, ?_, rfl⟩
    · rw [setRx_rx_same]
    · rw [setRx_rx_same]; exact List.take_append_drop _ _
    · intro hd
      show ((s.rx p).rx_fifo.data.take buf_size).length = 0
      rw [hd, List.take_nil, List.length_nil]
    · rw [setRx_rx_same]
    · rw [setRx_rx_same]
    · rw [setRx_rx_same]
    · rw [setRx_rx_same]
    · intro q hq
      exact setRx_rx_other _ _ _ _ hq

/-- Instance of C19: the ring of LPUART1 holds `[10, 11, 12, 13, 14]`; a read
with `buf_size = 3` returns 3, stores `[10, 11, 12]` and leaves `[13, 14]`; a
read with `buf_size = 100` returns 5; a read into `NULL` returns 0. -/
theorem dmarx_read_drains_oldest_witness :
    (uart_dmarx_read exCfg (exHuart 64 64) true 3
        ((exState 8 64).setRx .LPUART1
          { rx_fifo := { capacity := 64, data := [10, 11, 12, 13, 14] }, head_ptr := 8,
            buf_size := 64, fifo_size := 64 })).2 = (3, [10, 11, 12])
    ∧ (((uart_dmarx_read exCfg (exHuart 64 64) true 3
        ((exState 8 64).setRx .LPUART1
          { rx_fifo := { capacity := 64, data := [10, 11, 12, 13, 14] }, head_ptr := 8,
            buf_size := 64, fifo_size := 64 })).1).rx .LPUART1).rx_fifo.data = [13, 14]
    ∧ (uart_dmarx_read exCfg (exHuart 64 64) true 100
        ((exState 8 64).setRx .LPUART1
          { rx_fifo := { capacity := 64, data := [10, 11, 12, 13, 14] }, head_ptr := 8,
            buf_size := 64, fifo_size := 64 })).2.1 = 5
    ∧ uart_dmarx_read exCfg (exHuart 64 64) false 100 (exState 8 64)
        = (exState 8 64, 0, []) := by
  have h1 := (dmarx_read_drains_oldest exCfg (exHuart 64 64) true 3
    ((exState 8 64).setRx .LPUART1
      { rx_fifo := { capacity := 64, data := [10, 11, 12, 13, 14] }, head_ptr := 8,
        buf_size := 64, fifo_size := 64 })).2 .LPUART1 rfl (by decide) (exCfg_identify 64 64)
  have h2 := (dmarx_read_drains_oldest exCfg (exHuart 64 64) true 100
    ((exState 8 64).setRx .LPUART1
      { rx_fifo := { capacity := 64, data := [10, 11, 12, 13, 14] }, head_ptr := 8,
        buf_size := 64, fifo_size := 64 })).2 .LPUART1 rfl (by decide) (exCfg_identify 64 64)
  have h3 := (dmarx_read_drains_oldest exCfg (exHuart 64 64) false 100 (exState 8 64)).1
    (Or.inl rfl)
  exact ⟨Prod.ext h1.1 h1.2.1, h1.2.2.2.1, h2.1, h3⟩

/-! ## Sending the accumulated bytes -/

theorem dmatx_send_of_empty (cfg : CSP_Config) (hal : HAL) (fuel : Nat)
    (huart : UART_HandleTypeDef) (s : State) (p : Port)
    (hp : uart_tx_identify cfg huart = some p) (h0 : (s.tx p).head_ptr = 0) :
    uart_dmatx_send cfg hal fuel huart s = .ok (s, 0, []) := by
  simp only [uart_dmatx_send, hp, h0]
  split <;> rfl

/-- C12: `uart_dmatx_send` on a recognised transmit port with a bound DMA
handle.  If `head_ptr = 0` it returns 0 and makes no call.  If
`head_ptr = n > 0` then, once the transfer-complete flag reads set, it makes
exactly one call, a `HAL_UART_Transmit_DMA` from `send_buf`, returns `n` and
leaves `head_ptr = 0`; an immediately following `uart_dmatx_send` returns 0 and
makes no call. -/
theorem dmatx_send_then_send (cfg : CSP_Config) (hal : HAL) (fuel : Nat)
    (huart : UART_HandleTypeDef) (s : State) (p : Port) (dt : DMA_HandleTypeDef) (k : Nat)
    (hp : uart_tx_identify cfg huart = some p) (hdt : huart.hdmatx = some dt)
    (hk : k < fuel) (htc : hal.UART_FLAG_TC k = true) :
    ((s.tx p).head_ptr = 0 → uart_dmatx_send cfg hal fuel huart s = .ok (s, 0, []))
    ∧ ((s.tx p).head_ptr ≠ 0 →
      ∃ s1 size, uart_dmatx_send cfg hal fuel huart s
          = .ok (s1, (s.tx p).head_ptr, [.HAL_UART_Transmit_DMA p (s.tx p).send_buf size])
        ∧ (s1.tx p).head_ptr = 0
        ∧ uart_dmatx_send cfg hal fuel huart s1 = .ok (s1, 0, [])) := by
  refine ⟨dmatx_send_of_empty cfg hal fuel huart s p hp, ?_⟩
  intro hn
  have h1 := dmatx_send_eq cfg hal fuel huart s p dt k hp hdt hn hk htc
  have h2 : ((s.setTx p { s.tx p with head_ptr := 0 }).tx p).head_ptr = 0 := by
    rw [setTx_tx_same]
  exact ⟨_, _, h1, h2, dmatx_send_of_empty cfg hal fuel huart _ p hp h2⟩

/-- Instance of C12 on LPUART1 with 10 accumulated bytes: the first send
returns 10 with one transfer, the second returns 0 with none. -/
theorem dmatx_send_then_send_witness :
    ∃ s1 size, uart_dmatx_send exCfg exHal 1 (exHuart 64 0) (exTxState 10 64)
        = .ok (s1, 10, [.HAL_UART_Transmit_DMA .LPUART1 (fun _ => 7) size])
      ∧ (s1.tx .LPUART1).head_ptr = 0
      ∧ uart_dmatx_send exCfg exHal 1 (exHuart 64 0) s1 = .ok (s1, 0, []) := by
  obtain ⟨s1, size, h1, h2, h3⟩ := (dmatx_send_then_send exCfg exHal 1 (exHuart 64 0)
    (exTxState 10 64) .LPUART1 ⟨0, 0⟩ 0 (exCfg_tx_identify 64 0) rfl (by decide) rfl).2
    (by decide)
  exact ⟨s1, size, h1, h2, h3⟩

/-- C13, failing input: LPUART1 with a bound DMA handle and capacity 70000 (a
size `uart_dmatx_resize_buf` accepts).  With `head_ptr = 65536` the send passes
size 0 to `HAL_UART_Transmit_DMA`, with `head_ptr = 70000` it passes 4464; in
both cases it returns the full `head_ptr` and resets it. -/
theorem dmatx_send_truncates_length :
    (uart_dmatx_resize_buf exCfg exHal (exHuart 64 0) 70000 (exState 0 64)).2 = 0
    ∧ (∃ s1, uart_dmatx_send exCfg exHal 1 (exHuart 64 0) (exTxState 65536 70000)
          = .ok (s1, 65536, [.HAL_UART_Transmit_DMA .LPUART1 (fun _ => 7) 0])
        ∧ (s1.tx .LPUART1).head_ptr = 0)
    ∧ (∃ s1, uart_dmatx_send exCfg exHal 1 (exHuart 64 0) (exTxState 70000 70000)
          = .ok (s1, 70000, [.HAL_UART_Transmit_DMA .LPUART1 (fun _ => 7) 4464])
        ∧ (s1.tx .LPUART1).head_ptr = 0) :=
  ⟨rfl, ⟨_, rfl, rfl⟩, ⟨_, rfl, rfl⟩⟩

/-- C14, failing input: LPUART1 with 5 accumulated bytes and hardware whose
`HAL_UART_Transmit_DMA` answers `HAL_ERROR`.  The send still returns 5 and
resets `head_ptr`; its result is the same as with hardware that answers
`HAL_OK`. -/
theorem dmatx_send_ignores_transmit_status :
    exHalFail.Transmit_DMA = .HAL_ERROR
    ∧ (∃ s1, uart_dmatx_send exCfg exHalFail 1 (exHuart 64 0) (exTxState 5 64)
          = .ok (s1, 5, [.HAL_UART_Transmit_DMA .LPUART1 (fun _ => 7) 5])
        ∧ (s1.tx .LPUART1).head_ptr = 0)
    ∧ uart_dmatx_send exCfg exHalFail 1 (exHuart 64 0) (exTxState 5 64)
        = uart_dmatx_send exCfg exHal 1 (exHuart 64 0) (exTxState 5 64) :=
  ⟨rfl, ⟨_, rfl, rfl⟩, rfl⟩

/-! ## The transmit invariant `head_ptr ≤ buf_size` -/

theorem write_send_keep_tx_invariant (cfg : CSP_Config) (hal : HAL) (fuel : Nat)
    (huart : UART_HandleTypeDef) (data : Option (Nat → Nat)) (len : Nat) (s : State)
    (p : Port) (hp : uart_tx_identify cfg huart = some p)
    (hinv : (s.tx p).head_ptr ≤ (s.tx p).buf_size) (hsz : (s.tx p).buf_size < 4294967296) :
    (((uart_dmatx_write cfg huart data len s).1).tx p).head_ptr
        ≤ (((uart_dmatx_write cfg huart data len s).1).tx p).buf_size
    ∧ (s.tx p).head_ptr ≤ (((uart_dmatx_write cfg huart data len s).1).tx p).head_ptr
    ∧ (∀ r, uart_dmatx_send cfg hal fuel huart s = .ok r →
        (r.1.tx p).head_ptr ≤ (r.1.tx p).buf_size) := by
  refine ⟨?_, ?_, ?_⟩
  · cases data with
    | none => exact hinv
    | some d =>
      by_cases hlen : len = 0
      · simpa [uart_dmatx_write, hlen] using hinv
      · rw [dmatx_write_eq cfg huart d len s p hp (by omega) hinv hsz, setTx_tx_same]
        show _ + min _ _ ≤ (s.tx p).buf_size
        omega
  · cases data with
    | none => exact Nat.le_refl _
    | some d =>
      by_cases hlen : len = 0
      · simp [uart_dmatx_write, hlen]
      · rw [dmatx_write_eq cfg huart d len s p hp (by omega) hinv hsz, setTx_tx_same]
        exact Nat.le_add_right _ _
  · intro r hr
    simp only [uart_dmatx_send, hp] at hr
    cases ht : huart.hdmatx with
    | none =>
      rw [ht] at hr
      cases hr
      exact hinv
    | some d =>
      rw [ht] at hr
      by_cases h0 : (s.tx p).head_ptr = 0
      · simp only [h0, if_true] at hr
        cases hr
        exact hinv
      · simp only [if_neg h0] at hr
        cases hw : wait_TC hal fuel 0 with
        | none => rw [hw] at hr; cases hr
        | some m =>
          rw [hw] at hr
          cases hr
          rw [setTx_tx_same]
          exact Nat.zero_le _

/-- C11, failing input: LPUART1 with a bound DMA handle, a ready UART,
capacity 64 and 10 bytes accumulated, so `head_ptr ≤ buf_size` holds.
`uart_dmatx_resize_buf(huart, 5)` returns 0 and leaves `head_ptr = 10` above
the new `buf_size = 5`.  A following `uart_dmatx_write` of one byte `9` then
computes the remaining room as `5 - 10` in 32 bits, returns 1, stores the byte
at `send_buf[10]`, past the 5-byte buffer, and leaves `head_ptr = 11`. -/
theorem resize_below_head_breaks_tx_invariant :
    ((exTxState 10 64).tx .LPUART1).head_ptr ≤ ((exTxState 10 64).tx .LPUART1).buf_size
    ∧ (uart_dmatx_resize_buf exCfg exHal (exHuart 64 0) 5 (exTxState 10 64)).2 = 0
    ∧ (((uart_dmatx_resize_buf exCfg exHal (exHuart 64 0) 5 (exTxState 10 64)).1).tx
        .LPUART1).head_ptr = 10
    ∧ (((uart_dmatx_resize_buf exCfg exHal (exHuart 64 0) 5 (exTxState 10 64)).1).tx
        .LPUART1).buf_size = 5
    ∧ (uart_dmatx_write exCfg (exHuart 64 0) (some (payload [9])) 1
        (uart_dmatx_resize_buf exCfg exHal (exHuart 64 0) 5 (exTxState 10 64)).1).2 = 1
    ∧ (((uart_dmatx_write exCfg (exHuart 64 0) (some (payload [9])) 1
        (uart_dmatx_resize_buf exCfg exHal (exHuart 64 0) 5 (exTxState 10 64)).1).1).tx
        .LPUART1).head_ptr = 11
    ∧ (((uart_dmatx_write exCfg (exHuart 64 0) (some (payload [9])) 1
        (uart_dmatx_resize_buf exCfg exHal (exHuart 64 0) 5 (exTxState 10 64)).1).1).tx
        .LPUART1).send_buf 10 = 9 := by
  refine ⟨by decide, rfl, rfl, rfl, rfl, rfl, rfl⟩

/-! ## One reconciliation for three callbacks -/

theorem done_circular_eq_reconcile (cfg : CSP_Config) (hal : HAL) (fuel : Nat)
    (huart : UART_HandleTypeDef) (s : State) (p : Port) (d : DMA_HandleTypeDef)
    (hp : uart_rx_identify cfg huart = some p) (hd : huart.hdmarx = some d)
    (hL : huart.RxXferSize ≠ 0) (hm : d.Mode = cfg.DMA_CIRCULAR) :
    uart_dmarx_done_callback cfg hal fuel huart s
      = .ok (reconcile huart huart.RxXferSize p s) := by
  simp [uart_dmarx_done_callback, hp, hd, hL, reconcile, hm]

theorem reconcile_eq_reconcile_with (huart : UART_HandleTypeDef) (tail : Nat) (p : Port)
    (s : State) : reconcile huart tail p s = reconcile_with ring_fifo_write huart tail p s :=
  rfl

/-- C24: the three receive callbacks are one computation.  With `reconcile`
the step "offset = head_ptr mod L, copy = tail - offset, head_ptr += copy,
ring_fifo_write(pRxBuffPtr + offset, copy)", on a recognised port with
`1 ≤ L = RxXferSize`: the half callback is `reconcile` with tail `ceil(L/2)`,
the done callback in circular DMA mode is `reconcile` with tail `L`, and the
idle callback with DMA counter `c ≤ L` is `reconcile` with tail `L - c`.  Hence
the idle callback with `c = L - ceil(L/2)` returns what the half callback
returns (same state, same `ring_fifo_write` call), and with `c = 0` what the
done callback returns. -/
theorem callbacks_are_one_reconcile (cfg : CSP_Config) (hal : HAL) (fuel : Nat)
    (huart : UART_HandleTypeDef) (s : State) (p : Port) (d : DMA_HandleTypeDef)
    (hp : uart_rx_identify cfg huart = some p) (hd : huart.hdmarx = some d)
    (hL : 1 ≤ huart.RxXferSize) (hL16 : huart.RxXferSize < 65536) :
    uart_dmarx_halfdone_callback cfg huart s
        = .ok (reconcile huart ((huart.RxXferSize + 1) / 2) p s)
    ∧ (d.Mode = cfg.DMA_CIRCULAR →
        uart_dmarx_done_callback cfg hal fuel huart s
          = .ok (reconcile huart huart.RxXferSize p s))
    ∧ (d.CNDTR ≤ huart.RxXferSize →
        uart_dmarx_idle_callback cfg huart s
          = .ok (reconcile huart (huart.RxXferSize - d.CNDTR) p s))
    ∧ (d.CNDTR = huart.RxXferSize - (huart.RxXferSize + 1) / 2 →
        uart_dmarx_idle_callback cfg huart s = uart_dmarx_halfdone_callback cfg huart s)
    ∧ (d.CNDTR = 0 → d.Mode = cfg.DMA_CIRCULAR →
        uart_dmarx_idle_callback cfg huart s
          = uart_dmarx_done_callback cfg hal fuel huart s) := by
  have hL0 : huart.RxXferSize ≠ 0 := by omega
  have hidle : ∀ c, d.CNDTR = c → c ≤ huart.RxXferSize →
      uart_dmarx_idle_callback cfg huart s
        = .ok (reconcile huart (huart.RxXferSize - c) p s) := by
    intro c hc hle
    rw [idle_eq_reconcile cfg huart s p d hp hd hL0, hc, sub32_of_le hle (by omega)]
  refine ⟨halfdone_eq_reconcile cfg huart s p hp hL0,
    done_circular_eq_reconcile cfg hal fuel huart s p d hp hd hL0,
    fun hc => hidle _ rfl hc, ?_, ?_⟩
  · intro hc
    rw [hidle _ hc (Nat.sub_le _ _), halfdone_eq_reconcile cfg huart s p hp hL0]
    have e : huart.RxXferSize - (huart.RxXferSize - (huart.RxXferSize + 1) / 2)
        = (huart.RxXferSize + 1) / 2 := by omega
    rw [e]
  · intro hc hm
    rw [hidle 0 hc (Nat.zero_le _), done_circular_eq_reconcile cfg hal fuel huart s p d hp hd
      hL0 hm, Nat.sub_zero]

/-- Instance of C24 on LPUART1 with `L = 64` and `head_ptr = 8`: the idle
callback with counter 32 returns what the half callback returns, the call
`ring_fifo_write` for 24 bytes from offset 8. -/
theorem callbacks_are_one_reconcile_witness :
    uart_dmarx_idle_callback exCfg (exHuart 64 32) (exState 8 64)
        = uart_dmarx_halfdone_callback exCfg (exHuart 64 32) (exState 8 64)
    ∧ ∃ s1, uart_dmarx_halfdone_callback exCfg (exHuart 64 32) (exState 8 64)
        = .ok (s1, [.ring_fifo_write .LPUART1 8 24]) := by
  have h := callbacks_are_one_reconcile exCfg exHal 0 (exHuart 64 32) (exState 8 64) .LPUART1
    ⟨32, 32⟩ (exCfg_identify 64 32) rfl (by decide) (by decide)
  exact ⟨h.2.2.2.1 rfl, _, h.1⟩

/-! ## The ring buffer's answer is never looked at -/

/-- C25: the reconciler never detects ring-buffer overflow.  Each callback is
the step `reconcile_with ring_fifo_write` (half: any handle; idle: counter
`c ≤ L`; done: once its re-arm loop ends), and in that step, for every
behaviour `w` of `ring_fifo_write` (whatever ring and count it returns):
`head_ptr` becomes `head_ptr + copy` in 32 bits with
`copy = tail - head_ptr mod L`, `buf_size` and `fifo_size` stay, the reported
call is `ring_fifo_write(pRxBuffPtr + offset, copy)`, every other receive
object and all transmit objects stay; only the ring itself takes what `w`
returns.  In particular a ring that accepts fewer than `copy` bytes, or
none, changes neither the cursor nor the reported call. -/
theorem ring_result_is_ignored (cfg : CSP_Config) (hal : HAL) (fuel : Nat)
    (huart : UART_HandleTypeDef) (s : State) (p : Port) (d : DMA_HandleTypeDef)
    (hp : uart_rx_identify cfg huart = some p) (hd : huart.hdmarx = some d)
    (hr : rearm_ends cfg hal fuel d)
    (hL : 1 ≤ huart.RxXferSize) (hL16 : huart.RxXferSize < 65536) :
    uart_dmarx_halfdone_callback cfg huart s
        = .ok (reconcile_with ring_fifo_write huart ((huart.RxXferSize + 1) / 2) p s)
    ∧ (d.CNDTR ≤ huart.RxXferSize →
        uart_dmarx_idle_callback cfg huart s
          = .ok (reconcile_with ring_fifo_write huart (huart.RxXferSize - d.CNDTR) p s))
    ∧ (∃ calls, uart_dmarx_done_callback cfg hal fuel huart s
          = .ok ((reconcile_with ring_fifo_write huart huart.RxXferSize p s).1,
              (reconcile_with ring_fifo_write huart huart.RxXferSize p s).2 ++ calls)
        ∧ ∀ a ∈ calls, a.isWrite = false)
    ∧ (∀ (w : ring_fifo_t → (Nat → Nat) → Nat → ring_fifo_t × Nat) (tail : Nat),
        (((reconcile_with w huart tail p s).1).rx p).head_ptr
            = ((s.rx p).head_ptr + sub32 tail ((s.rx p).head_ptr % huart.RxXferSize))
                % 4294967296
        ∧ (((reconcile_with w huart tail p s).1).rx p).buf_size = (s.rx p).buf_size
        ∧ (((reconcile_with w huart tail p s).1).rx p).fifo_size = (s.rx p).fifo_size
        ∧ (((reconcile_with w huart tail p s).1).rx p).rx_fifo
            = (w (s.rx p).rx_fifo
                (fun i => huart.pRxBuffPtr ((s.rx p).head_ptr % huart.RxXferSize + i))
                (sub32 tail ((s.rx p).head_ptr % huart.RxXferSize))).1
        ∧ (reconcile_with w huart tail p s).2
            = [.ring_fifo_write p ((s.rx p).head_ptr % huart.RxXferSize)
                (sub32 tail ((s.rx p).head_ptr % huart.RxXferSize))]
        ∧ (∀ q, q ≠ p → ((reconcile_with w huart tail p s).1).rx q = s.rx q)
        ∧ ((reconcile_with w huart tail p s).1).tx = s.tx)
    ∧ (∀ (f : ring_fifo_t) (tail : Nat),
        (((reconcile huart tail p (s.setRx p { s.rx p with rx_fifo := f })).1).rx p).head_ptr
            = (((reconcile huart tail p s).1).rx p).head_ptr
        ∧ (reconcile huart tail p (s.setRx p { s.rx p with rx_fifo := f })).2
            = (reconcile huart tail p s).2) := by
  have hL0 : huart.RxXferSize ≠ 0 := by omega
  refine ⟨halfdone_eq_reconcile cfg huart s p hp hL0, ?_,
    done_eq_reconcile cfg hal fuel huart s p d hp hd hL0 hr, ?_, ?_⟩
  · intro hc
    rw [idle_eq_reconcile cfg huart s p d hp hd hL0, sub32_of_le hc (by omega)]
    rfl
  · intro w tail
    refine ⟨?_, ?_, ?_, ?_, rfl, ?_, rfl⟩
    · simp only [reconcile_with, setRx_rx_same]
    · simp only [reconcile_with, setRx_rx_same]
    · simp only [reconcile_with, setRx_rx_same]
    · simp only [reconcile_with, setRx_rx_same]
    · intro q hq
      exact setRx_rx_other _ _ _ _ hq
  · intro f tail
    refine ⟨?_, ?_⟩
    · simp only [reconcile, setRx_rx_same]
    · simp only [reconcile, setRx_rx_same]

/-- Instance of C25 on LPUART1 with `L = 64`, `head_ptr = 0` and a ring of
capacity 4: the done callback asks for 64 bytes, the ring takes 4, and
`head_ptr` still advances to 64. -/
theorem ring_result_is_ignored_witness :
    (ring_fifo_write { capacity := 4, data := [] } (fun i => i % 256) 64).2 = 4
    ∧ ∃ s1, uart_dmarx_done_callback exCfg exHal 0 (exHuart 64 64) (exState 0 4)
        = .ok (s1, [.ring_fifo_write .LPUART1 0 64])
      ∧ (s1.rx .LPUART1).head_ptr = 64
      ∧ (s1.rx .LPUART1).rx_fifo.data = [0, 1, 2, 3] := by
  obtain ⟨-, -, ⟨calls, h3, -⟩, h4, -⟩ := ring_result_is_ignored exCfg exHal 0 (exHuart 64 64)
    (exState 0 4) .LPUART1 ⟨64, 32⟩ (exCfg_identify 64 64) rfl (Or.inl rfl) (by decide)
    (by decide)
  exact ⟨rfl, _, rfl, (h4 ring_fifo_write 64).1, rfl⟩

/-! ## The 32-bit wrap of the receive cursor -/

theorem reconcile_wraps_at_top (huart : UART_HandleTypeDef) (p : Port) (s : State) (L : Nat)
    (hL : 1 ≤ L) (hL16 : L ≤ 65535) (hnd : ¬ L ∣ 4294967296)
    (hLe : huart.RxXferSize = L)
    (hh : (s.rx p).head_ptr = 4294967296 - 4294967296 % L) :
    (s.rx p).head_ptr < 4294967296
      ∧ 4294967296 - L < (s.rx p).head_ptr
      ∧ (s.rx p).head_ptr % L = 0
      ∧ 4294967296 ≤ (s.rx p).head_ptr + (L - (s.rx p).head_ptr % L)
      ∧ (((reconcile huart L p s).1).rx p).head_ptr = L - 4294967296 % L
      ∧ (((reconcile huart L p s).1).rx p).head_ptr % L ≠ L % L := by
  have hr0 : 4294967296 % L ≠ 0 := fun h => hnd (Nat.dvd_of_mod_eq_zero h)
  have hrL : 4294967296 % L < L := Nat.mod_lt _ (by omega)
  have hdm := Nat.div_add_mod 4294967296 L
  have hmod : (s.rx p).head_ptr % L = 0 := by
    have e : (s.rx p).head_ptr = L * (4294967296 / L) := by omega
    rw [e, Nat.mul_mod_right]
  have hnew : (((reconcile huart L p s).1).rx p).head_ptr = L - 4294967296 % L := by
    rw [reconcile_of_le huart L p s (by omega) (by rw [hLe, hmod]; omega), setRx_rx_same]
    show ((s.rx p).head_ptr + (L - (s.rx p).head_ptr % huart.RxXferSize)) % 4294967296 = _
    rw [hLe, hmod, hh]
    omega
  refine ⟨by omega, by omega, hmod, by omega, hnew, ?_⟩
  rw [hnew, Nat.mod_self, Nat.mod_eq_of_lt (by omega)]
  omega

/-- C27: 32-bit wraparound of the receive cursor.  For every buffer length `L`
in `1 .. 65535`: the update of the callbacks, `head_ptr := (head_ptr + (tail -
offset)) mod 2^32` with `offset = head_ptr mod L`, gives
`head_ptr mod L = tail mod L` for every 32-bit `head_ptr` and every `tail` with
`offset ≤ tail ≤ L` if and only if `L` divides `2^32`, that is, if and only if
`L` is a power of two.  When `L` does not divide `2^32`, the cursor
`head_ptr = 2^32 - (2^32 mod L)`, less than `L` below `2^32`, has offset 0, the
addition for `tail = L` wraps, and the new `head_ptr mod L` is not
`tail mod L`; the done callback on a recognised port does exactly that.  When
`L` divides `2^32` the idle callback keeps the relation for every counter.
Here `reconcile` is the update the three callbacks share. -/
theorem cursor_wrap_iff_dvd (L : Nat) (hL : 1 ≤ L) (hL16 : L ≤ 65535) :
    ((∀ (huart : UART_HandleTypeDef) (p : Port) (s : State) (tail : Nat),
        huart.RxXferSize = L → (s.rx p).head_ptr < 4294967296 →
        (s.rx p).head_ptr % L ≤ tail → tail ≤ L →
        (((reconcile huart tail p s).1).rx p).head_ptr % L = tail % L)
      ↔ L ∣ 4294967296)
    ∧ (L ∣ 4294967296 ↔ ∃ k, L = 2 ^ k)
    ∧ (¬ L ∣ 4294967296 →
        ∀ (huart : UART_HandleTypeDef) (p : Port) (s : State),
          huart.RxXferSize = L → (s.rx p).head_ptr = 4294967296 - 4294967296 % L →
          (s.rx p).head_ptr < 4294967296
          ∧ 4294967296 - L < (s.rx p).head_ptr
          ∧ (s.rx p).head_ptr % L = 0
          ∧ 4294967296 ≤ (s.rx p).head_ptr + (L - (s.rx p).head_ptr % L)
          ∧ (((reconcile huart L p s).1).rx p).head_ptr % L ≠ L % L)
    ∧ (¬ L ∣ 4294967296 →
        ∀ (cfg : CSP_Config) (hal : HAL) (fuel : Nat) (huart : UART_HandleTypeDef) (p : Port)
          (s : State) (d : DMA_HandleTypeDef),
          uart_rx_identify cfg huart = some p → huart.hdmarx = some d →
          rearm_ends cfg hal fuel d → huart.RxXferSize = L →
          (s.rx p).head_ptr = 4294967296 - 4294967296 % L →
          ∃ s1 calls, uart_dmarx_done_callback cfg hal fuel huart s = .ok (s1, calls)
            ∧ (s1.rx p).head_ptr % L ≠ L % L)
    ∧ (L ∣ 4294967296 →
        ∀ (cfg : CSP_Config) (huart : UART_HandleTypeDef) (p : Port) (s : State)
          (d : DMA_HandleTypeDef),
          uart_rx_identify cfg huart = some p → huart.hdmarx = some d →
          huart.RxXferSize = L → d.CNDTR ≤ L → (s.rx p).head_ptr % L ≤ L - d.CNDTR →
          ∃ s1 calls, uart_dmarx_idle_callback cfg huart s = .ok (s1, calls)
            ∧ (s1.rx p).head_ptr % L = (L - d.CNDTR) % L) := by
  refine ⟨⟨?_, ?_⟩, ⟨?_, ?_⟩, ?_, ?_, ?_⟩
  · intro h
    by_contra hnd
    have hw := reconcile_wraps_at_top { exHuart L 0 with RxXferSize := L } .LPUART1
      (exState (4294967296 - 4294967296 % L) 0) L hL hL16 hnd rfl rfl
    exact hw.2.2.2.2.2 (h _ .LPUART1 _ L rfl hw.1 (by rw [hw.2.2.1]; omega) (Nat.le_refl _))
  · intro hd huart p s tail hLe hh hoff htail
    rw [reconcile_of_le huart tail p s (by omega) (by rw [hLe]; exact hoff), setRx_rx_same]
    show ((s.rx p).head_ptr + (tail - (s.rx p).head_ptr % huart.RxXferSize)) % 4294967296 % L
      = _
    rw [hLe, mod_mod_of_dvd32 _ _ hd]
    exact add_sub_mod_eq _ _ _ hoff
  · intro hd
    have h32 : (4294967296 : Nat) = 2 ^ 32 := by norm_num
    rw [h32] at hd
    obtain ⟨m, _, hm⟩ := (Nat.dvd_prime_pow Nat.prime_two).1 hd
    exact ⟨m, hm⟩
  · rintro ⟨k, hk⟩
    have hk15 : k ≤ 32 := by
      by_contra hc
      have h1 : 2 ^ 33 ≤ 2 ^ k := Nat.pow_le_pow_right (by norm_num) (by omega)
      have h2 : (2 : Nat) ^ 33 = 8589934592 := by norm_num
      omega
    have h32 : (4294967296 : Nat) = 2 ^ 32 := by norm_num
    rw [h32, hk]
    exact pow_dvd_pow 2 hk15
  · intro hnd huart p s hLe hh
    obtain ⟨h1, h2, h3, h4, -, h6⟩ := reconcile_wraps_at_top huart p s L hL hL16 hnd hLe hh
    exact ⟨h1, h2, h3, h4, h6⟩
  · intro hnd cfg hal fuel huart p s d hp hd hr hLe hh
    obtain ⟨calls, hc, -⟩ := done_eq_reconcile cfg hal fuel huart s p d hp hd
      (by rw [hLe]; omega) hr
    rw [hLe] at hc
    exact ⟨_, _, hc, (reconcile_wraps_at_top huart p s L hL hL16 hnd hLe hh).2.2.2.2.2⟩
  · intro hd cfg huart p s d hp hdm hLe hc hoff
    have hi := idle_eq_reconcile cfg huart s p d hp hdm (by rw [hLe]; omega)
    rw [hLe, sub32_of_le hc (by omega)] at hi
    have hrec := reconcile_of_le huart (L - d.CNDTR) p s (by omega) (by rw [hLe]; exact hoff)
    refine ⟨(reconcile huart (L - d.CNDTR) p s).1, (reconcile huart (L - d.CNDTR) p s).2, hi,
      ?_⟩
    rw [hrec, setRx_rx_same]
    show ((s.rx p).head_ptr + (L - d.CNDTR - (s.rx p).head_ptr % huart.RxXferSize))
      % 4294967296 % L = _
    rw [hLe, mod_mod_of_dvd32 _ _ hd]
    exact add_sub_mod_eq _ _ _ hoff

/-- Instance of C27: `L = 3` does not divide `2^32`; from
`head_ptr = 4294967295` the done callback on LPUART1 leaves `head_ptr = 2`,
and `2 mod 3` is not `3 mod 3`.  `L = 64` divides `2^32`; from
`head_ptr = 4294967232` the done callback wraps to 0. -/
theorem cursor_wrap_iff_dvd_witness :
    ¬ 3 ∣ 4294967296
    ∧ (((reconcile (exHuart 3 3) 3 .LPUART1 (exState 4294967295 64)).1).rx .LPUART1).head_ptr % 3
        ≠ 3 % 3
    ∧ 64 ∣ 4294967296
    ∧ (((reconcile (exHuart 64 64) 64 .LPUART1 (exState 4294967232 64)).1).rx
        .LPUART1).head_ptr % 64 = 64 % 64 := by
  have h3 := cursor_wrap_iff_dvd 3 (by decide) (by decide)
  have h64 := cursor_wrap_iff_dvd 64 (by decide) (by decide)
  have hnd : ¬ 3 ∣ 4294967296 := by decide
  have hd : 64 ∣ 4294967296 := by decide
  exact ⟨hnd, (h3.2.2.1 hnd (exHuart 3 3) .LPUART1 (exState 4294967295 64) rfl rfl).2.2.2.2, hd,
    h64.1.2 hd (exHuart 64 64) .LPUART1 (exState 4294967232 64) 64 rfl (by decide) (by decide)
      (by decide)⟩

/-! ## Frame conditions -/

theorem rx_identify_some (cfg : CSP_Config) (huart : UART_HandleTypeDef) (p : Port)
    (h : uart_rx_identify cfg huart = some p) :
    cfg.RX_DMA p = true ∧ huart.Instance = cfg.BASE p := by
  unfold uart_rx_identify at h
  split_ifs at h with h1 h2 h3 h4 h5 h6 <;> simp_all

theorem tx_identify_some (cfg : CSP_Config) (huart : UART_HandleTypeDef) (p : Port)
    (h : uart_tx_identify cfg huart = some p) :
    cfg.TX_DMA p = true ∧ huart.Instance = cfg.BASE p := by
  unfold uart_tx_identify at h
  split_ifs at h with h1 h2 h3 h4 h5 h6 <;> simp_all

theorem frame_of_setRx (o : Option Port) (s s1 : State)
    (h : s1 = s ∨ ∃ p v, o = some p ∧ s1 = s.setRx p v) :
    (∀ q, o ≠ some q → s1.rx q = s.rx q) ∧ s1.tx = s.tx := by
  rcases h with h | ⟨p, v, ho, h⟩
  · subst h; exact ⟨fun _ _ => rfl, rfl⟩
  · subst h
    refine ⟨fun q hq => setRx_rx_other _ _ _ _ ?_, rfl⟩
    intro e; exact hq (e ▸ ho)

theorem frame_of_setTx (o : Option Port) (s s1 : State)
    (h : s1 = s ∨ ∃ p v, o = some p ∧ s1 = s.setTx p v) :
    (∀ q, o ≠ some q → s1.tx q = s.tx q) ∧ s1.rx = s.rx := by
  rcases h with h | ⟨p, v, ho, h⟩
  · subst h; exact ⟨fun _ _ => rfl, rfl⟩
  · subst h
    refine ⟨fun q hq => ?_, rfl⟩
    have hne : q ≠ p := by intro e; exact hq (e ▸ ho)
    simp [State.setTx, Function.update_noteq hne]

theorem idle_state_form (cfg : CSP_Config) (huart : UART_HandleTypeDef) (s : State)
    (r : State × List Action) (hr : uart_dmarx_idle_callback cfg huart s = .ok r) :
    r.1 = s ∨ ∃ p v, uart_rx_identify cfg huart = some p ∧ r.1 = s.setRx p v := by
  unfold uart_dmarx_idle_callback at hr
  split at hr
  · cases hr; exact Or.inl rfl
  · next p hp =>
    split at hr
    · cases hr
    · split at hr
      · cases hr
      · cases hr; exact Or.inr ⟨p, _, hp, rfl⟩

theorem halfdone_state_form (cfg : CSP_Config) (huart : UART_HandleTypeDef) (s : State)
    (r : State × List Action) (hr : uart_dmarx_halfdone_callback cfg huart s = .ok r) :
    r.1 = s ∨ ∃ p v, uart_rx_identify cfg huart = some p ∧ r.1 = s.setRx p v := by
  unfold uart_dmarx_halfdone_callback at hr
  split at hr
  · cases hr; exact Or.inl rfl
  · next p hp =>
    split at hr
    · cases hr
    · cases hr; exact Or.inr ⟨p, _, hp, rfl⟩

theorem done_state_form (cfg : CSP_Config) (hal : HAL) (fuel : Nat)
    (huart : UART_HandleTypeDef) (s : State)
    (r : State × List Action) (hr : uart_dmarx_done_callback cfg hal fuel huart s = .ok r) :
    r.1 = s ∨ ∃ p v, uart_rx_identify cfg huart = some p ∧ r.1 = s.setRx p v := by
  unfold uart_dmarx_done_callback at hr
  split at hr
  · cases hr; exact Or.inl rfl
  · next p hp =>
    split at hr
    · cases hr
    · split at hr
      · cases hr
      · split at hr
        · split at hr
          · cases hr
          · cases hr; exact Or.inr ⟨p, _, hp, rfl⟩
        · cases hr; exact Or.inr ⟨p, _, hp, rfl⟩

theorem read_state_form (cfg : CSP_Config) (huart : UART_HandleTypeDef) (buf : Bool)
    (buf_size : Nat) (s : State) :
    (uart_dmarx_read cfg huart buf buf_size s).1 = s
      ∨ ∃ p v, uart_rx_identify cfg huart = some p
        ∧ (uart_dmarx_read cfg huart buf buf_size s).1 = s.setRx p v := by
  unfold uart_dmarx_read
  split
  · exact Or.inl rfl
  · split
    · exact Or.inl rfl
    · next p hp => exact Or.inr ⟨p, _, hp, rfl⟩

theorem resize_fifo_state_form (cfg : CSP_Config) (huart : UART_HandleTypeDef)
    (b f : Nat) (s : State) :
    (uart_dmarx_resize_fifo cfg huart b f s).1 = s
      ∨ ∃ p v, uart_rx_identify cfg huart = some p
        ∧ (uart_dmarx_resize_fifo cfg huart b f s).1 = s.setRx p v := by
  unfold uart_dmarx_resize_fifo
  split
  · exact Or.inl rfl
  · split
    · exact Or.inl rfl
    · next p hp =>
      split
      · exact Or.inl rfl
      · exact Or.inr ⟨p, _, hp, rfl⟩

theorem write_state_form (cfg : CSP_Config) (huart : UART_HandleTypeDef)
    (data : Option (Nat → Nat)) (len : Nat) (s : State) :
    (uart_dmatx_write cfg huart data len s).1 = s
      ∨ ∃ p v, uart_tx_identify cfg huart = some p
        ∧ (uart_dmatx_write cfg huart data len s).1 = s.setTx p v := by
  cases data with
  | none => exact Or.inl rfl
  | some d =>
    by_cases hlen : len = 0
    · left; simp only [uart_dmatx_write, if_pos hlen]
    · cases hp : uart_tx_identify cfg huart with
      | none => left; simp only [uart_dmatx_write, if_neg hlen, hp]
      | some p =>
        right
        by_cases h : sub32 (s.tx p).buf_size (s.tx p).head_ptr < len
        · exact ⟨p, _, rfl, by
            simp only [uart_dmatx_write, if_neg hlen, hp, if_pos h]
            rfl⟩
        · exact ⟨p, _, rfl, by
            simp only [uart_dmatx_write, if_neg hlen, hp, if_neg h]
            rfl⟩

theorem send_state_form (cfg : CSP_Config) (hal : HAL) (fuel : Nat)
    (huart : UART_HandleTypeDef) (s : State)
    (r : State × Nat × List Action) (hr : uart_dmatx_send cfg hal fuel huart s = .ok r) :
    r.1 = s ∨ ∃ p v, uart_tx_identify cfg huart = some p ∧ r.1 = s.setTx p v := by
  cases hp : uart_tx_identify cfg huart with
  | none =>
    simp only [uart_dmatx_send, hp] at hr
    cases hr; exact Or.inl rfl
  | some p =>
    cases ht : huart.hdmatx with
    | none =>
      simp only [uart_dmatx_send, hp, ht] at hr
      cases hr; exact Or.inl rfl
    | some d =>
      by_cases h0 : (s.tx p).head_ptr = 0
      · rw [dmatx_send_of_empty cfg hal fuel huart s p hp h0] at hr
        cases hr; exact Or.inl rfl
      · cases hw : wait_TC hal fuel 0 with
        | none =>
          simp only [uart_dmatx_send, hp, ht, if_neg h0, hw] at hr
          cases hr
        | some m =>
          simp only [uart_dmatx_send, hp, ht, if_neg h0, hw] at hr
          cases hr; exact Or.inr ⟨p, _, rfl, rfl⟩

theorem resize_buf_state_form (cfg : CSP_Config) (hal : HAL) (huart : UART_HandleTypeDef)
    (sz : Nat) (s : State) :
    (uart_dmatx_resize_buf cfg hal huart sz s).1 = s
      ∨ ∃ p v, uart_tx_identify cfg huart = some p
        ∧ (uart_dmatx_resize_buf cfg hal huart sz s).1 = s.setTx p v := by
  unfold uart_dmatx_resize_buf
  split
  · exact Or.inl rfl
  · split
    · exact Or.inl rfl
    · next p hp =>
      split
      · exact Or.inl rfl
      · split
        · exact Or.inr ⟨p, _, hp, rfl⟩
        · split
          · exact Or.inl rfl
          · exact Or.inr ⟨p, _, hp, rfl⟩

/-- C28: `uart_dmatx_send` on a recognised transmit port whose handle has no
DMA transmit handle bound (`hdmatx` is `NULL`) returns 0, makes no call and
gives back the state unchanged, whatever `head_ptr` is and without waiting for
the transfer-complete flag.  The accumulated bytes stay buffered: a following
write appends behind them, and a later send through a handle of the same port
with `hdmatx` bound returns the whole `head_ptr` and transfers from the same
`send_buf`. -/
theorem send_without_dma_handle_keeps_bytes (cfg : CSP_Config) (hal : HAL) (fuel : Nat)
    (huart : UART_HandleTypeDef) (s : State) (p : Port)
    (hp : uart_tx_identify cfg huart = some p) (hdt : huart.hdmatx = none) :
    uart_dmatx_send cfg hal fuel huart s = .ok (s, 0, [])
    ∧ (∀ (d : Nat → Nat) (len : Nat), 0 < len →
        (s.tx p).head_ptr ≤ (s.tx p).buf_size → (s.tx p).buf_size < 4294967296 →
        (((uart_dmatx_write cfg huart (some d) len s).1).tx p).head_ptr
          = (s.tx p).head_ptr + min len ((s.tx p).buf_size - (s.tx p).head_ptr))
    ∧ (∀ (huart2 : UART_HandleTypeDef) (dt : DMA_HandleTypeDef) (k : Nat),
        uart_tx_identify cfg huart2 = some p → huart2.hdmatx = some dt →
        (s.tx p).head_ptr ≠ 0 → k < fuel → hal.UART_FLAG_TC k = true →
        ∃ s1 size, uart_dmatx_send cfg hal fuel huart2 s
          = .ok (s1, (s.tx p).head_ptr,
              [.HAL_UART_Transmit_DMA p (s.tx p).send_buf size])) := by
  refine ⟨?_, ?_, ?_⟩
  · simp only [uart_dmatx_send, hp, hdt]
  · intro d len hlen hinv hsz
    rw [dmatx_write_eq cfg huart d len s p hp hlen hinv hsz, setTx_tx_same]
  · intro huart2 dt k hp2 hdt2 hn hk htc
    exact ⟨_, _, dmatx_send_eq cfg hal fuel huart2 s p dt k hp2 hdt2 hn hk htc⟩

/-- Instance of C28 on LPUART1 with 10 accumulated bytes and `hdmatx = NULL`:
the send returns 0 with no call and the same state, also with no fuel for the
wait loop. -/
theorem send_without_dma_handle_keeps_bytes_witness :
    uart_dmatx_send exCfg exHal 0 (exHuartRxOnly 64 0) (exTxState 10 64)
      = .ok (exTxState 10 64, 0, []) :=
  (send_without_dma_handle_keeps_bytes exCfg exHal 0 (exHuartRxOnly 64 0) (exTxState 10 64)
    .LPUART1 (by simp [uart_tx_identify, exCfg, exHuartRxOnly, exHuart]) rfl).1

theorem rx_identify_of_base (cfg : CSP_Config) (huart : UART_HandleTypeDef) (p : Port)
    (hen : cfg.RX_DMA p = true)
    (hinj : ∀ q, cfg.RX_DMA q = true → cfg.BASE q = cfg.BASE p → q = p)
    (hi : huart.Instance = cfg.BASE p) : uart_rx_identify cfg huart = some p := by
  have key : ∀ q, (cfg.RX_DMA q && huart.Instance == cfg.BASE q) = true → q = p := by
    intro q hq
    simp only [Bool.and_eq_true, beq_iff_eq] at hq
    exact hinj q hq.1 (hq.2.symm.trans hi)
  have hp : (cfg.RX_DMA p && huart.Instance == cfg.BASE p) = true := by
    simp [hen, hi]
  unfold uart_rx_identify
  split_ifs with h1 h2 h3 h4 h5 h6
  · rw [key _ h1]
  · rw [key _ h2]
  · rw [key _ h3]
  · rw [key _ h4]
  · rw [key _ h5]
  · rw [key _ h6]
  · cases p <;> simp_all

theorem tx_identify_of_base (cfg : CSP_Config) (huart : UART_HandleTypeDef) (p : Port)
    (hen : cfg.TX_DMA p = true)
    (hinj : ∀ q, cfg.TX_DMA q = true → cfg.BASE q = cfg.BASE p → q = p)
    (hi : huart.Instance = cfg.BASE p) : uart_tx_identify cfg huart = some p := by
  have key : ∀ q, (cfg.TX_DMA q && huart.Instance == cfg.BASE q) = true → q = p := by
    intro q hq
    simp only [Bool.and_eq_true, beq_iff_eq] at hq
    exact hinj q hq.1 (hq.2.symm.trans hi)
  have hp : (cfg.TX_DMA p && huart.Instance == cfg.BASE p) = true := by
    simp [hen, hi]
  unfold uart_tx_identify
  split_ifs with h1 h2 h3 h4 h5 h6
  · rw [key _ h1]
  · rw [key _ h2]
  · rw [key _ h3]
  · rw [key _ h4]
  · rw [key _ h5]
  · rw [key _ h6]
  · cases p <;> simp_all

theorem dmatx_write_in_block (cfg : CSP_Config) (huart : UART_HandleTypeDef)
    (data : Option (Nat → Nat)) (len : Nat) (s : State) (p : Port)
    (hp : uart_tx_identify cfg huart = some p)
    (hhead : (s.tx p).head_ptr ≤ (s.tx p).buf_size)
    (hsz : (s.tx p).buf_size < 4294967296) :
    ∀ i, (s.tx p).buf_size ≤ i →
      (((uart_dmatx_write cfg huart data len s).1).tx p).send_buf i = (s.tx p).send_buf i := by
  intro i hi
  cases data with
  | none => rfl
  | some d =>
    by_cases hlen : len = 0
    · simp only [uart_dmatx_write, if_pos hlen]
    · rw [dmatx_write_eq cfg huart d len s p hp (Nat.pos_of_ne_zero hlen) hhead hsz,
        setTx_tx_same]
      show memcpy _ _ _ _ i = _
      unfold memcpy
      rw [if_neg]
      intro hc
      have := Nat.min_le_right len ((s.tx p).buf_size - (s.tx p).head_ptr)
      omega

/-- The frame of the per-port objects.  `uart_rx_identify` and
`uart_tx_identify` return a port only for a handle whose `Instance` is that
port's base address and whose DMA switch is on, and they return port `p` for
every handle with the base address of `p` when `p` is enabled and no other
enabled port has the same base address.  The receive operations (read, receive
resize, the idle, half and done callbacks) assign to no receive object but that
of the identified port and to no transmit object; the transmit operations
(write, send, transmit resize) assign to no transmit object but that of the
identified port and to no receive object.  The store of `uart_dmatx_write` stays
inside the `buf_size` bytes of `send_buf` when `head_ptr ≤ buf_size`; only then
does the frame of the objects say that no other memory is written. -/
theorem port_objects_frame (cfg : CSP_Config) (hal : HAL) (fuel : Nat)
    (huart : UART_HandleTypeDef) (s : State) (buf : Bool) (len b f sz : Nat)
    (data : Option (Nat → Nat)) :
    (∀ (h1 h2 : UART_HandleTypeDef) (p1 p2 : Port),
        uart_rx_identify cfg h1 = some p1 → uart_rx_identify cfg h2 = some p2 →
        h1.Instance ≠ h2.Instance → p1 ≠ p2)
    ∧ (∀ (h1 h2 : UART_HandleTypeDef) (p1 p2 : Port),
        uart_tx_identify cfg h1 = some p1 → uart_tx_identify cfg h2 = some p2 →
        h1.Instance ≠ h2.Instance → p1 ≠ p2)
    ∧ (∀ (h : UART_HandleTypeDef) (p : Port), cfg.RX_DMA p = true →
        (∀ q, cfg.RX_DMA q = true → cfg.BASE q = cfg.BASE p → q = p) →
        h.Instance = cfg.BASE p → uart_rx_identify cfg h = some p)
    ∧ (∀ (h : UART_HandleTypeDef) (p : Port), cfg.TX_DMA p = true →
        (∀ q, cfg.TX_DMA q = true → cfg.BASE q = cfg.BASE p → q = p) →
        h.Instance = cfg.BASE p → uart_tx_identify cfg h = some p)
    ∧ ((∀ q, uart_rx_identify cfg huart ≠ some q →
          ((uart_dmarx_read cfg huart buf len s).1).rx q = s.rx q)
        ∧ ((uart_dmarx_read cfg huart buf len s).1).tx = s.tx)
    ∧ ((∀ q, uart_rx_identify cfg huart ≠ some q →
          ((uart_dmarx_resize_fifo cfg huart b f s).1).rx q = s.rx q)
        ∧ ((uart_dmarx_resize_fifo cfg huart b f s).1).tx = s.tx)
    ∧ (∀ r, uart_dmarx_idle_callback cfg huart s = .ok r →
        (∀ q, uart_rx_identify cfg huart ≠ some q → r.1.rx q = s.rx q) ∧ r.1.tx = s.tx)
    ∧ (∀ r, uart_dmarx_halfdone_callback cfg huart s = .ok r →
        (∀ q, uart_rx_identify cfg huart ≠ some q → r.1.rx q = s.rx q) ∧ r.1.tx = s.tx)
    ∧ (∀ r, uart_dmarx_done_callback cfg hal fuel huart s = .ok r →
        (∀ q, uart_rx_identify cfg huart ≠ some q → r.1.rx q = s.rx q) ∧ r.1.tx = s.tx)
    ∧ ((∀ q, uart_tx_identify cfg huart ≠ some q →
          ((uart_dmatx_write cfg huart data len s).1).tx q = s.tx q)
        ∧ ((uart_dmatx_write cfg huart data len s).1).rx = s.rx)
    ∧ (∀ p, uart_tx_identify cfg huart = some p →
        (s.tx p).head_ptr ≤ (s.tx p).buf_size → (s.tx p).buf_size < 4294967296 →
        ∀ i, (s.tx p).buf_size ≤ i →
          (((uart_dmatx_write cfg huart data len s).1).tx p).send_buf i = (s.tx p).send_buf i)
    ∧ (∀ r, uart_dmatx_send cfg hal fuel huart s = .ok r →
        (∀ q, uart_tx_identify cfg huart ≠ some q → r.1.tx q = s.tx q) ∧ r.1.rx = s.rx)
    ∧ ((∀ q, uart_tx_identify cfg huart ≠ some q →
          ((uart_dmatx_resize_buf cfg hal huart sz s).1).tx q = s.tx q)
        ∧ ((uart_dmatx_resize_buf cfg hal huart sz s).1).rx = s.rx) := by
  refine ⟨?_, ?_, ?_, ?_, ?_, ?_, ?_, ?_, ?_, ?_, ?_, ?_, ?_⟩
  · intro h1 h2 p1 p2 e1 e2 hne hp
    subst hp
    exact hne ((rx_identify_some cfg h1 p1 e1).2.trans (rx_identify_some cfg h2 p1 e2).2.symm)
  · intro h1 h2 p1 p2 e1 e2 hne hp
    subst hp
    exact hne ((tx_identify_some cfg h1 p1 e1).2.trans (tx_identify_some cfg h2 p1 e2).2.symm)
  · intro h p hen hinj hi
    exact rx_identify_of_base cfg h p hen hinj hi
  · intro h p hen hinj hi
    exact tx_identify_of_base cfg h p hen hinj hi
  · exact frame_of_setRx _ s _ (read_state_form cfg huart buf len s)
  · exact frame_of_setRx _ s _ (resize_fifo_state_form cfg huart b f s)
  · intro r hr
    exact frame_of_setRx _ s _ (idle_state_form cfg huart s r hr)
  · intro r hr
    exact frame_of_setRx _ s _ (halfdone_state_form cfg huart s r hr)
  · intro r hr
    exact frame_of_setRx _ s _ (done_state_form cfg hal fuel huart s r hr)
  · exact frame_of_setTx _ s _ (write_state_form cfg huart data len s)
  · intro p hp hhead hsz
    exact dmatx_write_in_block cfg huart data len s p hp hhead hsz
  · intro r hr
    exact frame_of_setTx _ s _ (send_state_form cfg hal fuel huart s r hr)
  · exact frame_of_setTx _ s _ (resize_buf_state_form cfg hal huart sz s)

theorem error_callback_keeps_state (cfg : CSP_Config) (hal : HAL) (fuel : Nat)
    (huart : UART_HandleTypeDef) (s : State) (r : State × List Action)
    (hr : HAL_UART_ErrorCallback cfg hal fuel huart s = .ok r) : r.1 = s := by
  unfold HAL_UART_ErrorCallback at hr
  by_cases h0 : cfg.HAL_UART_ERROR_NONE = hal.GetError
  · simp only [h0, if_true] at hr
    cases hr; rfl
  · simp only [if_neg h0] at hr
    cases hd : huart.hdmarx with
    | none =>
      rw [hd] at hr
      simp only at hr
      split at hr
      · cases hr
      · cases hr; rfl
    | some d =>
      rw [hd] at hr
      simp only at hr
      split at hr
      · cases hr
      · cases hr; rfl

theorem error_callback_none (cfg : CSP_Config) (hal : HAL) (fuel : Nat)
    (huart : UART_HandleTypeDef) (s : State) (h0 : hal.GetError = cfg.HAL_UART_ERROR_NONE) :
    HAL_UART_ErrorCallback cfg hal fuel huart s = .ok (s, []) := by
  simp only [HAL_UART_ErrorCallback, h0, if_true]

/-- C21, failing input: LPUART1 with `RxXferSize = 64` and `head_ptr = 40`
(40 bytes reconciled), then an overrun error.  `HAL_UART_ErrorCallback` clears
the flag and restarts the DMA, and gives back the state with `head_ptr = 40`,
so `head_ptr mod 64` is 40, not 0.  The next idle callback with tail 10 (DMA
counter 54) passes `ring_fifo_write` offset 40 and the wrapped length
`10 - 40 = 4294967266` instead of the range `[0, 10)`; with tail 50 (counter
14) it passes `[40, 50)` and the bytes `[0, 40)` of the restarted transfer are
never copied. -/
theorem error_rearm_leaves_stale_cursor :
    HAL_UART_ErrorCallback exCfg (exHalErr 8) 1 (exHuart 64 24) (exState 40 64)
        = .ok (exState 40 64, [.HAL_UART_CLEAR_OREFLAG, .HAL_UART_Receive_DMA 64])
    ∧ ((exState 40 64).rx .LPUART1).head_ptr % 64 = 40
    ∧ (∃ s1, uart_dmarx_idle_callback exCfg (exHuart 64 54) (exState 40 64)
          = .ok (s1, [.ring_fifo_write .LPUART1 40 4294967266])
        ∧ (s1.rx .LPUART1).head_ptr = 10)
    ∧ (∃ s1, uart_dmarx_idle_callback exCfg (exHuart 64 14) (exState 40 64)
          = .ok (s1, [.ring_fifo_write .LPUART1 40 10])
        ∧ (s1.rx .LPUART1).head_ptr = 50) :=
  ⟨rfl, rfl, ⟨_, rfl, rfl⟩, ⟨_, rfl, rfl⟩⟩

/-- C23, failing input: the error code `HAL_UART_ERROR_PE | HAL_UART_ERROR_ORE`
(9, parity and overrun together).  The `switch` matches whole codes only, so
the callback clears no flag and only re-arms the reception, while for the
single codes 1 (parity) and 8 (overrun) it clears the flag first.  For
`HAL_UART_ERROR_NONE` it does nothing. -/
theorem error_callback_combined_code_clears_nothing :
    exCfg.HAL_UART_ERROR_PE ||| exCfg.HAL_UART_ERROR_ORE = 9
    ∧ HAL_UART_ErrorCallback exCfg (exHalErr 9) 1 (exHuart 64 24) (exState 0 64)
        = .ok (exState 0 64, [.HAL_UART_Receive_DMA 64])
    ∧ HAL_UART_ErrorCallback exCfg (exHalErr 9) 1 (exHuartNoRxDma 64 24) (exState 0 64)
        = .ok (exState 0 64, [.HAL_UART_Receive_IT 40 64])
    ∧ HAL_UART_ErrorCallback exCfg (exHalErr 1) 1 (exHuart 64 24) (exState 0 64)
        = .ok (exState 0 64, [.HAL_UART_CLEAR_PEFLAG, .HAL_UART_Receive_DMA 64])
    ∧ HAL_UART_ErrorCallback exCfg (exHalErr 8) 1 (exHuart 64 24) (exState 0 64)
        = .ok (exState 0 64, [.HAL_UART_CLEAR_OREFLAG, .HAL_UART_Receive_DMA 64])
    ∧ HAL_UART_ErrorCallback exCfg (exHalErr 0) 1 (exHuart 64 24) (exState 0 64)
        = .ok (exState 0 64, []) :=
  ⟨rfl, rfl, rfl, rfl, rfl, rfl⟩

/-! ## Teardown -/

/-- C22, counterexample: the actions of a deinit function on an initialised
port with both DMA directions enabled (LPUART1 under `exCfg`, every HAL call
succeeding).  The UART interrupt is disabled before the first
`HAL_DMA_Abort`, `recv_buf`, `rx_fifo_buf` and the ring are freed before the
interrupt of the receive DMA channel is disabled, and `send_buf` is freed
before the interrupt of the transmit DMA channel is disabled. -/
theorem deinit_frees_before_dma_irq_disable :
    uart_deinit exCfg exHal .LPUART1
        = ([.RCC_CLK_DISABLE, .HAL_GPIO_DeInit .TX, .HAL_GPIO_DeInit .RX,
            .HAL_NVIC_DisableIRQ .UART,
            .HAL_DMA_Abort .dmarx, .CSP_FREE .recv_buf, .CSP_FREE .rx_fifo_buf,
            .ring_fifo_destroy, .HAL_DMA_DeInit .dmarx, .HAL_NVIC_DisableIRQ .RX_DMA,
            .clear_hdmarx,
            .HAL_DMA_Abort .dmatx, .CSP_FREE .send_buf, .HAL_DMA_DeInit .dmatx,
            .HAL_NVIC_DisableIRQ .TX_DMA, .clear_hdmatx,
            .HAL_UART_DeInit], 0)
    ∧ (uart_deinit exCfg exHal .LPUART1).1.indexOf (.HAL_NVIC_DisableIRQ .UART)
        < (uart_deinit exCfg exHal .LPUART1).1.indexOf (.HAL_DMA_Abort .dmarx)
    ∧ (uart_deinit exCfg exHal .LPUART1).1.indexOf (.CSP_FREE .recv_buf)
        < (uart_deinit exCfg exHal .LPUART1).1.indexOf (.HAL_NVIC_DisableIRQ .RX_DMA)
    ∧ (uart_deinit exCfg exHal .LPUART1).1.indexOf (.CSP_FREE .send_buf)
        < (uart_deinit exCfg exHal .LPUART1).1.indexOf (.HAL_NVIC_DisableIRQ .TX_DMA) := by
  refine ⟨rfl, ?_, ?_, ?_⟩ <;> decide

/-- C22 (amended): in every run of a deinit function on an initialised port with
receive and transmit DMA enabled no action is emitted twice, and the order is:
the interrupt of the UART is disabled (when the port uses it) before the
receive DMA is aborted; then `HAL_DMA_Abort`, the frees of `recv_buf` and
`rx_fifo_buf`, `ring_fifo_destroy` and `HAL_DMA_DeInit` of the receive channel;
only then, if that succeeded, the interrupt of the receive channel is disabled,
followed by `HAL_DMA_Abort`, the free of `send_buf` and `HAL_DMA_DeInit` of the
transmit channel; only then, if that succeeded, the interrupt of the transmit
channel is disabled and `HAL_UART_DeInit` is called.  A failing
`HAL_DMA_DeInit` ends the run with status 2 before the interrupt of that
channel is disabled. -/
theorem deinit_order (cfg : CSP_Config) (hal : HAL) (p : Port)
    (hrx : cfg.RX_DMA p = true) (htx : cfg.TX_DMA p = true)
    (hinit : hal.GetState ≠ cfg.HAL_UART_STATE_RESET) :
    (uart_deinit cfg hal p).1.Nodup
    ∧ List.Sublist [.HAL_DMA_Abort .dmarx, .CSP_FREE .recv_buf, .CSP_FREE .rx_fifo_buf,
        .ring_fifo_destroy, .HAL_DMA_DeInit .dmarx] (uart_deinit cfg hal p).1
    ∧ (cfg.IT_ENABLE p = true →
        List.Sublist [.HAL_NVIC_DisableIRQ .UART, .HAL_DMA_Abort .dmarx]
          (uart_deinit cfg hal p).1)
    ∧ (hal.DMA_DeInit_rx ≠ .HAL_OK →
        (uart_deinit cfg hal p).2 = 2
        ∧ DeinitAction.HAL_NVIC_DisableIRQ .RX_DMA ∉ (uart_deinit cfg hal p).1
        ∧ DeinitAction.HAL_DMA_Abort .dmatx ∉ (uart_deinit cfg hal p).1)
    ∧ (hal.DMA_DeInit_rx = .HAL_OK →
        List.Sublist [.HAL_DMA_DeInit .dmarx, .HAL_NVIC_DisableIRQ .RX_DMA, .clear_hdmarx,
          .HAL_DMA_Abort .dmatx, .CSP_FREE .send_buf, .HAL_DMA_DeInit .dmatx]
          (uart_deinit cfg hal p).1)
    ∧ (hal.DMA_DeInit_rx = .HAL_OK → hal.DMA_DeInit_tx ≠ .HAL_OK →
        (uart_deinit cfg hal p).2 = 2
        ∧ DeinitAction.HAL_NVIC_DisableIRQ .TX_DMA ∉ (uart_deinit cfg hal p).1
        ∧ DeinitAction.HAL_UART_DeInit ∉ (uart_deinit cfg hal p).1)
    ∧ (hal.DMA_DeInit_rx = .HAL_OK → hal.DMA_DeInit_tx = .HAL_OK →
        List.Sublist [.HAL_DMA_DeInit .dmatx, .HAL_NVIC_DisableIRQ .TX_DMA, .clear_hdmatx,
          .HAL_UART_DeInit] (uart_deinit cfg hal p).1
        ∧ ((uart_deinit cfg hal p).2 = 0 ↔ hal.UART_DeInit = .HAL_OK)
        ∧ ((uart_deinit cfg hal p).2 = 1 ↔ hal.UART_DeInit ≠ .HAL_OK)) := by
  simp only [uart_deinit, if_neg hinit, hrx, htx, true_and, if_true, deinit_head,
    deinit_rx_first, deinit_rx_rest, deinit_tx_first, deinit_tx_rest]
  by_cases hxr : hal.DMA_DeInit_rx = .HAL_OK <;> by_cases hxt : hal.DMA_DeInit_tx = .HAL_OK <;>
    by_cases hu : hal.UART_DeInit = .HAL_OK <;>
    simp only [hxr, hxt, hu, ne_eq, not_true_eq_false, not_false_eq_true, if_true, if_false,
      true_implies, false_implies, and_true, true_and, implies_true,
      ↓reduceIte] <;>
    cases cfg.PIN_TX p <;> cases cfg.PIN_RX p <;> cases cfg.PIN_CTS p <;>
    cases cfg.PIN_RTS p <;> cases cfg.IT_ENABLE p <;>
    cases cfg.USE_HAL_UART_REGISTER_CALLBACKS <;> decide

/-- C22 (amended), instance: LPUART1 under `exCfg` with every HAL call
succeeding. -/
theorem deinit_order_witness :
    exCfg.RX_DMA .LPUART1 = true ∧ exCfg.TX_DMA .LPUART1 = true
    ∧ exHal.GetState ≠ exCfg.HAL_UART_STATE_RESET
    ∧ (uart_deinit exCfg exHal .LPUART1).1.Nodup
    ∧ List.Sublist [.HAL_DMA_Abort .dmarx, .CSP_FREE .recv_buf, .CSP_FREE .rx_fifo_buf,
        .ring_fifo_destroy, .HAL_DMA_DeInit .dmarx] (uart_deinit exCfg exHal .LPUART1).1
    ∧ List.Sublist [.HAL_NVIC_DisableIRQ .UART, .HAL_DMA_Abort .dmarx]
        (uart_deinit exCfg exHal .LPUART1).1
    ∧ List.Sublist [.HAL_DMA_DeInit .dmarx, .HAL_NVIC_DisableIRQ .RX_DMA, .clear_hdmarx,
        .HAL_DMA_Abort .dmatx, .CSP_FREE .send_buf, .HAL_DMA_DeInit .dmatx]
        (uart_deinit exCfg exHal .LPUART1).1
    ∧ List.Sublist [.HAL_DMA_DeInit .dmatx, .HAL_NVIC_DisableIRQ .TX_DMA, .clear_hdmatx,
        .HAL_UART_DeInit] (uart_deinit exCfg exHal .LPUART1).1
    ∧ (uart_deinit exCfg exHal .LPUART1).2 = 0 := by
  obtain ⟨h1, h2, h3, -, h5, -, h7⟩ :=
    deinit_order exCfg exHal .LPUART1 rfl rfl (by decide)
  exact ⟨rfl, rfl, by decide, h1, h2, h3 rfl, h5 rfl, (h7 rfl rfl).1,
    (h7 rfl rfl).2.1.mpr rfl⟩

/-! ## Formatted print -/

theorem vsnprintf_short (buf : Nat → Nat) (formatted : List Nat)
    (h : formatted.length < 256) :
    (List.range formatted.length).map (vsnprintf buf 256 formatted).1 = formatted
    ∧ (vsnprintf buf 256 formatted).1 formatted.length = 0 := by
  have hmin : min formatted.length (256 - 1) = formatted.length := by
    rw [Nat.min_def]; split_ifs <;> omega
  constructor
  · apply List.ext_getElem
    · simp
    · intro i h1 h2
      simp only [List.length_map, List.length_range] at h1
      simp only [List.getElem_map, List.getElem_range, vsnprintf, hmin]
      simp [h1, List.getD_eq_getElem _ 0 h1]
  · simp [vsnprintf, hmin]

theorem vsnprintf_long (buf : Nat → Nat) (formatted : List Nat)
    (h : 256 ≤ formatted.length) :
    (List.range 255).map (vsnprintf buf 256 formatted).1 = formatted.take 255
    ∧ (vsnprintf buf 256 formatted).1 255 = 0
    ∧ ∀ i, 256 ≤ i → (vsnprintf buf 256 formatted).1 i = buf i := by
  have hmin : min formatted.length (256 - 1) = 255 := by
    rw [Nat.min_def]; split_ifs <;> omega
  refine ⟨?_, ?_, ?_⟩
  · apply List.ext_getElem
    · simp; omega
    · intro i h1 h2
      simp only [List.length_map, List.length_range] at h1
      have hi : i < formatted.length := by omega
      simp only [List.getElem_map, List.getElem_range, vsnprintf, hmin, List.getElem_take]
      simp [h1, List.getElem?_eq_getElem hi]
  · simp [vsnprintf, hmin]
  · intro i hi
    have h1 : ¬ i < 255 := by omega
    have h2 : ¬ i = 255 := by omega
    simp [vsnprintf, hmin, h1, h2]

/-- C30: on a ready UART whose transmit-complete flag is eventually set,
`uart_printf` returns the length `n` of the full formatted output and starts
one transfer (`HAL_UART_Transmit_DMA` when `hdmatx` is bound, otherwise
`HAL_UART_Transmit` with timeout 1000) whose source is `uart_buffer` and whose
size is `n` reduced mod 2^16.  For `n < 256` the size is `n` and the first `n`
bytes of the source are the formatted text; for `256 < n < 65536` the size is
`n`, which exceeds the 256 bytes of `uart_buffer`, of which only the first 255
hold formatted text. -/
theorem printf_transmits_reported_length (cfg : CSP_Config) (hal : HAL) (fuel : Nat)
    (huart : UART_HandleTypeDef) (uart_buffer : Nat → Nat) (formatted : List Nat) (k : Nat)
    (hready : huart.gState &&& cfg.HAL_UART_STATE_READY ≠ 0)
    (hk : k < fuel) (htc : hal.UART_FLAG_TC k = true) :
    ∃ buf size,
      uart_printf cfg hal fuel huart uart_buffer formatted
        = .ok (buf, formatted.length,
            [if huart.hdmatx.isSome then .printf_Transmit_DMA buf size
             else .printf_Transmit buf size 1000])
      ∧ size = formatted.length % 65536
      ∧ (formatted.length < 256 →
          size = formatted.length ∧ (List.range size).map buf = formatted)
      ∧ (256 ≤ formatted.length →
          (List.range 255).map buf = formatted.take 255 ∧ buf 255 = 0
          ∧ ∀ i, 256 ≤ i → buf i = uart_buffer i)
      ∧ (256 < formatted.length → formatted.length < 65536 →
          size = formatted.length ∧ 256 < size) := by
  obtain ⟨m, hm⟩ := wait_TC_ends hal fuel 0 k (Nat.zero_le _) (by omega) htc
  refine ⟨(vsnprintf uart_buffer 256 formatted).1, formatted.length % 65536, ?_, rfl, ?_, ?_, ?_⟩
  · have hlen : (vsnprintf uart_buffer 256 formatted).2 = formatted.length := by
      simp [vsnprintf]
    cases hd : huart.hdmatx <;>
      simp [uart_printf, hready, hm, hd, hlen]
  · intro h
    have hs : formatted.length % 65536 = formatted.length := Nat.mod_eq_of_lt (by omega)
    rw [hs]
    exact ⟨rfl, (vsnprintf_short uart_buffer formatted h).1⟩
  · intro h
    exact vsnprintf_long uart_buffer formatted h
  · intro h1 h2
    have hs : formatted.length % 65536 = formatted.length := Nat.mod_eq_of_lt h2
    rw [hs]
    exact ⟨rfl, h1⟩

/-- C30, instances: on LPUART1 with transmit DMA a 300-character output makes
`uart_printf` return 300 and start a DMA transfer of 300 bytes from the
256-byte buffer; a 3-character output is sent whole; a 65537-character output
is reported as 65537 and sent with size 1. -/
theorem printf_transmits_reported_length_witness :
    (exHuart 64 64).gState &&& exCfg.HAL_UART_STATE_READY ≠ 0
    ∧ exHal.UART_FLAG_TC 0 = true
    ∧ (∃ buf, uart_printf exCfg exHal 1 (exHuart 64 64) (fun _ => 0) (List.replicate 300 65)
          = .ok (buf, 300, [.printf_Transmit_DMA buf 300])
        ∧ (List.range 255).map buf = List.replicate 255 65 ∧ buf 255 = 0)
    ∧ (∃ buf, uart_printf exCfg exHal 1 (exHuart 64 64) (fun _ => 0) [72, 105, 10]
          = .ok (buf, 3, [.printf_Transmit_DMA buf 3])
        ∧ (List.range 3).map buf = [72, 105, 10])
    ∧ (∃ buf, uart_printf exCfg exHal 1 (exHuartRxOnly 64 64) (fun _ => 0) [72, 105, 10]
          = .ok (buf, 3, [.printf_Transmit buf 3 1000]))
    ∧ (∃ buf, uart_printf exCfg exHal 1 (exHuart 64 64) (fun _ => 0) (List.replicate 65537 65)
          = .ok (buf, 65537, [.printf_Transmit_DMA buf 1])) := by
  have hready : (exHuart 64 64).gState &&& exCfg.HAL_UART_STATE_READY ≠ 0 := by decide
  have hready2 : (exHuartRxOnly 64 64).gState &&& exCfg.HAL_UART_STATE_READY ≠ 0 := by decide
  refine ⟨hready, rfl, ?_, ?_, ?_, ?_⟩
  · obtain ⟨buf, size, h1, h2, -, h4, h5⟩ := printf_transmits_reported_length exCfg exHal 1
      (exHuart 64 64) (fun _ => 0) (List.replicate 300 65) 0 hready (by decide) rfl
    have hl : (List.replicate 300 65).length = 300 := List.length_replicate _ _
    rw [hl] at h1 h4 h5
    obtain ⟨hs, -⟩ := h5 (by decide) (by decide)
    subst hs
    refine ⟨buf, h1, ?_, (h4 (by decide)).2.1⟩
    rw [(h4 (by decide)).1, List.take_replicate]
    rfl
  · obtain ⟨buf, size, h1, -, h3, -, -⟩ := printf_transmits_reported_length exCfg exHal 1
      (exHuart 64 64) (fun _ => 0) [72, 105, 10] 0 hready (by decide) rfl
    obtain ⟨hs, hb⟩ := h3 (by decide)
    subst hs
    exact ⟨buf, h1, hb⟩
  · obtain ⟨buf, size, h1, -, h3, -, -⟩ := printf_transmits_reported_length exCfg exHal 1
      (exHuartRxOnly 64 64) (fun _ => 0) [72, 105, 10] 0 hready2 (by decide) rfl
    obtain ⟨hs, -⟩ := h3 (by decide)
    subst hs
    exact ⟨buf, h1⟩
  · obtain ⟨buf, size, h1, h2, -, -, -⟩ := printf_transmits_reported_length exCfg exHal 1
      (exHuart 64 64) (fun _ => 0) (List.replicate 65537 65) 0 hready (by decide) rfl
    have hl : (List.replicate 65537 65).length = 65537 := List.length_replicate _ _
    rw [hl] at h1 h2
    subst h2
    exact ⟨buf, h1⟩

end UartCsp
